import Mathlib

/-!
# gorest-codegen: field extractor, identifier normalizer, authentication policy
resolver and DTO synthesizer

A shallow embedding of `codegen/auth_config.go`, `codegen/dto.go`, `codegen/ast.go` and
the case-conversion and singularization functions of `codegen/model.go`, followed by
the properties proved of them.

Conventions of the embedding

* A Go `string` is a sequence of bytes: `GoString := List Nat`, each element a byte value.
  `str` turns a Lean literal into its UTF-8 bytes, as the Go compiler does for a literal.
* A Go `map[string]V` is an association list with pairwise distinct keys (`AList`);
  a map value that may be `nil` is an `Option` of one. Reading a `nil` map finds nothing.
* A Go `*bool` is an `Option Bool`, `none` standing for `nil`.
* A Go slice is a `List`; a `nil` slice and an empty one are both `[]`
  (the code only ranges over them).
* A `for ... range` loop over a slice is a `List.foldl` of the loop body, or a
  structural recursion when the loop leaves early.
* `strings.Map(unicode.ToLower, ·)`, the non-ASCII path of Go's `strings.ToLower`,
  and `cases.Title(language.English).String` (golang.org/x/text) are library code with
  Unicode tables; they are parameters (`unicodeLower`, `title`) of what uses them.
* A slice or index expression that Go checks at run time returns an `Option`, `none`
  standing for the panic (`sliceTo`, `byteAt`); indices are signed, as Go's `int`.
* The syntax tree of go/ast is a small inductive type; the file that `parser.ParseFile`
  reads is an argument, `none` when parsing fails.
-/

namespace Codegen

/-! ## Strings -/

/-- Go strings are byte sequences. -/
abbrev GoString := List Nat

/-- UTF-8 encoding of one code point. -/
def utf8EncodeRune (c : Nat) : List Nat :=
  if c < 0x80 then [c]
  else if c < 0x800 then [0xC0 + c / 64, 0x80 + c % 64]
  else if c < 0x10000 then [0xE0 + c / 4096, 0x80 + c / 64 % 64, 0x80 + c % 64]
  else [0xF0 + c / 262144, 0x80 + c / 4096 % 64, 0x80 + c / 64 % 64, 0x80 + c % 64]

/-- The bytes of a string literal. -/
def str (s : String) : GoString :=
  s.toList.flatMap (fun c => utf8EncodeRune c.toNat)

/-- Go `strings.ToLower`: a string of ASCII bytes only has its bytes `A`..`Z` moved to
`a`..`z` and every other byte kept; any other string goes through
`strings.Map(unicode.ToLower, s)`, here `unicodeLower`. -/
def strings_ToLower (unicodeLower : GoString → GoString) (s : GoString) : GoString :=
  if s.all (fun c => decide (c < 0x80)) then
    s.map (fun c => if 65 ≤ c ∧ c ≤ 90 then c + 32 else c)
  else unicodeLower s

/-- Go `strings.Split(s, sep)` for a one-byte separator: the pieces between the
separators, in order; always at least one piece. -/
def strings_Split (sep : Nat) : GoString → List GoString
  | [] => [[]]
  | c :: cs =>
    if c = sep then [] :: strings_Split sep cs
    else
      match strings_Split sep cs with
      | [] => [[c]]
      | p :: ps => (c :: p) :: ps

/-- Go `strings.Contains(s, sep)` for a one-byte `sep`. -/
def strings_Contains (s : GoString) (sep : Nat) : Bool :=
  s.any (fun c => decide (c = sep))

/-! ## Maps -/

/-- Go `map[string]V`. -/
abbrev GoMap (V : Type) := AList (fun _ : GoString => V)

/-- The map literal or `make(map[string]V)` filled with the given pairs, in order. -/
def GoMap.ofList {V : Type} (l : List (GoString × V)) : GoMap V :=
  l.foldl (fun m kv => m.insert kv.1 kv.2) ∅

/-- Go `v, ok := m[k]` on a map that may be nil. -/
def GoMap.get? {V : Type} (m : Option (GoMap V)) (k : GoString) : Option V :=
  match m with
  | none => none
  | some m => m.lookup k

/-! ## Configuration tree (package `gorest/config`, as this package reads it) -/

/-- One per-resource override record: `config.EndpointAuthConfig`. -/
structure EndpointAuthConfig where
  Name : GoString
  GET : Option Bool
  POST : Option Bool
  PUT : Option Bool
  DELETE : Option Bool
  PATCH : Option Bool

/-- Type `config.CodegenAuthConfig`. -/
structure CodegenAuthConfig where
  Enabled : Bool
  Defaults : Option (GoMap Bool)
  Endpoints : List EndpointAuthConfig

/-- Output directories of `config.CodegenConfig`. -/
structure CodegenOutputConfig where
  Models : GoString
  Resources : GoString
  DTOs : GoString
  OpenAPI : GoString
  Config : GoString

/-- Type `config.CodegenConfig`. -/
structure CodegenConfig where
  Auth : CodegenAuthConfig
  Output : CodegenOutputConfig

/-- Type `config.Config`. -/
structure Config where
  Codegen : CodegenConfig

/-- A configuration tree with the given auth section and empty output paths. -/
def Config.ofAuth (enabled : Bool) (defaults : Option (GoMap Bool))
    (endpoints : List EndpointAuthConfig) : Config :=
  ⟨⟨⟨enabled, defaults, endpoints⟩, ⟨[], [], [], [], []⟩⟩⟩

/-! ## auth_config.go -/

/-- Which endpoints require authentication. -/
structure AuthConfig where
  Enabled : Bool
  RequireAuth : Option (GoMap (List GoString))

/-- The default auth requirements for all methods: secure defaults (all true),
overridden by `codegen.auth.defaults` when that map is non-nil and non-empty. -/
def getDefaultMethods (cfg : Config) : GoMap Bool :=
  let defaults : GoMap Bool := GoMap.ofList
    [(str "GET", true), (str "POST", true), (str "PUT", true),
     (str "DELETE", true), (str "PATCH", true)]
  match cfg.Codegen.Auth.Defaults with
  | none => defaults
  | some d =>
    if 0 < d.entries.length then
      d.entries.foldl (fun acc kv => acc.insert kv.1 kv.2) defaults
    else defaults

/-- The method-specific value of an endpoint record. The Go function returns the
pointer together with `pointer != nil`; the `Option` carries both. -/
def getMethodValue (endpoint : EndpointAuthConfig) (method : GoString) : Option Bool :=
  if method = str "GET" then endpoint.GET
  else if method = str "POST" then endpoint.POST
  else if method = str "PUT" then endpoint.PUT
  else if method = str "DELETE" then endpoint.DELETE
  else if method = str "PATCH" then endpoint.PATCH
  else none

/-- Resource-specific value first, then the defaults map, then `true`. -/
def shouldRequireAuth (method : GoString) (endpoint : EndpointAuthConfig)
    (defaultMethods : GoMap Bool) : Bool :=
  match getMethodValue endpoint method with
  | some value => value
  | none =>
    match defaultMethods.lookup method with
    | some requireAuth => requireAuth
    | none => true

/-- The `standardMethods` slice of `buildAuthFromEndpoints`. -/
def standardMethods : List GoString :=
  [str "GET", str "POST", str "PUT", str "DELETE", str "PATCH"]

/-- Builds the auth config from the endpoints configuration. -/
def buildAuthFromEndpoints (cfg : Config) : AuthConfig :=
  let defaultMethods := getDefaultMethods cfg
  let requireAuth : GoMap (List GoString) :=
    cfg.Codegen.Auth.Endpoints.foldl
      (fun m endpoint =>
        let requiredAuthMethods : List GoString :=
          standardMethods.foldl
            (fun acc method =>
              if shouldRequireAuth method endpoint defaultMethods then acc ++ [method]
              else acc)
            []
        m.insert endpoint.Name requiredAuthMethods)
      ∅
  ⟨cfg.Codegen.Auth.Enabled, some requireAuth⟩

/-- Creates an AuthConfig from the unified config. -/
def GetAuthConfigFromConfig (cfg : Config) : AuthConfig :=
  let ac : AuthConfig := ⟨cfg.Codegen.Auth.Enabled, some ∅⟩
  if !cfg.Codegen.Auth.Enabled then ac
  else buildAuthFromEndpoints cfg

/-- A configuration that requires auth for the CRUD operations of users and todos. -/
def DefaultAuthConfig : AuthConfig :=
  ⟨true, some (GoMap.ofList
    [(str "users", [str "GET", str "POST", str "PUT", str "DELETE"]),
     (str "todos", [str "GET", str "POST", str "PUT", str "DELETE"])])⟩

/-- A configuration with no authentication requirements. -/
def NoAuthConfig : AuthConfig :=
  ⟨false, some ∅⟩

/-- The final loop of `RequiresAuth`: is `method` one of `methods`? -/
def methodListed (method : GoString) : List GoString → Bool
  | [] => false
  | m :: ms => if m = method then true else methodListed method ms

/-- Does this resource and HTTP method require authentication? -/
def AuthConfig.RequiresAuth (c : AuthConfig) (resource method : GoString) : Bool :=
  if !c.Enabled then false
  else
    match GoMap.get? c.RequireAuth resource with
    | none => true
    | some methods => methodListed method methods

/-- Sets the authentication requirements for a resource; the receiver after the call. -/
def AuthConfig.SetResourceAuth (c : AuthConfig) (resource : GoString)
    (methods : List GoString) : AuthConfig :=
  let m : GoMap (List GoString) :=
    match c.RequireAuth with
    | none => ∅
    | some m => m
  ⟨c.Enabled, some (m.insert resource methods)⟩

/-! ## ast.go: field descriptors -/

/-- One extracted struct field (`Typ` is the Go field `Type`). -/
structure StructField where
  Name : GoString
  Typ : GoString
  JSONTag : GoString
  DBTag : GoString
  DTOTag : GoString
  IsPointer : Bool

/-! ## constants.go -/

/-- Persistence key of the identity column. -/
def FieldID : GoString := str "id"

/-- Persistence key of the creation timestamp. -/
def FieldCreatedAt : GoString := str "created_at"

/-- Persistence key of the modification timestamp. -/
def FieldUpdatedAt : GoString := str "updated_at"

/-! ## dto.go -/

/-- The loop of `toJSONCamelCase` over `parts[1:]`: append the title-cased parts. -/
def appendTitled (title : GoString → GoString) (result : GoString) :
    List GoString → GoString
  | [] => result
  | p :: ps => appendTitled title (result ++ title p) ps

/-- Derived serialization key: with an underscore, the lower-cased first segment
followed by the title-cased others; without, `strings.ToLower(s[:1]) + s[1:]`,
where `s[:1]` is the first byte of `s`. -/
def toJSONCamelCase (unicodeLower title : GoString → GoString) (s : GoString) : GoString :=
  if s = str "" then s
  else if strings_Contains s 95 then
    match strings_Split 95 s with
    | [] => []
    | p0 :: rest => appendTitled title (strings_ToLower unicodeLower p0) rest
  else strings_ToLower unicodeLower (s.take 1) ++ s.drop 1

/-- Field lines of the read DTO. -/
def generateDTOFields (unicodeLower title : GoString → GoString)
    (fields : List StructField) : GoString :=
  fields.foldl
    (fun result field =>
      if field.DTOTag = str "-" ∨ field.DTOTag = str "write" then result
      else
        let typeStr := if field.IsPointer then str "*" ++ field.Typ else field.Typ
        let jsonTag :=
          if field.JSONTag = str "" then toJSONCamelCase unicodeLower title field.Name
          else field.JSONTag
        result ++ (str "\t" ++ field.Name ++ str " " ++ typeStr ++ str " `json:\""
          ++ jsonTag ++ str "\"`\n"))
    []

/-- Field lines of the create DTO. -/
def generateCreateDTOFields (unicodeLower title : GoString → GoString)
    (fields : List StructField) : GoString :=
  fields.foldl
    (fun result field =>
      let dbTag := strings_ToLower unicodeLower field.DBTag
      if dbTag = FieldID ∨ dbTag = FieldCreatedAt ∨ dbTag = FieldUpdatedAt then result
      else if field.DTOTag = str "-" ∨ field.DTOTag = str "read" then result
      else
        let typeStr := if field.IsPointer then str "*" ++ field.Typ else field.Typ
        let jsonTag :=
          if field.JSONTag = str "" then toJSONCamelCase unicodeLower title field.Name
          else field.JSONTag
        result ++ (str "\t" ++ field.Name ++ str " " ++ typeStr ++ str " `json:\""
          ++ jsonTag ++ str "\"`\n"))
    []

/-- Field lines of the update DTO. -/
def generateUpdateDTOFields (unicodeLower title : GoString → GoString)
    (fields : List StructField) : GoString :=
  fields.foldl
    (fun result field =>
      let dbTag := strings_ToLower unicodeLower field.DBTag
      if dbTag = FieldID ∨ dbTag = FieldCreatedAt ∨ dbTag = FieldUpdatedAt then result
      else if field.DTOTag = str "-" ∨ field.DTOTag = str "read" then result
      else
        let typeStr := if field.IsPointer then str "*" ++ field.Typ else field.Typ
        let jsonTag :=
          if field.JSONTag = str "" then toJSONCamelCase unicodeLower title field.Name
          else field.JSONTag
        result ++ (str "\t" ++ field.Name ++ str " " ++ typeStr ++ str " `json:\""
          ++ jsonTag ++ str "\"`\n"))
    []

/-- The first loop of `generateDTOsFromModel`: stop at the first field of type
`time.Time`. -/
def needsTimeImport : List StructField → Bool
  | [] => false
  | f :: fs => if f.Typ = str "time.Time" then true else needsTimeImport fs

/-- The text of a DTO source file for one model. -/
def generateDTOsFromModel (unicodeLower title : GoString → GoString)
    (structName : GoString) (fields : List StructField) : GoString :=
  let timeImport := if needsTimeImport fields then str "import \"time\"" else str ""
  let dtoFields := generateDTOFields unicodeLower title fields
  let createFields := generateCreateDTOFields unicodeLower title fields
  let updateFields := generateUpdateDTOFields unicodeLower title fields
  str "package dtos\n\n" ++ timeImport ++ str "\n\ntype " ++ structName
    ++ str "DTO struct \x7b\n" ++ dtoFields ++ str "\x7d\n\ntype " ++ structName
    ++ str "CreateDTO struct \x7b\n" ++ createFields ++ str "\x7d\n\ntype " ++ structName
    ++ str "UpdateDTO struct \x7b\n" ++ updateFields ++ str "\x7d\n"

/-! ## Sample configurations -/

/-- The defaults map `{GET: false, POST: true}`. -/
def defaultsPublicGet : GoMap Bool :=
  GoMap.ofList [(str "GET", false), (str "POST", true)]

/-- An endpoint record for `products` with every verb unset. -/
def productsSilent : EndpointAuthConfig :=
  ⟨str "products", none, none, none, none, none⟩

/-- An endpoint record for `products` that only overrides POST. -/
def productsPost : EndpointAuthConfig :=
  ⟨str "products", none, some true, none, none, none⟩

/-- An endpoint record for `users` that makes GET public. -/
def usersPublicGet : EndpointAuthConfig :=
  ⟨str "users", some false, none, none, none, none⟩

/-- An endpoint record for `users` that protects GET and opens DELETE. -/
def usersOpenDelete : EndpointAuthConfig :=
  ⟨str "users", some true, none, none, some false, none⟩

/-- The defaults map of `TestGetAuthConfigWithDefaultPublicGet`. -/
def defaultsOfTest : GoMap Bool :=
  GoMap.ofList [(str "GET", false), (str "POST", true), (str "PUT", true), (str "DELETE", true)]

/-- The endpoint record of `TestGetAuthConfigSecureByDefault`. -/
def ordersPublicGet : EndpointAuthConfig :=
  ⟨str "orders", some false, none, none, none, none⟩

/-! ## DTO synthesizer: the specification's notions -/

/-- The text emitted for one included field: a tab, the name, a space, the type with a
leading `*` when the pointer flag is set, a space, and the backquoted tag `json:"K"`,
ended by a newline; `K` is the JSONTag when non-empty, else `toJSONCamelCase Name`. -/
def dtoFieldLine (unicodeLower title : GoString → GoString) (f : StructField) : GoString :=
  str "\t" ++ f.Name ++ str " " ++ (if f.IsPointer then str "*" else str "") ++ f.Typ
    ++ str " `json:\""
    ++ (if f.JSONTag = str "" then toJSONCamelCase unicodeLower title f.Name else f.JSONTag)
    ++ str "\"`\n"

/-- Read DTO rule: include the field unless its visibility is exclude (`-`) or `write`. -/
def inReadDTO (f : StructField) : Bool :=
  !(decide (f.DTOTag = str "-") || decide (f.DTOTag = str "write"))

/-- Two keys compared case-insensitively: equal once both are lower-cased. -/
def equalIgnoringCase (unicodeLower : GoString → GoString) (a b : GoString) : Bool :=
  decide (strings_ToLower unicodeLower a = strings_ToLower unicodeLower b)

/-- Create and update DTO rule: include the field unless its persistence key is,
case-insensitively, `id`, `created_at` or `updated_at`, or its visibility is exclude
(`-`) or `read`. -/
def inWriteDTO (unicodeLower : GoString → GoString) (f : StructField) : Bool :=
  !(equalIgnoringCase unicodeLower f.DBTag (str "id")
      || equalIgnoringCase unicodeLower f.DBTag (str "created_at")
      || equalIgnoringCase unicodeLower f.DBTag (str "updated_at"))
    && !(decide (f.DTOTag = str "-") || decide (f.DTOTag = str "read"))

/-- The given text has a line that reads `import "time"`. -/
def hasTimeImportLine (text : GoString) : Bool :=
  decide (str "import \"time\"" ∈ strings_Split 10 text)

/-! ## Sample fields -/

/-- A field as extracted from
``DeletedAt *time.Time `json:"deleted_at" db:"deleted_at" dto:"-"` ``. -/
def hiddenDeletedAt : StructField :=
  ⟨str "DeletedAt", str "time.Time", str "deleted_at", str "deleted_at", str "-", true⟩

/-- A field as extracted from ``Email string `json:"email" db:"email"` ``. -/
def emailField : StructField :=
  ⟨str "Email", str "string", str "email", str "email", str "", false⟩

/-- A field as extracted from ``Password string `db:"password" dto:"write"` ``. -/
def passwordField : StructField :=
  ⟨str "Password", str "string", str "", str "password", str "write", false⟩

/-- A field as extracted from ``Id *string `json:"id" db:"ID" dto:"read"` ``. -/
def idField : StructField :=
  ⟨str "Id", str "string", str "id", str "ID", str "read", true⟩

/-- A field as extracted from ``Élan string``: no tag, a non-ASCII first letter. -/
def elanField : StructField :=
  ⟨str "Élan", str "string", str "", str "", str "", false⟩

/-! ## More of package `strings` -/

/-- Go `strings.HasPrefix`. -/
def strings_HasPrefix (s pre : GoString) : Bool :=
  pre.isPrefixOf s

/-- Go `strings.HasSuffix`. -/
def strings_HasSuffix (s suffix : GoString) : Bool :=
  suffix.isSuffixOf s

/-- Go `strings.TrimPrefix`: `s` without the leading `pre`, or `s` itself. -/
def strings_TrimPrefix (s pre : GoString) : GoString :=
  if strings_HasPrefix s pre then s.drop pre.length else s

/-- Go `strings.Trim(s, cutset)` for a cutset of one ASCII byte: all leading and
trailing occurrences of the byte removed. -/
def strings_Trim (s : GoString) (c : Nat) : GoString :=
  ((s.dropWhile (fun b => decide (b = c))).reverse.dropWhile (fun b => decide (b = c))).reverse

/-- Go `strings.Join(parts, sep)`. -/
def strings_Join (parts : List GoString) (sep : GoString) : GoString :=
  sep.intercalate parts

/-- The code points with the Unicode White_Space property: what `unicode.IsSpace`
accepts. -/
def whiteSpaceRunes : List Nat :=
  [0x09, 0x0A, 0x0B, 0x0C, 0x0D, 0x20, 0x85, 0xA0, 0x1680,
   0x2000, 0x2001, 0x2002, 0x2003, 0x2004, 0x2005, 0x2006, 0x2007, 0x2008, 0x2009, 0x200A,
   0x2028, 0x2029, 0x202F, 0x205F, 0x3000]

/-- The number of bytes of the white space character that `s` starts with, 0 when it
starts with none. -/
def spaceWidth (s : GoString) : Nat :=
  match (whiteSpaceRunes.map utf8EncodeRune).find? (fun enc => enc.isPrefixOf s) with
  | some enc => enc.length
  | none => 0

/-- The scan of `strings.Fields`: `skip` bytes of a white space character are still to
be passed over, `cur` is the field read so far. -/
def fieldsScan : GoString → Nat → GoString → List GoString
  | [], _, cur => if cur = [] then [] else [cur]
  | _ :: rest, skip + 1, cur => fieldsScan rest skip cur
  | b :: rest, 0, cur =>
    if 0 < spaceWidth (b :: rest) then
      (if cur = [] then [] else [cur]) ++ fieldsScan rest (spaceWidth (b :: rest) - 1) []
    else fieldsScan rest 0 (cur ++ [b])

/-- Go `strings.Fields`: the maximal runs of characters that are not white space, in
order. Go decodes `s` rune by rune; a lead byte always starts a rune and the bytes
`0x80..0xBF` that follow one never start the encoding of a white space character, so
looking for those encodings byte by byte finds the same fields. -/
def strings_Fields (s : GoString) : List GoString :=
  fieldsScan s 0 []

/-- Go `s[:hi]` with a signed bound: `none` stands for the run-time panic on a bound
outside `0..len(s)`. -/
def sliceTo (s : GoString) (hi : Int) : Option GoString :=
  if 0 ≤ hi ∧ hi ≤ (s.length : Int) then some (s.take hi.toNat) else none

/-- Go `s[i]` with a signed index: `none` stands for the run-time panic on an index
outside `0..len(s)-1`. -/
def byteAt (s : GoString) (i : Int) : Option Nat :=
  if 0 ≤ i ∧ i < (s.length : Int) then s.get? i.toNat else none

/-! ## go/ast, as far as the extractor looks at it -/

/-- A type expression (`ast.Expr` in type position). `Other` stands for every node the
extractor has no case for: function, channel and struct types, parenthesised and
generic types. -/
inductive AstExpr where
  | Ident (Name : GoString)
  | StarExpr (X : AstExpr)
  | SelectorExpr (X : AstExpr) (Sel : GoString)
  | InterfaceType
  | MapType (Key Value : AstExpr)
  | ArrayType (Elt : AstExpr)
  | Other
  deriving DecidableEq

/-- One field declaration of a struct (`ast.Field`): its names (none for an embedded
field, several for `A, B string`), its type and its tag literal as written, quotes
included (`nil` when there is no tag). -/
structure AstField where
  Names : List GoString
  Typ : AstExpr
  Tag : Option GoString

/-- The type of a type declaration: a struct type with its field list, or anything
else. -/
inductive AstTypeExpr where
  | StructType (Fields : List AstField)
  | NotStruct

/-- One spec of a general declaration: a type spec or another (import, value) spec. -/
inductive AstSpec where
  | TypeSpec (Name : GoString) (Typ : AstTypeExpr)
  | OtherSpec

/-- One top-level declaration. -/
inductive AstDecl where
  | GenDecl (Specs : List AstSpec)
  | FuncDecl

/-- A parsed source file (`ast.File`). -/
structure AstFile where
  Decls : List AstDecl

/-! ## ast.go -/

/-- The loop of `extractTag` over the fields of the tag string. -/
def extractTagLoop (key : GoString) : List GoString → GoString
  | [] => str ""
  | tag :: tags =>
    if strings_HasPrefix tag (key ++ str ":") then
      strings_Trim (strings_TrimPrefix tag (key ++ str ":")) 34
    else extractTagLoop key tags

/-- The value of `key` in a struct tag literal. -/
def extractTag (tagString key : GoString) : GoString :=
  extractTagLoop key (strings_Fields (strings_Trim tagString 96))

/-- The field descriptors of a struct type. -/
def extractStructFieldsFromAST (st : List AstField) : List StructField :=
  st.foldl
    (fun fields field =>
      if field.Names.length = 0 then fields
      else
        let fieldName := field.Names.headD []
        let typ : GoString × Bool :=
          match field.Typ with
          | .Ident name => (name, false)
          | .StarExpr x =>
            match x with
            | .Ident name => (name, true)
            | .SelectorExpr (.Ident pkg) sel => (pkg ++ str "." ++ sel, true)
            | _ => (str "", true)
          | .SelectorExpr (.Ident pkg) sel => (pkg ++ str "." ++ sel, false)
          | .InterfaceType => (str "interface\x7b\x7d", false)
          | .MapType _ _ => (str "map[string]interface\x7b\x7d", false)
          | _ => (str "", false)
        let tags : GoString × GoString × GoString :=
          match field.Tag with
          | none => (str "", str "", str "")
          | some tag =>
            ((strings_Split 44 (extractTag tag (str "json"))).headD [],
             extractTag tag (str "db"), extractTag tag (str "dto"))
        fields ++ [StructField.mk fieldName typ.1 tags.1 tags.2.1 tags.2.2 typ.2])
    []

/-- The field descriptors of the struct type `structName` of a source file; `node` is
what `parser.ParseFile` returned, `none` for a parse error. -/
def extractStructFields (node : Option AstFile) (structName : GoString) : List StructField :=
  match node with
  | none => []
  | some node =>
    node.Decls.foldl
      (fun fields decl =>
        match decl with
        | .FuncDecl => fields
        | .GenDecl specs =>
          specs.foldl
            (fun fields spec =>
              match spec with
              | .OtherSpec => fields
              | .TypeSpec name typ =>
                if name ≠ structName then fields
                else
                  match typ with
                  | .NotStruct => fields
                  | .StructType st =>
                    st.foldl
                      (fun fields field =>
                        if field.Names.length = 0 then fields
                        else
                          let fieldName := field.Names.headD []
                          let typ : GoString × Bool :=
                            match field.Typ with
                            | .Ident name => (name, false)
                            | .StarExpr x =>
                              match x with
                              | .Ident name => (name, true)
                              | .SelectorExpr (.Ident pkg) sel => (pkg ++ str "." ++ sel, true)
                              | _ => (str "", true)
                            | .SelectorExpr (.Ident pkg) sel => (pkg ++ str "." ++ sel, false)
                            | .InterfaceType => (str "interface\x7b\x7d", false)
                            | .MapType _ _ => (str "map[string]interface\x7b\x7d", false)
                            | _ => (str "", false)
                          let tags : GoString × GoString × GoString :=
                            match field.Tag with
                            | none => (str "", str "", str "")
                            | some tag =>
                              ((strings_Split 44 (extractTag tag (str "json"))).headD [],
                               extractTag tag (str "db"), extractTag tag (str "dto"))
                          fields ++
                            [StructField.mk fieldName typ.1 tags.1 tags.2.1 tags.2.2 typ.2])
                      fields)
            fields)
      []

/-! ## model.go: identifier normalizer -/

/-- Snake case to Pascal case: every `_`-separated part title-cased, then joined. -/
def toPascalCase (title : GoString → GoString) (s : GoString) : GoString :=
  strings_Join ((strings_Split 95 s).map title) (str "")

/-- Snake case to camel case: a string of one part is returned as it is; otherwise the
first part followed by the title-cased others. -/
def toCamelCase (title : GoString → GoString) (s : GoString) : GoString :=
  let parts := strings_Split 95 s
  if parts.length = 1 then s
  else
    match parts with
    | [] => []
    | p0 :: rest => appendTitled title p0 rest

/-- The suffix heuristic; `none` stands for a run-time panic of a slice or index
expression. -/
def SingularizeExported (word : GoString) : Option GoString :=
  let n : Int := word.length
  if strings_HasSuffix word (str "ies") then
    (sliceTo word (n - 3)).map (fun stem => stem ++ str "y")
  else if strings_HasSuffix word (str "ves") then
    match (if n > 4 then (byteAt word (n - 4)).map (fun b => decide (b = 108))
           else some false) with
    | none => none
    | some true => (sliceTo word (n - 3)).map (fun stem => stem ++ str "f")
    | some false => (sliceTo word (n - 3)).map (fun stem => stem ++ str "fe")
  else if strings_HasSuffix word (str "ses") then sliceTo word (n - 2)
  else if strings_HasSuffix word (str "xes") || strings_HasSuffix word (str "zes")
      || strings_HasSuffix word (str "ches") || strings_HasSuffix word (str "shes") then
    sliceTo word (n - 2)
  else if strings_HasSuffix word (str "s") && !strings_HasSuffix word (str "ss") then
    sliceTo word (n - 1)
  else some word

/-- The unexported name of the same function. -/
def singularize (word : GoString) : Option GoString :=
  SingularizeExported word

/-! ## Field extractor: the specification's notions -/

/-- The number of named fields a struct type declares: `A, B string` declares two, an
embedded field none. -/
def namedFieldCount (st : List AstField) : Nat :=
  (st.map (fun f => f.Names.length)).sum

/-- The field list of a spec that declares a struct type called `structName`. -/
def structOfSpec (structName : GoString) : AstSpec → Option (List AstField)
  | .TypeSpec name (.StructType st) => if name = structName then some st else none
  | _ => none

/-- The field lists of the struct types called `structName` in one declaration. -/
def structsOfDecl (structName : GoString) : AstDecl → List (List AstField)
  | .FuncDecl => []
  | .GenDecl specs => specs.filterMap (structOfSpec structName)

/-- The field lists of the struct types called `structName` in a source file, in
source order. -/
def structTypesNamed (node : AstFile) (structName : GoString) : List (List AstField) :=
  node.Decls.flatMap (structsOfDecl structName)

/-- A source file that holds one declaration, `type structName struct { st }`. -/
def singleStructFile (structName : GoString) (st : List AstField) : AstFile :=
  ⟨[.GenDecl [.TypeSpec structName (.StructType st)]]⟩

/-- The declaration `A, B string`. -/
def fieldAB : AstField :=
  ⟨[str "A", str "B"], .Ident (str "string"), none⟩

/-- The declaration ``Name string `json:"name" db:"name" dto:"read,write"` `` of
`TestExtractStructFieldsWithDTOTag`. -/
def fieldNameOfTest : AstField :=
  ⟨[str "Name"], .Ident (str "string"),
    some (str "`json:\"name\" db:\"name\" dto:\"read,write\"`")⟩

/-- The declaration ``ID string `json:"id,omitempty" db:"id" dto:"read"` `` of
`TestExtractStructFieldsWithDTOTag`. -/
def fieldIDOfTest : AstField :=
  ⟨[str "ID"], .Ident (str "string"),
    some (str "`json:\"id,omitempty\" db:\"id\" dto:\"read\"`")⟩

/-- An embedded field `Base`. -/
def fieldEmbedded : AstField :=
  ⟨[], .Ident (str "Base"), none⟩


/-! ## Identifier normalizer: the specification's notions -/

/-- A word with its first letter upper-cased, for a word that starts with a lower-case
ASCII letter: the byte moved from `a`..`z` to `A`..`Z`. -/
def capitalize : GoString → GoString
  | [] => []
  | c :: rest => (c - 32) :: rest

/-- A word of lower-case ASCII letters, at least one. -/
def isLowerWord (p : GoString) : Prop :=
  p ≠ [] ∧ ∀ b ∈ p, 97 ≤ b ∧ b ≤ 122

instance (p : GoString) : Decidable (isLowerWord p) := by
  unfold isLowerWord
  infer_instance

/-- A title-caser for one word of ASCII letters: first letter upper-cased, the others
lower-cased. On such words this is what `cases.Title(language.English)` returns. -/
def titleASCII : GoString → GoString
  | [] => []
  | c :: rest =>
    (if 97 ≤ c ∧ c ≤ 122 then c - 32 else c)
      :: rest.map (fun b => if 65 ≤ b ∧ b ≤ 90 then b + 32 else b)


/-- `SingularizeExported` read on the reversed word, where a suffix test is a test of
the first bytes and a slice drops them: the form the proofs work on. -/
def singularizeRev (r : GoString) : GoString :=
  if [115, 101, 105].isPrefixOf r then 121 :: r.drop 3
  else if [115, 101, 118].isPrefixOf r then
    if 4 < r.length ∧ r[3]? = some 108 then 102 :: r.drop 3
    else 101 :: 102 :: r.drop 3
  else if [115, 101, 115].isPrefixOf r then r.drop 2
  else if [115, 101, 120].isPrefixOf r || [115, 101, 122].isPrefixOf r
      || [115, 101, 104, 99].isPrefixOf r || [115, 101, 104, 115].isPrefixOf r then
    r.drop 2
  else if [115].isPrefixOf r && !([115, 115].isPrefixOf r) then r.drop 1
  else r


/-! ## Struct tags: the specification's notions -/

/-- One entry `k:"v"` of a struct tag. -/
def tagEntry (kv : GoString × GoString) : GoString :=
  kv.1 ++ str ":\"" ++ kv.2 ++ str "\""

/-- A struct tag literal: the entries, separated by one space, between backquotes. -/
def tagLiteral (entries : List (GoString × GoString)) : GoString :=
  str "`" ++ strings_Join (entries.map tagEntry) (str " ") ++ str "`"

/-- The string holds no white space character: none starts at any of its bytes. -/
def noWhiteSpace : GoString → Bool
  | [] => true
  | b :: rest => spaceWidth (b :: rest) == 0 && noWhiteSpace rest

/-- The entries of the tag of `Name` in `TestExtractStructFieldsWithDTOTag`. -/
def tagEntriesOfTest : List (GoString × GoString) :=
  [(str "json", str "name"), (str "db", str "name"), (str "dto", str "read,write")]




/-! ## More of package strings, for resource.go -/

/-- Go `strings.TrimSuffix`: `s` without the trailing `suffix`, or `s` itself. -/
def strings_TrimSuffix (s suffix : GoString) : GoString :=
  if strings_HasSuffix s suffix then s.take (s.length - suffix.length) else s

/-- Go `strings.ReplaceAll(s, old, new)` for an `old` of one byte: every occurrence of
the byte replaced by `new`. -/
def strings_ReplaceAll (s : GoString) (old : Nat) (new : GoString) : GoString :=
  s.flatMap (fun b => if b = old then new else [b])

/-! ## resource.go -/

/-- What `generateResourceFromModel` reads besides its arguments: the non-ASCII path of
`strings.ToLower`, the external `Pluralize`, whether `os.Stat` finds the file of the given
name in the `hooks` directory of the project root, the module name `getModuleName`
returns, the configuration `LoadConfig` returns, and the byte `filepath.Separator`. -/
structure Surroundings where
  unicodeLower : GoString → GoString
  Pluralize : GoString → GoString
  hookFileExists : GoString → Bool
  moduleName : GoString
  cfg : Config
  Separator : Nat

/-- The test `authCfg != nil && authCfg.RequiresAuth(resource, httpMethod)` on a pointer
that may be nil. -/
def requiresAuthOf : Option AuthConfig → GoString → GoString → Bool
  | none, _, _ => false
  | some c, resource, httpMethod => c.RequiresAuth resource httpMethod

/-- One route registration, behind the auth middleware when the route requires
authentication. -/
def generateRouteWithAuth (method path handler resource httpMethod : GoString)
    (authCfg : Option AuthConfig) : GoString :=
  let requiresAuth := requiresAuthOf authCfg resource httpMethod
  if requiresAuth then
    str "\n"
    ++ str "\tif authMiddleware != nil \x7b\n"
    ++ str "\t\trouter." ++ method ++ str "(\"/" ++ path ++ str "\", authMiddleware, " ++ handler
      ++ str ")\n"
    ++ str "\t\x7d else \x7b\n"
    ++ str "\t\trouter." ++ method ++ str "(\"/" ++ path ++ str "\", " ++ handler ++ str ")\n"
    ++ str "\t\x7d\n"
  else
    str "\trouter." ++ method ++ str "(\"/" ++ path ++ str "\", " ++ handler ++ str ")\n"

/-- The local `needsAuthContext` of `generateResourceFromModel`: some of the four verbs
requires authentication on the plural resource name. -/
def needsAuthContext : Option AuthConfig → GoString → Bool
  | none, _ => false
  | some c, pluralResourceName =>
    c.RequiresAuth pluralResourceName (str "GET")
      || c.RequiresAuth pluralResourceName (str "POST")
      || c.RequiresAuth pluralResourceName (str "PUT")
      || c.RequiresAuth pluralResourceName (str "DELETE")

/-- The local `authMiddlewareSetup`. -/
def authMiddlewareSetup (needsAuthContext : Bool) : GoString :=
  if needsAuthContext then
    str "\n"
    ++ str "\tvar authMiddleware fiber.Handler\n"
    ++ str "\tif authPlugin, ok := pluginRegistry.Get(\"auth\"); ok \x7b\n"
    ++ str "\t\tauthMiddleware = authPlugin.Handler()\n"
    ++ str "\t\x7d\n"
  else str ""

/-- The local `hasUserIdField`: the loop stops at the first field named `UserId`. -/
def hasUserIdField : List StructField → Bool
  | [] => false
  | field :: fields => if field.Name = str "UserId" then true else hasUserIdField fields

/-- The local `contextFunc`. -/
def contextFunc (needsAuthContext hasUserIdField : Bool) : GoString :=
  if needsAuthContext || hasUserIdField then str "auth.Context(c)" else str "c.Context()"

/-- The local `userIdAutoPopulate`. -/
def userIdAutoPopulate (hasUserIdField : Bool) : GoString :=
  if hasUserIdField then
    str "\n"
    ++ str "\t// Auto-populate user_id from authenticated user\n"
    ++ str "\tif user := auth.GetAuthenticatedUser(c); user != nil \x7b\n"
    ++ str "\t\titem.UserId = &user.UserID\n"
    ++ str "\t\x7d\n"
  else str ""

/-- The local `allowedFieldsList`: the loop over the fields. -/
def allowedFieldsList (fields : List StructField) : List GoString :=
  fields.foldl
    (fun allowedFieldsList field =>
      if field.DBTag ≠ str "" then
        if field.DBTag = str "password" ∨ field.DTOTag = str "write" then allowedFieldsList
        else allowedFieldsList ++ [str "\"" ++ field.DBTag ++ str "\""]
      else allowedFieldsList)
    []

/-- The local `allowedFieldsStr`. -/
def allowedFieldsStr (fields : List StructField) : GoString :=
  strings_Join (allowedFieldsList fields) (str ", ")

/-- The local `modelsImport`, from the module name and `cfg.Codegen.Output.Models`. -/
def modelsImport (moduleName : GoString) (Separator : Nat) (Models : GoString) : GoString :=
  let modelsImport :=
    if Models ≠ str "models" ∧ Models ≠ str "" then
      let modelsPath := strings_TrimPrefix Models (str "./")
      moduleName ++ str "/" ++ strings_ReplaceAll modelsPath Separator (str "/")
    else moduleName
  strings_TrimSuffix modelsImport (str "/models") ++ str "/models"

/-- The local `dtosImport`, from the module name and `cfg.Codegen.Output.DTOs`. -/
def dtosImport (moduleName : GoString) (Separator : Nat) (DTOs : GoString) : GoString :=
  let dtosImport :=
    if DTOs ≠ str "dtos" ∧ DTOs ≠ str "" then
      let dtosPath := strings_TrimPrefix DTOs (str "./")
      moduleName ++ str "/" ++ strings_ReplaceAll dtosPath Separator (str "/")
    else moduleName
  strings_TrimSuffix dtosImport (str "/dtos") ++ str "/dtos"

/-- The local `importsSection`. -/
def importsSection (moduleName dtosImport modelsImport : GoString)
    (needsAuthContext hasUserIdField hasHooks : Bool) : GoString :=
  let importsSection :=
    str "import (\n"
    ++ str "\t\"net/url\"\n"
    ++ str "\n"
    ++ str "\t\"" ++ dtosImport ++ str "\"\n"
    ++ str "\t\"" ++ modelsImport ++ str "\"\n"
    ++ str "\n"
    ++ str "\t\"github.com/gofiber/fiber/v2\"\n"
    ++ str "\t\"github.com/nicolasbonnici/gorest/crud\"\n"
    ++ str "\t\"github.com/nicolasbonnici/gorest/database\"\n"
    ++ str "\t\"github.com/nicolasbonnici/gorest/filter\"\n"
    ++ str "\t\"github.com/nicolasbonnici/gorest/logger\"\n"
    ++ str "\t\"github.com/nicolasbonnici/gorest/pagination\"\n"
    ++ str "\t\"github.com/nicolasbonnici/gorest/plugin\"\n"
    ++ str "\t\"github.com/nicolasbonnici/gorest/response\""
  let importsSection :=
    if needsAuthContext || hasUserIdField then
      importsSection ++ str "\n\tauth \"github.com/nicolasbonnici/gorest-auth\""
    else importsSection
  let importsSection :=
    if hasHooks then
      let hooksImport := moduleName ++ str "/hooks"
      importsSection ++ (str "\n\t\"" ++ hooksImport ++ str "\"")
    else importsSection
  importsSection ++ str "\n)"

/-- The local `crudInit`. -/
def crudInit (structName : GoString) (hasHooks : Bool) : GoString :=
  if hasHooks then
    str "crud.NewWithHooks[models." ++ structName ++ str "](db, &hooks." ++ structName
      ++ str "Hooks\x7b\x7d)"
  else str "crud.New[models." ++ structName ++ str "](db)"

/-- The conversion functions between a model and its DTOs. -/
def generateConversionFunctions (unicodeLower : GoString → GoString)
    (structName : GoString) (fields : List StructField) : GoString :=
  let modelToDTOFields := fields.foldl
    (fun b field =>
      if field.DTOTag = str "-" ∨ field.DTOTag = str "write" then b
      else b ++ (str "\t\t" ++ field.Name ++ str ": m." ++ field.Name ++ str ",\n"))
    []
  let createDTOToModelFields := fields.foldl
    (fun b field =>
      let dbTag := strings_ToLower unicodeLower field.DBTag
      if dbTag ≠ FieldID ∧ dbTag ≠ FieldCreatedAt ∧ dbTag ≠ FieldUpdatedAt then
        if field.DTOTag = str "-" ∨ field.DTOTag = str "read" then b
        else b ++ (str "\t\t" ++ field.Name ++ str ": dto." ++ field.Name ++ str ",\n")
      else b)
    []
  let updateDTOToModelFields := fields.foldl
    (fun b field =>
      let dbTag := strings_ToLower unicodeLower field.DBTag
      if dbTag ≠ FieldID ∧ dbTag ≠ FieldCreatedAt ∧ dbTag ≠ FieldUpdatedAt then
        if field.DTOTag = str "-" ∨ field.DTOTag = str "read" then b
        else b ++ (str "\t\t" ++ field.Name ++ str ": dto." ++ field.Name ++ str ",\n")
      else b)
    []
  let lowerStructName := strings_ToLower unicodeLower structName
  str "func modelTo" ++ structName ++ str "DTO(m models." ++ structName ++ str ") dtos."
    ++ structName ++ str "DTO \x7b\n"
  ++ str "\treturn dtos." ++ structName ++ str "DTO\x7b\n"
  ++ modelToDTOFields ++ str "\t\x7d\n"
  ++ str "\x7d\n"
  ++ str "\n"
  ++ str "func " ++ lowerStructName ++ str "CreateDTOToModel(dto dtos." ++ structName
    ++ str "CreateDTO) models." ++ structName ++ str " \x7b\n"
  ++ str "\treturn models." ++ structName ++ str "\x7b\n"
  ++ createDTOToModelFields ++ str "\t\x7d\n"
  ++ str "\x7d\n"
  ++ str "\n"
  ++ str "func " ++ lowerStructName ++ str "UpdateDTOToModel(dto dtos." ++ structName
    ++ str "UpdateDTO) models." ++ structName ++ str " \x7b\n"
  ++ str "\treturn models." ++ structName ++ str "\x7b\n"
  ++ updateDTOToModelFields ++ str "\t\x7d\n"
  ++ str "\x7d\n"

/-- The local `routesSignature`. -/
def routesSignature : GoString :=
  str "router fiber.Router, db database.Database, paginationLimit, paginationMaxLimit int, pluginRegistry *plugin.PluginRegistry"

/-- The format string of `generateResourceFromModel` from its first line to the
opening of the body of the registration function (resource.go, lines 170 to 189), filled in. -/
def resourceHead (importsSection structName routesSignature crudInit : GoString) : GoString :=
  str "// Code generated by GoREST. DO NOT EDIT.\n"
  ++ str "\n"
  ++ str "package resources\n"
  ++ str "\n"
  ++ importsSection ++ str "\n"
  ++ str "\n"
  ++ str "type " ++ structName ++ str "Resource struct \x7b\n"
  ++ str "\tDB                 database.Database\n"
  ++ str "\tCRUD               *crud.CRUD[models." ++ structName ++ str "]\n"
  ++ str "\tPaginationLimit    int\n"
  ++ str "\tPaginationMaxLimit int\n"
  ++ str "\x7d\n"
  ++ str "\n"
  ++ str "func Register" ++ structName ++ str "Routes(" ++ routesSignature ++ str ") \x7b\n"
  ++ str "\tres := &" ++ structName ++ str "Resource\x7b\n"
  ++ str "\t\tDB:                 db,\n"
  ++ str "\t\tCRUD:               " ++ crudInit ++ str ",\n"
  ++ str "\t\tPaginationLimit:    paginationLimit,\n"
  ++ str "\t\tPaginationMaxLimit: paginationMaxLimit,\n"
  ++ str "\t\x7d\n"

/-- The `List` handler of the format string of `generateResourceFromModel` (lines 195 to
258), filled in. -/
def listHandler (structName pluralResourceName
    allowedFieldsStr contextFunc : GoString) : GoString :=
  str "// List " ++ structName ++ str "\n"
  ++ str "// @Summary List " ++ structName ++ str "\n"
  ++ str "// @Tags " ++ structName ++ str "\n"
  ++ str "// @Produce json,application/ld+json\n"
  ++ str "// @Success 200 \x7bobject\x7d pagination.HydraCollection\n"
  ++ str "// @Router /" ++ pluralResourceName ++ str " [get]\n"
  ++ str "func (r *" ++ structName ++ str "Resource) List(c *fiber.Ctx) error \x7b\n"
  ++ str "\tlimit := pagination.ParseIntQuery(c, \"limit\", r.PaginationLimit, r.PaginationMaxLimit)\n"
  ++ str "\tpage := pagination.ParseIntQuery(c, \"page\", 1, 10000)\n"
  ++ str "\tif page < 1 \x7b\n"
  ++ str "\t\tpage = 1\n"
  ++ str "\t\x7d\n"
  ++ str "\toffset := (page - 1) * limit\n"
  ++ str "\tincludeCount := c.Query(\"count\", \"true\") != \"false\"\n"
  ++ str "\n"
  ++ str "\tallowedFields := []string\x7b" ++ allowedFieldsStr ++ str "\x7d\n"
  ++ str "\n"
  ++ str "\tqueryParams := make(url.Values)\n"
  ++ str "\tc.Context().QueryArgs().VisitAll(func(key, value []byte) \x7b\n"
  ++ str "\t\tqueryParams.Add(string(key), string(value))\n"
  ++ str "\t\x7d)\n"
  ++ str "\n"
  ++ str "\t// Parse filters into conditions\n"
  ++ str "\tfilters := filter.NewFilterSet(allowedFields, r.DB.Dialect())\n"
  ++ str "\tif err := filters.ParseFromQuery(queryParams); err != nil \x7b\n"
  ++ str "\t\treturn pagination.SendPaginatedError(c, 400, err.Error())\n"
  ++ str "\t\x7d\n"
  ++ str "\tconditions := filters.Conditions()\n"
  ++ str "\n"
  ++ str "\t// Parse ordering into OrderBy clauses\n"
  ++ str "\tordering := filter.NewOrderSet(allowedFields)\n"
  ++ str "\tif err := ordering.ParseFromQuery(queryParams); err != nil \x7b\n"
  ++ str "\t\treturn pagination.SendPaginatedError(c, 400, err.Error())\n"
  ++ str "\t\x7d\n"
  ++ str "\torderClauses := ordering.OrderClauses()\n"
  ++ str "\n"
  ++ str "\t// Convert filter.OrderClause to crud.OrderByClause\n"
  ++ str "\torderBy := make([]crud.OrderByClause, len(orderClauses))\n"
  ++ str "\tfor i, oc := range orderClauses \x7b\n"
  ++ str "\t\torderBy[i] = crud.OrderByClause\x7b\n"
  ++ str "\t\t\tColumn:    oc.Column,\n"
  ++ str "\t\t\tDirection: oc.Direction,\n"
  ++ str "\t\t\x7d\n"
  ++ str "\t\x7d\n"
  ++ str "\n"
  ++ str "\tresult, err := r.CRUD.GetAllPaginated(" ++ contextFunc
    ++ str ", crud.PaginationOptions\x7b\n"
  ++ str "\t\tLimit:        limit,\n"
  ++ str "\t\tOffset:       offset,\n"
  ++ str "\t\tIncludeCount: includeCount,\n"
  ++ str "\t\tConditions:   conditions,\n"
  ++ str "\t\tOrderBy:      orderBy,\n"
  ++ str "\t\x7d)\n"
  ++ str "\tif err != nil \x7b\n"
  ++ str "\t\treturn pagination.SendPaginatedError(c, 500, err.Error())\n"
  ++ str "\t\x7d\n"
  ++ str "\n"
  ++ str "\tdtoItems := make([]dtos." ++ structName ++ str "DTO, len(result.Items))\n"
  ++ str "\tfor i, item := range result.Items \x7b\n"
  ++ str "\t\tdtoItems[i] = modelTo" ++ structName ++ str "DTO(item)\n"
  ++ str "\t\x7d\n"
  ++ str "\n"
  ++ str "\treturn pagination.SendHydraCollection(c, dtoItems, result.Total, limit, page, r.PaginationLimit)\n"
  ++ str "\x7d\n"
  ++ str "\n"

/-- The `Get` handler of the format string (lines 259 to 279), filled in. -/
def getHandler (structName pluralResourceName contextFunc : GoString) : GoString :=
  str "// Get " ++ structName ++ str " by ID\n"
  ++ str "// @Summary Get " ++ structName ++ str "\n"
  ++ str "// @Tags " ++ structName ++ str "\n"
  ++ str "// @Produce json,application/ld+json\n"
  ++ str "// @Param id path int true \"ID\"\n"
  ++ str "// @Success 200 \x7bobject\x7d dtos." ++ structName ++ str "DTO\n"
  ++ str "// @Router /" ++ pluralResourceName ++ str "/\x7bid\x7d [get]\n"
  ++ str "func (r *" ++ structName ++ str "Resource) Get(c *fiber.Ctx) error \x7b\n"
  ++ str "\tid := c.Params(\"id\")\n"
  ++ str "\titem, err := r.CRUD.GetByID(" ++ contextFunc ++ str ", id)\n"
  ++ str "\tif err != nil \x7b\n"
  ++ str "\t\tif crud.IsInvalidIDError(err) \x7b\n"
  ++ str "\t\t\treturn response.SendError(c, 400, err.Error())\n"
  ++ str "\t\t\x7d\n"
  ++ str "\t\treturn response.SendError(c, 404, \"Not found\")\n"
  ++ str "\t\x7d\n"
  ++ str "\n"
  ++ str "\tdto := modelTo" ++ structName ++ str "DTO(*item)\n"
  ++ str "\treturn response.SendFormatted(c,200, dto)\n"
  ++ str "\x7d\n"
  ++ str "\n"

/-- The `Create` handler of the format string (lines 280 to 311), filled in. -/
def createHandler (structName pluralResourceName
    lowerStructName userIdAutoPopulate contextFunc : GoString) : GoString :=
  str "// Create " ++ structName ++ str "\n"
  ++ str "// @Summary Create " ++ structName ++ str "\n"
  ++ str "// @Tags " ++ structName ++ str "\n"
  ++ str "// @Accept json\n"
  ++ str "// @Produce json,application/ld+json\n"
  ++ str "// @Param input body dtos." ++ structName ++ str "CreateDTO true \"New " ++ structName
    ++ str "\"\n"
  ++ str "// @Success 201 \x7bobject\x7d dtos." ++ structName ++ str "DTO\n"
  ++ str "// @Router /" ++ pluralResourceName ++ str " [post]\n"
  ++ str "func (r *" ++ structName ++ str "Resource) Create(c *fiber.Ctx) error \x7b\n"
  ++ str "\tvar createDTO dtos." ++ structName ++ str "CreateDTO\n"
  ++ str "\tif err := c.BodyParser(&createDTO); err != nil \x7b\n"
  ++ str "\t\tlogger.Log.Error(\"Failed to parse request body\", \"error\", err, \"path\", c.Path())\n"
  ++ str "\t\treturn c.Status(400).JSON(fiber.Map\x7b\"error\": \"Invalid request body\"\x7d)\n"
  ++ str "\t\x7d\n"
  ++ str "\n"
  ++ str "\titem := " ++ lowerStructName ++ str "CreateDTOToModel(createDTO)\n"
  ++ userIdAutoPopulate ++ str "\n"
  ++ str "\tctx := " ++ contextFunc ++ str "\n"
  ++ str "\tif err := r.CRUD.Create(ctx, item); err != nil \x7b\n"
  ++ str "\t\treturn c.Status(500).JSON(fiber.Map\x7b\"error\": err.Error()\x7d)\n"
  ++ str "\t\x7d\n"
  ++ str "\n"
  ++ str "\tcreated, err := r.CRUD.GetByID(ctx, item.Id)\n"
  ++ str "\tif err != nil \x7b\n"
  ++ str "\t\tdto := modelTo" ++ structName ++ str "DTO(item)\n"
  ++ str "\t\treturn response.SendFormatted(c,201, dto)\n"
  ++ str "\t\x7d\n"
  ++ str "\n"
  ++ str "\tdto := modelTo" ++ structName ++ str "DTO(*created)\n"
  ++ str "\treturn response.SendFormatted(c,201, dto)\n"
  ++ str "\x7d\n"
  ++ str "\n"

/-- The `Update` handler of the format string (lines 312 to 343), filled in. -/
def updateHandler (structName pluralResourceName
    lowerStructName userIdAutoPopulate contextFunc : GoString) : GoString :=
  str "// Update " ++ structName ++ str "\n"
  ++ str "// @Summary Update " ++ structName ++ str "\n"
  ++ str "// @Tags " ++ structName ++ str "\n"
  ++ str "// @Accept json\n"
  ++ str "// @Produce json,application/ld+json\n"
  ++ str "// @Param id path int true \"ID\"\n"
  ++ str "// @Param input body dtos." ++ structName ++ str "UpdateDTO true \"Updated "
    ++ structName ++ str "\"\n"
  ++ str "// @Success 200 \x7bobject\x7d dtos." ++ structName ++ str "DTO\n"
  ++ str "// @Router /" ++ pluralResourceName ++ str "/\x7bid\x7d [put]\n"
  ++ str "func (r *" ++ structName ++ str "Resource) Update(c *fiber.Ctx) error \x7b\n"
  ++ str "\tid := c.Params(\"id\")\n"
  ++ str "\tvar updateDTO dtos." ++ structName ++ str "UpdateDTO\n"
  ++ str "\tif err := c.BodyParser(&updateDTO); err != nil \x7b\n"
  ++ str "\t\treturn c.Status(400).JSON(fiber.Map\x7b\"error\": \"Invalid request body\"\x7d)\n"
  ++ str "\t\x7d\n"
  ++ str "\n"
  ++ str "\titem := " ++ lowerStructName ++ str "UpdateDTOToModel(updateDTO)\n"
  ++ userIdAutoPopulate ++ str "\n"
  ++ str "\tif err := r.CRUD.Update(" ++ contextFunc ++ str ", id, item); err != nil \x7b\n"
  ++ str "\t\tif crud.IsInvalidIDError(err) \x7b\n"
  ++ str "\t\t\treturn response.SendError(c, 400, err.Error())\n"
  ++ str "\t\t\x7d\n"
  ++ str "\t\tif crud.IsNotFoundError(err) \x7b\n"
  ++ str "\t\t\treturn response.SendError(c, 404, \"Not found\")\n"
  ++ str "\t\t\x7d\n"
  ++ str "\t\treturn response.SendError(c, 500, err.Error())\n"
  ++ str "\t\x7d\n"
  ++ str "\n"
  ++ str "\tdto := modelTo" ++ structName ++ str "DTO(item)\n"
  ++ str "\treturn response.SendFormatted(c,200, dto)\n"
  ++ str "\x7d\n"
  ++ str "\n"

/-- The `Delete` handler of the format string (lines 344 to 362), filled in. -/
def deleteHandler (structName pluralResourceName contextFunc : GoString) : GoString :=
  str "// Delete " ++ structName ++ str "\n"
  ++ str "// @Summary Delete " ++ structName ++ str "\n"
  ++ str "// @Tags " ++ structName ++ str "\n"
  ++ str "// @Param id path int true \"ID\"\n"
  ++ str "// @Success 204\n"
  ++ str "// @Router /" ++ pluralResourceName ++ str "/\x7bid\x7d [delete]\n"
  ++ str "func (r *" ++ structName ++ str "Resource) Delete(c *fiber.Ctx) error \x7b\n"
  ++ str "\tid := c.Params(\"id\")\n"
  ++ str "\tif err := r.CRUD.Delete(" ++ contextFunc ++ str ", id); err != nil \x7b\n"
  ++ str "\t\tif crud.IsInvalidIDError(err) \x7b\n"
  ++ str "\t\t\treturn response.SendError(c, 400, err.Error())\n"
  ++ str "\t\t\x7d\n"
  ++ str "\t\tif crud.IsNotFoundError(err) \x7b\n"
  ++ str "\t\t\treturn response.SendError(c, 404, \"Not found\")\n"
  ++ str "\t\t\x7d\n"
  ++ str "\t\treturn response.SendError(c, 500, err.Error())\n"
  ++ str "\t\x7d\n"
  ++ str "\treturn c.SendStatus(204)\n"
  ++ str "\x7d\n"

/-- The values `generateResourceFromModel` computes before it fills its format string:
its local variables. -/
structure ResourceLocals where
  lowerStructName : GoString
  pluralResourceName : GoString
  listRoute : GoString
  getRoute : GoString
  postRoute : GoString
  putRoute : GoString
  deleteRoute : GoString
  needsAuthContext : Bool
  authMiddlewareSetup : GoString
  hasUserIdField : Bool
  contextFunc : GoString
  userIdAutoPopulate : GoString
  conversionFuncs : GoString
  allowedFieldsStr : GoString
  hasHooks : Bool
  modelsImport : GoString
  dtosImport : GoString
  importsSection : GoString
  crudInit : GoString

/-- The first part of `generateResourceFromModel` (lines 48 to 168): the local variables
computed from the arguments and the surroundings. -/
def resourceLocals (w : Surroundings) (structName : GoString)
    (fields : List StructField) (authCfg : Option AuthConfig) : ResourceLocals :=
  let resourceName := strings_ToLower w.unicodeLower structName
  let lowerStructName := strings_ToLower w.unicodeLower structName
  let pluralResourceName := w.Pluralize resourceName
  let listRoute := generateRouteWithAuth (str "Get") pluralResourceName (str "res.List")
    pluralResourceName (str "GET") authCfg
  let getRoute := generateRouteWithAuth (str "Get") (pluralResourceName ++ str "/:id")
    (str "res.Get") pluralResourceName (str "GET") authCfg
  let postRoute := generateRouteWithAuth (str "Post") pluralResourceName (str "res.Create")
    pluralResourceName (str "POST") authCfg
  let putRoute := generateRouteWithAuth (str "Put") (pluralResourceName ++ str "/:id")
    (str "res.Update") pluralResourceName (str "PUT") authCfg
  let deleteRoute := generateRouteWithAuth (str "Delete") (pluralResourceName ++ str "/:id")
    (str "res.Delete") pluralResourceName (str "DELETE") authCfg
  let needsAuth := needsAuthContext authCfg pluralResourceName
  let hasUserId := hasUserIdField fields
  let hasHooks := w.hookFileExists (lowerStructName ++ str ".go")
  let models := modelsImport w.moduleName w.Separator w.cfg.Codegen.Output.Models
  let dtos := dtosImport w.moduleName w.Separator w.cfg.Codegen.Output.DTOs
  ResourceLocals.mk lowerStructName pluralResourceName listRoute getRoute postRoute putRoute
    deleteRoute needsAuth (authMiddlewareSetup needsAuth) hasUserId
    (contextFunc needsAuth hasUserId) (userIdAutoPopulate hasUserId)
    (generateConversionFunctions w.unicodeLower structName fields) (allowedFieldsStr fields)
    hasHooks models dtos
    (importsSection w.moduleName dtos models needsAuth hasUserId hasHooks)
    (crudInit structName hasHooks)

/-- The last statement of `generateResourceFromModel` (lines 170 to 391): the format
string filled with the local variables, cut before each handler. -/
def resourceFormat (structName : GoString) (l : ResourceLocals) : GoString :=
  resourceHead l.importsSection structName routesSignature l.crudInit
    ++ l.authMiddlewareSetup ++ l.listRoute ++ l.getRoute ++ l.postRoute ++ l.putRoute
    ++ l.deleteRoute ++ str "\n"
    ++ str "\x7d\n"
    ++ str "\n"
    ++ l.conversionFuncs ++ str "\n"
    ++ str "\n"
    ++ listHandler structName l.pluralResourceName l.allowedFieldsStr l.contextFunc
    ++ getHandler structName l.pluralResourceName l.contextFunc
    ++ createHandler structName l.pluralResourceName l.lowerStructName l.userIdAutoPopulate
        l.contextFunc
    ++ updateHandler structName l.pluralResourceName l.lowerStructName l.userIdAutoPopulate
        l.contextFunc
    ++ deleteHandler structName l.pluralResourceName l.contextFunc

/-- The text of the resource source file of one model. -/
def generateResourceFromModel (w : Surroundings) (structName : GoString)
    (fields : List StructField) (authCfg : Option AuthConfig) : GoString :=
  resourceFormat structName (resourceLocals w structName fields authCfg)


/-! ## Resource synthesizer: the specification's notions -/

/-- The direct registration `router.<Method>("/<path>", <handler>)`. -/
def directRegistration (method path handler : GoString) : GoString :=
  str "router." ++ method ++ str "(\"/" ++ path ++ str "\", " ++ handler ++ str ")"

/-- The registration behind the middleware,
`router.<Method>("/<path>", authMiddleware, <handler>)`. -/
def guardedRegistration (method path handler : GoString) : GoString :=
  str "router." ++ method ++ str "(\"/" ++ path ++ str "\", authMiddleware, " ++ handler
    ++ str ")"

/-- The block that tests `authMiddleware != nil` and registers the route with the
middleware in its first branch and without it in its second. -/
def guardedBlock (method path handler : GoString) : GoString :=
  str "\n\tif authMiddleware != nil \x7b\n\t\t" ++ guardedRegistration method path handler
    ++ str "\n\t\x7d else \x7b\n\t\t" ++ directRegistration method path handler
    ++ str "\n\t\x7d\n"

/-- The five direct registrations under the route segment `P`, one per line. -/
def fiveRoutes (P : GoString) : GoString :=
  str "\t" ++ directRegistration (str "Get") P (str "res.List") ++ str "\n"
    ++ str "\t" ++ directRegistration (str "Get") (P ++ str "/:id") (str "res.Get") ++ str "\n"
    ++ str "\t" ++ directRegistration (str "Post") P (str "res.Create") ++ str "\n"
    ++ str "\t" ++ directRegistration (str "Put") (P ++ str "/:id") (str "res.Update")
    ++ str "\n"
    ++ str "\t" ++ directRegistration (str "Delete") (P ++ str "/:id") (str "res.Delete")
    ++ str "\n"

/-- Surroundings for the examples: ASCII lower-casing only, a pluralizer that appends
`s`, the given answer on the hook file, module `example.com/app`, the default output
directories `models` and `dtos`, and the separator `/`. -/
def surroundingsOfExample (hasHooks : Bool) : Surroundings :=
  ⟨fun s => s, fun s => s ++ str "s", fun _ => hasHooks, str "example.com/app",
    ⟨⟨⟨false, none, []⟩, ⟨str "models", str "resources", str "dtos", [], []⟩⟩⟩, 47⟩

/-- A field whose db tag enters the allow-list of the `List` handler: the tag is not
empty and not `password`, and the dto tag is not `write`. -/
def inAllowList (f : StructField) : Bool :=
  decide (f.DBTag ≠ str "" ∧ f.DBTag ≠ str "password" ∧ f.DTOTag ≠ str "write")

/-- A db tag between double quotes. -/
def quotedDBTag (f : StructField) : GoString :=
  str "\"" ++ f.DBTag ++ str "\""

/-- The fields of `TestGenerateResourceFromModel`. -/
def fieldsOfUserTest : List StructField :=
  [⟨str "Id", str "string", str "id,omitempty", str "id", str "", false⟩,
   ⟨str "Email", str "string", str "email", str "email", str "", false⟩,
   ⟨str "Firstname", str "string", str "firstname", str "firstname", str "", false⟩,
   ⟨str "Lastname", str "string", str "lastname", str "lastname", str "", false⟩,
   ⟨str "Password", str "string", str "password,omitempty", str "password", str "", true⟩,
   ⟨str "UpdatedAt", str "time.Time", str "updated_at,omitempty", str "updated_at", str "",
     true⟩,
   ⟨str "CreatedAt", str "time.Time", str "created_at,omitempty", str "created_at", str "",
     true⟩]

/-- The model uses the authenticated context: some of the verbs GET, POST, PUT, DELETE
requires authentication on the plural resource name, or some field is named `UserId`. -/
def usesAuthContext (authCfg : Option AuthConfig) (pluralResourceName : GoString)
    (fields : List StructField) : Bool :=
  [str "GET", str "POST", str "PUT", str "DELETE"].any
      (fun v => requiresAuthOf authCfg pluralResourceName v)
    || fields.any (fun f => decide (f.Name = str "UserId"))

/-- The import line of the auth package. -/
def authImportLine : GoString :=
  str "\tauth \"github.com/nicolasbonnici/gorest-auth\""

/-- The import line of the hooks package of a module. -/
def hooksImportLine (moduleName : GoString) : GoString :=
  str "\t\"" ++ moduleName ++ str "/hooks" ++ str "\""

/-- An import declaration of a resource file: the fixed imports with the two given
package paths, followed by the given extra lines. -/
def importsWith (dtosImport modelsImport : GoString) (extra : List GoString) : GoString :=
  str "import (\n\t\"net/url\"\n\n\t\"" ++ dtosImport ++ str "\"\n\t\"" ++ modelsImport
    ++ str "\"\n\n\t\"github.com/gofiber/fiber/v2\"\n\t\"github.com/nicolasbonnici/gorest/crud\"\n\t\"github.com/nicolasbonnici/gorest/database\"\n\t\"github.com/nicolasbonnici/gorest/filter\"\n\t\"github.com/nicolasbonnici/gorest/logger\"\n\t\"github.com/nicolasbonnici/gorest/pagination\"\n\t\"github.com/nicolasbonnici/gorest/plugin\"\n\t\"github.com/nicolasbonnici/gorest/response\""
    ++ (extra.map (fun line => str "\n" ++ line)).flatten ++ str "\n)"

/-- The block that sets `item.UserId` from the authenticated user. -/
def userIdBlock : GoString :=
  str "\n\t// Auto-populate user_id from authenticated user\n\tif user := auth.GetAuthenticatedUser(c); user != nil \x7b\n\t\titem.UserId = &user.UserID\n\t\x7d\n"

/-- A field named `UserId`, as extracted from
``UserId *string `json:"user_id" db:"user_id"` ``. -/
def userIdField : StructField :=
  ⟨str "UserId", str "string", str "user_id", str "user_id", str "", true⟩



/-! ## More of package strings, for model.go -/

/-- Go `strings.Contains(s, substr)` for a substring of any length. -/
def strings_ContainsStr (s substr : GoString) : Bool :=
  decide (substr <:+: s)

/-! ## model.go: schema, type mapping and generated texts -/

/-- One column of a table. `Typ` is the Go field `Type`. -/
structure Column where
  Name : GoString
  Typ : GoString
  IsNullable : Bool

/-- One foreign-key relation of a table. -/
structure Relation where
  ChildTable : GoString
  ChildColumn : GoString
  ParentTable : GoString
  ParentColumn : GoString

/-- One table of the schema. -/
structure TableSchema where
  TableName : GoString
  Columns : List Column
  Relations : List Relation

/-- The Go type of a column, from its storage type and nullability. -/
def pgToGoType (pgType : GoString) (nullable : Bool) : GoString :=
  let base : GoMap GoString := GoMap.ofList
    [(str "integer", str "int"),
     (str "bigint", str "int64"),
     (str "smallint", str "int16"),
     (str "text", str "string"),
     (str "varchar", str "string"),
     (str "character varying", str "string"),
     (str "boolean", str "bool"),
     (str "timestamp without time zone", str "time.Time"),
     (str "timestamp with time zone", str "time.Time"),
     (str "timestamp", str "time.Time"),
     (str "uuid", str "string"),
     (str "numeric", str "float64"),
     (str "double precision", str "float64"),
     (str "real", str "float32"),
     (str "json", str "map[string]interface\x7b\x7d"),
     (str "jsonb", str "map[string]interface\x7b\x7d")]
  let goType := (base.lookup pgType).getD (str "string")
  let isTimestamp := decide (goType = str "time.Time")
  if (nullable || isTimestamp) && decide (goType ≠ str "interface\x7b\x7d") then
    str "*" ++ goType
  else goType

/-- The first loop over the columns in `GenerateStructs`: stop at the first column whose
storage type contains `timestamp`. -/
def needsTime : List Column → Bool
  | [] => false
  | col :: cols =>
    if strings_ContainsStr col.Typ (str "timestamp") then true else needsTime cols

/-- The text `GenerateStructs` builds for one table (lines 94 to 125): what the string
builder `b` holds when the file is written. -/
def modelText (title : GoString → GoString) (structName : GoString) (table : TableSchema) :
    GoString :=
  let b := str "package models\n\n"
  let b := if needsTime table.Columns then b ++ str "import \"time\"\n\n" else b
  let b := b ++ (str "type " ++ structName ++ str " struct \x7b\n")
  let b := table.Columns.foldl
    (fun b col =>
      let fieldName := toPascalCase title col.Name
      let fieldType := pgToGoType col.Typ col.IsNullable
      let omitempty :=
        if col.Name = str "id" ∨ col.Name = str "created_at" ∨ col.Name = str "updated_at"
            ∨ col.IsNullable = true then str ",omitempty"
        else str ""
      let jsonTag := str "`json:\"" ++ toCamelCase title col.Name ++ omitempty
        ++ str "\" db:\"" ++ col.Name ++ str "\"`"
      b ++ (str "\t" ++ fieldName ++ str " " ++ fieldType ++ str " " ++ jsonTag ++ str "\n"))
    b
  let b := b ++ str "\x7d\n"
  let b := b ++ str "\n"
  let b := b ++ (str "func (" ++ structName ++ str ") TableName() string \x7b\n")
  let b := b ++ (str "\treturn \"" ++ table.TableName ++ str "\" \n")
  b ++ str "\x7d\n"

/-- The model files `GenerateStructs` writes, as pairs of the file name within the models
directory and the text, in the order written. `tables` is the map argument as the
sequence of its values in the order the range loop visits them; `none` stands for a
run-time panic. -/
def GenerateStructs (unicodeLower title : GoString → GoString) (tables : List TableSchema) :
    Option (List (GoString × GoString)) :=
  tables.foldl
    (fun written table =>
      written.bind fun written =>
        (singularize table.TableName).map fun singularTable =>
          let structName := toPascalCase title singularTable
          if structName = str "model" then written
          else
            written ++ [(strings_ToLower unicodeLower structName ++ str ".go",
              modelText title structName table)])
    (some [])

/-- The text `GenerateOpenAPI` writes to `openapi_gen.go`. `tables` is the map argument
as the sequence of its values in the order the range loop visits them; `none` stands for
a run-time panic. -/
def GenerateOpenAPI (title : GoString → GoString) (tables : List TableSchema) :
    Option GoString :=
  tables.foldl
    (fun b table =>
      b.bind fun b =>
        (singularize table.TableName).map fun singularTable =>
          let resource := toPascalCase title singularTable
          b ++ (str "// " ++ resource ++ str "Resource defines OpenAPI schema and endpoints for "
              ++ table.TableName ++ str "\n")
            ++ (str "type " ++ resource ++ str "Resource struct \x7b\x7d\n\n"))
    (some (str "package api\n\n" ++ str "// Auto-generated OpenAPI schema stubs\n\n"))

/-! ## dto.go: the DTOs of a resource -/

/-- One DTO declaration read back from a DTO file. -/
structure DTOSchema where
  Name : GoString
  Fields : List StructField

/-- The DTOs of one resource. `DTOs` is the map as the sequence of its entries, key and
value, in the order a range loop visits them. -/
structure ResourceDTOs where
  Name : GoString
  PluralName : GoString
  DTOs : List (GoString × DTOSchema)

/-- The loop of `GetMainDTO`: the first entry visited whose name contains neither
`Create` nor `Update`; `none` is the nil result. -/
def getMainDTOLoop : List (GoString × DTOSchema) → Option DTOSchema
  | [] => none
  | (name, dto) :: rest =>
    if !strings_ContainsStr name (str "Create") && !strings_ContainsStr name (str "Update")
      then some dto
    else getMainDTOLoop rest

/-- The main DTO of a resource. -/
def ResourceDTOs.GetMainDTO (r : ResourceDTOs) : Option DTOSchema :=
  getMainDTOLoop r.DTOs


/-! ## Model generator: the specification's notions -/

/-- The Go type of a storage type before the pointer rule: the sixteen known storage
types, and `string` for every other type. -/
def baseGoType (t : GoString) : GoString :=
  if t = str "integer" then str "int"
  else if t = str "bigint" then str "int64"
  else if t = str "smallint" then str "int16"
  else if t = str "text" then str "string"
  else if t = str "varchar" then str "string"
  else if t = str "character varying" then str "string"
  else if t = str "boolean" then str "bool"
  else if t = str "timestamp without time zone" then str "time.Time"
  else if t = str "timestamp with time zone" then str "time.Time"
  else if t = str "timestamp" then str "time.Time"
  else if t = str "uuid" then str "string"
  else if t = str "numeric" then str "float64"
  else if t = str "double precision" then str "float64"
  else if t = str "real" then str "float32"
  else if t = str "json" then str "map[string]interface\x7b\x7d"
  else if t = str "jsonb" then str "map[string]interface\x7b\x7d"
  else str "string"

/-- The sixteen storage types the type mapping knows. -/
def knownStorageTypes : List GoString :=
  [str "integer", str "bigint", str "smallint", str "text", str "varchar",
   str "character varying", str "boolean", str "timestamp without time zone",
   str "timestamp with time zone", str "timestamp", str "uuid", str "numeric",
   str "double precision", str "real", str "json", str "jsonb"]

/-- The struct tag of the field of a column: the json key, with `,omitempty` for the
columns `id`, `created_at`, `updated_at` and the nullable ones, and the db key. -/
def modelFieldTag (title : GoString → GoString) (col : Column) : GoString :=
  str "`json:\"" ++ toCamelCase title col.Name
    ++ (if col.Name = str "id" ∨ col.Name = str "created_at" ∨ col.Name = str "updated_at"
          ∨ col.IsNullable = true then str ",omitempty" else str "")
    ++ str "\" db:\"" ++ col.Name ++ str "\"`"

/-- The field line of a column: name, type and tag, between a tab and a newline. -/
def modelFieldLine (title : GoString → GoString) (col : Column) : GoString :=
  str "\t" ++ toPascalCase title col.Name ++ str " " ++ pgToGoType col.Typ col.IsNullable
    ++ str " " ++ modelFieldTag title col ++ str "\n"

/-- A table `users` with an identity, a text, a nullable text and a timestamp column. -/
def usersTable : TableSchema :=
  ⟨str "users",
    [⟨str "id", str "integer", false⟩, ⟨str "email", str "text", false⟩,
     ⟨str "password", str "text", true⟩,
     ⟨str "created_at", str "timestamp with time zone", false⟩], []⟩

/-- A table `todos` with an identity column. -/
def todosTable : TableSchema :=
  ⟨str "todos", [⟨str "id", str "integer", false⟩], []⟩

/-- A table `events` whose only column has the storage type `timestamptz`. -/
def eventsTable : TableSchema :=
  ⟨str "events", [⟨str "at", str "timestamptz", false⟩], []⟩

/-- The type forms the field extractor resolves: identifier, pointer to identifier,
qualified name, pointer to qualified name, interface literal, map type. -/
def isResolvedType : AstExpr → Bool
  | .Ident _ => true
  | .StarExpr (.Ident _) => true
  | .SelectorExpr (.Ident _) _ => true
  | .StarExpr (.SelectorExpr (.Ident _) _) => true
  | .InterfaceType => true
  | .MapType _ _ => true
  | _ => false

/-- The type is a pointer type. -/
def isPointerType : AstExpr → Bool
  | .StarExpr _ => true
  | _ => false

/-- The three schemas generated for the model `X`, under their names: `XDTO`,
`XCreateDTO` and `XUpdateDTO`, with the given field lists. -/
def generatedSchemas (X : GoString) (f1 f2 f3 : List StructField) :
    List (GoString × DTOSchema) :=
  [(X ++ str "DTO", ⟨X ++ str "DTO", f1⟩),
   (X ++ str "CreateDTO", ⟨X ++ str "CreateDTO", f2⟩),
   (X ++ str "UpdateDTO", ⟨X ++ str "UpdateDTO", f3⟩)]


/-! ## Conversion functions: the specification's notions -/

/-- The assignment of one field in `modelTo<X>DTO`. -/
def readAssignment (f : StructField) : GoString :=
  str "\t\t" ++ f.Name ++ str ": m." ++ f.Name ++ str ",\n"

/-- The assignment of one field in `<x>CreateDTOToModel` and `<x>UpdateDTOToModel`. -/
def writeAssignment (f : StructField) : GoString :=
  str "\t\t" ++ f.Name ++ str ": dto." ++ f.Name ++ str ",\n"

/-! ## Struct tags of a field: the specification's notions -/

/-- The value written for the key `k` in a list of tag entries: that of the first entry
with this key, the empty string when no entry has it. -/
def tagValue (entries : List (GoString × GoString)) (k : GoString) : GoString :=
  match entries.find? (fun kv => decide (kv.1 = k)) with
  | some kv => kv.2
  | none => str ""

/-- A declaration ``A string `db:"a b" dto:"read write"` ``, whose tag values hold a
blank. -/
def fieldWithBlankValues : AstField :=
  ⟨[str "A"], .Ident (str "string"), some (str "`db:\"a b\" dto:\"read write\"`")⟩


/-! ## Lemmas on maps and loops -/

theorem methodListed_eq_decide (method : GoString) (methods : List GoString) :
    methodListed method methods = decide (method ∈ methods) := by
  induction methods with
  | nil => simp [methodListed]
  | cons m ms ih =>
    by_cases h : m = method
    · simp [methodListed, h]
    · have h2 : ¬ method = m := fun e => h e.symm
      simp [methodListed, h, h2, ih]

theorem foldl_append_if_eq_filter {α : Type} (p : α → Bool) (l : List α) (acc : List α) :
    l.foldl (fun acc x => if p x then acc ++ [x] else acc) acc = acc ++ l.filter p := by
  induction l generalizing acc with
  | nil => simp
  | cons x xs ih =>
    by_cases h : p x
    · simp [List.foldl, h, ih, List.filter]
    · simp [List.foldl, h, ih, List.filter]

theorem lookup_foldl_insert_absent {α V : Type} (key : α → GoString) (val : α → V)
    (l : List α) (init : GoMap V) (k : GoString) (h : ∀ x ∈ l, key x ≠ k) :
    (l.foldl (fun m x => m.insert (key x) (val x)) init).lookup k = init.lookup k := by
  induction l generalizing init with
  | nil => rfl
  | cons x xs ih =>
    have hx : k ≠ key x := fun e => h x (List.mem_cons_self _ _) e.symm
    rw [List.foldl_cons, ih _ (fun y hy => h y (List.mem_cons_of_mem _ hy))]
    exact AList.lookup_insert_ne hx

theorem lookup_foldl_insert_last {α V : Type} (key : α → GoString) (val : α → V)
    (pre post : List α) (e : α) (init : GoMap V) (h : ∀ x ∈ post, key x ≠ key e) :
    ((pre ++ e :: post).foldl (fun m x => m.insert (key x) (val x)) init).lookup (key e)
      = some (val e) := by
  rw [List.foldl_append, List.foldl_cons, lookup_foldl_insert_absent key val post _ _ h]
  exact AList.lookup_insert _

theorem lookup_foldl_insert_entries {V : Type} (l : List (Sigma fun _ : GoString => V))
    (hnd : l.NodupKeys) (base : GoMap V) (k : GoString) :
    (l.foldl (fun acc kv => acc.insert kv.1 kv.2) base).lookup k
      = match List.dlookup k l with
        | some b => some b
        | none => base.lookup k := by
  induction l generalizing base with
  | nil => rfl
  | cons x xs ih =>
    obtain ⟨a, b⟩ := x
    rw [List.nodupKeys_cons] at hnd
    rw [List.foldl_cons, ih hnd.2]
    by_cases hk : k = a
    · subst hk
      have : List.dlookup k xs = none := List.dlookup_eq_none.2 hnd.1
      simp [this, AList.lookup_insert]
    · have hd : List.dlookup k (⟨a, b⟩ :: xs) = List.dlookup k xs :=
        List.dlookup_cons_ne xs ⟨a, b⟩ hk
      rw [hd, AList.lookup_insert_ne hk]

theorem lookup_insert_ite {V : Type} (m : GoMap V) (a k : GoString) (b : V) :
    (m.insert a b).lookup k = if k = a then some b else m.lookup k := by
  by_cases h : k = a
  · subst h; simp [AList.lookup_insert]
  · simp [h, AList.lookup_insert_ne h]

theorem secureDefaults_lookup (k : GoString) :
    (GoMap.ofList
      [(str "GET", true), (str "POST", true), (str "PUT", true),
       (str "DELETE", true), (str "PATCH", true)]).lookup k
      = if k ∈ standardMethods then some true else none := by
  simp only [GoMap.ofList, List.foldl, lookup_insert_ite, standardMethods, List.mem_cons,
    List.mem_singleton, List.not_mem_nil, or_false]
  have h0 : AList.lookup k (∅ : GoMap Bool) = none := AList.lookup_empty k
  rw [h0]
  split_ifs <;> simp_all

theorem getDefaultMethods_lookup (cfg : Config) (k : GoString) :
    (getDefaultMethods cfg).lookup k
      = match GoMap.get? cfg.Codegen.Auth.Defaults k with
        | some b => some b
        | none => if k ∈ standardMethods then some true else none := by
  unfold getDefaultMethods
  cases hd : cfg.Codegen.Auth.Defaults with
  | none => simp only [GoMap.get?]; exact secureDefaults_lookup k
  | some d =>
    simp only [GoMap.get?]
    by_cases hlen : 0 < d.entries.length
    · rw [if_pos hlen, lookup_foldl_insert_entries d.entries d.nodupKeys, secureDefaults_lookup,
        show AList.lookup k d = List.dlookup k d.entries from rfl]
      cases List.dlookup k d.entries <;> rfl
    · rw [if_neg hlen, secureDefaults_lookup]
      have hnil : d.entries = [] := List.length_eq_zero.1 (Nat.eq_zero_of_not_pos hlen)
      have hnone : d.lookup k = none := by
        show List.dlookup k d.entries = none
        rw [hnil]; rfl
      rw [hnone]

theorem requiresAuth_build_last (cfg : Config) (pre post : List EndpointAuthConfig)
    (e : EndpointAuthConfig) (hen : cfg.Codegen.Auth.Enabled = true)
    (hsplit : cfg.Codegen.Auth.Endpoints = pre ++ e :: post)
    (hlast : ∀ x ∈ post, x.Name ≠ e.Name) (v : GoString) :
    (GetAuthConfigFromConfig cfg).RequiresAuth e.Name v
      = (decide (v ∈ standardMethods) && shouldRequireAuth v e (getDefaultMethods cfg)) := by
  have hl := lookup_foldl_insert_last (fun x : EndpointAuthConfig => x.Name)
    (fun x : EndpointAuthConfig =>
      standardMethods.foldl
        (fun acc method =>
          if shouldRequireAuth method x (getDefaultMethods cfg) then acc ++ [method] else acc)
        ([] : List GoString))
    pre post e ∅ hlast
  simp only [GetAuthConfigFromConfig, buildAuthFromEndpoints, AuthConfig.RequiresAuth, hen,
    hsplit, GoMap.get?, Bool.not_true, Bool.false_eq_true, if_false]
  rw [hl]
  simp only [methodListed_eq_decide, foldl_append_if_eq_filter, List.nil_append,
    List.mem_filter]
  by_cases h1 : v ∈ standardMethods <;>
    by_cases h2 : shouldRequireAuth v e (getDefaultMethods cfg) = true <;> simp [h1, h2]

theorem requiresAuth_build_absent (cfg : Config) (r : GoString)
    (hen : cfg.Codegen.Auth.Enabled = true)
    (habs : ∀ x ∈ cfg.Codegen.Auth.Endpoints, x.Name ≠ r) (v : GoString) :
    (GetAuthConfigFromConfig cfg).RequiresAuth r v = true := by
  have hl := lookup_foldl_insert_absent (fun x : EndpointAuthConfig => x.Name)
    (fun x : EndpointAuthConfig =>
      standardMethods.foldl
        (fun acc method =>
          if shouldRequireAuth method x (getDefaultMethods cfg) then acc ++ [method] else acc)
        ([] : List GoString))
    cfg.Codegen.Auth.Endpoints ∅ r habs
  simp only [GetAuthConfigFromConfig, buildAuthFromEndpoints, AuthConfig.RequiresAuth, hen,
    GoMap.get?, Bool.not_true, Bool.false_eq_true, if_false]
  rw [hl, AList.lookup_empty]

theorem shouldRequireAuth_cascade (cfg : Config) (e : EndpointAuthConfig) (v : GoString)
    (hv : v ∈ standardMethods) :
    shouldRequireAuth v e (getDefaultMethods cfg)
      = (getMethodValue e v).getD ((GoMap.get? cfg.Codegen.Auth.Defaults v).getD true) := by
  unfold shouldRequireAuth
  rw [getDefaultMethods_lookup]
  cases getMethodValue e v with
  | some b => rfl
  | none =>
    cases GoMap.get? cfg.Codegen.Auth.Defaults v with
    | some b => rfl
    | none => simp [hv]

/-! ## Auth policy resolver: the claims -/

theorem requiresAuth_std (cfg : Config) (pre post : List EndpointAuthConfig)
    (e : EndpointAuthConfig) (hen : cfg.Codegen.Auth.Enabled = true)
    (hsplit : cfg.Codegen.Auth.Endpoints = pre ++ e :: post)
    (hlast : ∀ x ∈ post, x.Name ≠ e.Name) (v : GoString) (hv : v ∈ standardMethods) :
    (GetAuthConfigFromConfig cfg).RequiresAuth e.Name v
      = (getMethodValue e v).getD ((GoMap.get? cfg.Codegen.Auth.Defaults v).getD true) := by
  rw [requiresAuth_build_last cfg pre post e hen hsplit hlast v,
    shouldRequireAuth_cascade cfg e v hv]
  simp [hv]

/-- C1: with auth enabled, for the last endpoint record `e` carrying its name and each
of the verbs GET, POST, PUT, DELETE, PATCH, `RequiresAuth e.Name verb` on the built
AuthConfig is the value `e` sets for the verb if it sets one, else the value the
configured defaults map gives the verb if it has an entry, else true. -/
theorem requiresAuth_resolution_cascade (cfg : Config) (pre post : List EndpointAuthConfig)
    (e : EndpointAuthConfig) (hen : cfg.Codegen.Auth.Enabled = true)
    (hsplit : cfg.Codegen.Auth.Endpoints = pre ++ e :: post)
    (hlast : ∀ x ∈ post, x.Name ≠ e.Name) :
    (GetAuthConfigFromConfig cfg).RequiresAuth e.Name (str "GET")
        = e.GET.getD ((GoMap.get? cfg.Codegen.Auth.Defaults (str "GET")).getD true)
    ∧ (GetAuthConfigFromConfig cfg).RequiresAuth e.Name (str "POST")
        = e.POST.getD ((GoMap.get? cfg.Codegen.Auth.Defaults (str "POST")).getD true)
    ∧ (GetAuthConfigFromConfig cfg).RequiresAuth e.Name (str "PUT")
        = e.PUT.getD ((GoMap.get? cfg.Codegen.Auth.Defaults (str "PUT")).getD true)
    ∧ (GetAuthConfigFromConfig cfg).RequiresAuth e.Name (str "DELETE")
        = e.DELETE.getD ((GoMap.get? cfg.Codegen.Auth.Defaults (str "DELETE")).getD true)
    ∧ (GetAuthConfigFromConfig cfg).RequiresAuth e.Name (str "PATCH")
        = e.PATCH.getD ((GoMap.get? cfg.Codegen.Auth.Defaults (str "PATCH")).getD true) :=
  ⟨requiresAuth_std cfg pre post e hen hsplit hlast (str "GET") (by decide),
   requiresAuth_std cfg pre post e hen hsplit hlast (str "POST") (by decide),
   requiresAuth_std cfg pre post e hen hsplit hlast (str "PUT") (by decide),
   requiresAuth_std cfg pre post e hen hsplit hlast (str "DELETE") (by decide),
   requiresAuth_std cfg pre post e hen hsplit hlast (str "PATCH") (by decide)⟩

/-- C1 at a configuration with two records for `users`: the last one decides, GET is
its explicit true, POST comes from the defaults map, PUT and PATCH fall back to true,
DELETE is its explicit false. -/
theorem requiresAuth_resolution_cascade_witness :
    (GetAuthConfigFromConfig (Config.ofAuth true (some defaultsPublicGet)
        [usersPublicGet, productsPost, usersOpenDelete])).RequiresAuth (str "users") (str "GET")
        = true
    ∧ (GetAuthConfigFromConfig (Config.ofAuth true (some defaultsPublicGet)
        [usersPublicGet, productsPost, usersOpenDelete])).RequiresAuth (str "users") (str "POST")
        = true
    ∧ (GetAuthConfigFromConfig (Config.ofAuth true (some defaultsPublicGet)
        [usersPublicGet, productsPost, usersOpenDelete])).RequiresAuth (str "users") (str "PUT")
        = true
    ∧ (GetAuthConfigFromConfig (Config.ofAuth true (some defaultsPublicGet)
        [usersPublicGet, productsPost, usersOpenDelete])).RequiresAuth (str "users")
          (str "DELETE") = false
    ∧ (GetAuthConfigFromConfig (Config.ofAuth true (some defaultsPublicGet)
        [usersPublicGet, productsPost, usersOpenDelete])).RequiresAuth (str "users")
          (str "PATCH") = true :=
  requiresAuth_resolution_cascade
    (Config.ofAuth true (some defaultsPublicGet) [usersPublicGet, productsPost, usersOpenDelete])
    [usersPublicGet, productsPost] [] usersOpenDelete rfl rfl (by decide)

/-- C2: with auth enabled, a resource name that no endpoint record carries requires
authentication on every verb string. -/
theorem requiresAuth_unlisted_resource (cfg : Config) (resource : GoString)
    (hen : cfg.Codegen.Auth.Enabled = true)
    (habs : ∀ x ∈ cfg.Codegen.Auth.Endpoints, x.Name ≠ resource) (verb : GoString) :
    (GetAuthConfigFromConfig cfg).RequiresAuth resource verb = true :=
  requiresAuth_build_absent cfg resource hen habs verb

/-- C2 at the configuration of `TestGetAuthConfigResourceNotInConfig`. -/
theorem requiresAuth_unlisted_resource_witness :
    (GetAuthConfigFromConfig (Config.ofAuth true none [usersPublicGet])).RequiresAuth
      (str "unknown_resource") (str "GET") = true :=
  requiresAuth_unlisted_resource (Config.ofAuth true none [usersPublicGet])
    (str "unknown_resource") rfl (by decide) (str "GET")

/-- C3: when the auth-enabled flag is false, nothing requires authentication, whatever
the defaults map and the endpoint list hold; likewise for `NoAuthConfig()`. -/
theorem requiresAuth_disabled (cfg : Config) (hdis : cfg.Codegen.Auth.Enabled = false)
    (resource verb : GoString) :
    (GetAuthConfigFromConfig cfg).RequiresAuth resource verb = false
    ∧ NoAuthConfig.RequiresAuth resource verb = false := by
  constructor
  · simp [GetAuthConfigFromConfig, AuthConfig.RequiresAuth, hdis]
  · simp [NoAuthConfig, AuthConfig.RequiresAuth]

/-- C3 at a disabled configuration that still lists defaults and a protected endpoint. -/
theorem requiresAuth_disabled_witness :
    (GetAuthConfigFromConfig (Config.ofAuth false (some defaultsPublicGet)
        [usersOpenDelete])).RequiresAuth (str "users") (str "GET") = false
    ∧ NoAuthConfig.RequiresAuth (str "users") (str "GET") = false :=
  requiresAuth_disabled (Config.ofAuth false (some defaultsPublicGet) [usersOpenDelete]) rfl
    (str "users") (str "GET")

/-- The expectations of `TestGetAuthConfigWithDefaultPublicGet` hold of the embedding. -/
theorem test_default_public_get :
    (GetAuthConfigFromConfig (Config.ofAuth true (some defaultsOfTest)
        [productsPost])).RequiresAuth (str "products") (str "GET") = false
    ∧ (GetAuthConfigFromConfig (Config.ofAuth true (some defaultsOfTest)
        [productsPost])).RequiresAuth (str "products") (str "POST") = true
    ∧ (GetAuthConfigFromConfig (Config.ofAuth true (some defaultsOfTest)
        [productsPost])).RequiresAuth (str "products") (str "PUT") = true
    ∧ (GetAuthConfigFromConfig (Config.ofAuth true (some defaultsOfTest)
        [productsPost])).RequiresAuth (str "products") (str "DELETE") = true := by
  decide

/-- The expectations of `TestGetAuthConfigSecureByDefault` hold of the embedding. -/
theorem test_secure_by_default :
    (GetAuthConfigFromConfig (Config.ofAuth true none
        [ordersPublicGet])).RequiresAuth (str "orders") (str "GET") = false
    ∧ (GetAuthConfigFromConfig (Config.ofAuth true none
        [ordersPublicGet])).RequiresAuth (str "orders") (str "POST") = true
    ∧ (GetAuthConfigFromConfig (Config.ofAuth true none
        [ordersPublicGet])).RequiresAuth (str "orders") (str "PUT") = true
    ∧ (GetAuthConfigFromConfig (Config.ofAuth true none
        [ordersPublicGet])).RequiresAuth (str "orders") (str "DELETE") = true := by
  decide

/-- C4, as stated, fails when `products` is absent from the endpoint list: under the
defaults `{GET: false, POST: true}` the built AuthConfig still requires auth on GET. -/
theorem products_absent_get_requires_auth :
    (GetAuthConfigFromConfig (Config.ofAuth true (some defaultsPublicGet)
        [usersPublicGet])).RequiresAuth (str "products") (str "GET") = true := by
  decide

/-- C4 (amended): with auth enabled and defaults `{GET: false, POST: true}`, when the
last record for `products` leaves every verb unset, GET on products is public and POST
requires auth; when no record carries the name `products`, GET and POST both require
auth. -/
theorem products_defaults_resolution (pre post others : List EndpointAuthConfig)
    (hpost : ∀ x ∈ post, x.Name ≠ str "products")
    (hothers : ∀ x ∈ others, x.Name ≠ str "products") :
    (GetAuthConfigFromConfig (Config.ofAuth true (some defaultsPublicGet)
        (pre ++ productsSilent :: post))).RequiresAuth (str "products") (str "GET") = false
    ∧ (GetAuthConfigFromConfig (Config.ofAuth true (some defaultsPublicGet)
        (pre ++ productsSilent :: post))).RequiresAuth (str "products") (str "POST") = true
    ∧ (GetAuthConfigFromConfig (Config.ofAuth true (some defaultsPublicGet)
        others)).RequiresAuth (str "products") (str "GET") = true
    ∧ (GetAuthConfigFromConfig (Config.ofAuth true (some defaultsPublicGet)
        others)).RequiresAuth (str "products") (str "POST") = true :=
  ⟨requiresAuth_std (Config.ofAuth true (some defaultsPublicGet) (pre ++ productsSilent :: post))
      pre post productsSilent rfl rfl hpost (str "GET") (by decide),
   requiresAuth_std (Config.ofAuth true (some defaultsPublicGet) (pre ++ productsSilent :: post))
      pre post productsSilent rfl rfl hpost (str "POST") (by decide),
   requiresAuth_build_absent (Config.ofAuth true (some defaultsPublicGet) others)
      (str "products") rfl hothers (str "GET"),
   requiresAuth_build_absent (Config.ofAuth true (some defaultsPublicGet) others)
      (str "products") rfl hothers (str "POST")⟩

/-- C4 (amended) at `[users, products]` for the listed case and `[users]` for the
absent one. -/
theorem products_defaults_resolution_witness :
    (GetAuthConfigFromConfig (Config.ofAuth true (some defaultsPublicGet)
        [usersPublicGet, productsSilent])).RequiresAuth (str "products") (str "GET") = false
    ∧ (GetAuthConfigFromConfig (Config.ofAuth true (some defaultsPublicGet)
        [usersPublicGet, productsSilent])).RequiresAuth (str "products") (str "POST") = true
    ∧ (GetAuthConfigFromConfig (Config.ofAuth true (some defaultsPublicGet)
        [usersPublicGet])).RequiresAuth (str "products") (str "GET") = true
    ∧ (GetAuthConfigFromConfig (Config.ofAuth true (some defaultsPublicGet)
        [usersPublicGet])).RequiresAuth (str "products") (str "POST") = true :=
  products_defaults_resolution [usersPublicGet] [] [usersPublicGet] (by decide) (by decide)

/-- On a resource that has an endpoint record, a verb outside the five standard ones is
never listed, so `RequiresAuth` answers false for it. -/
theorem requiresAuth_nonstandard_listed (cfg : Config) (pre post : List EndpointAuthConfig)
    (e : EndpointAuthConfig) (hen : cfg.Codegen.Auth.Enabled = true)
    (hsplit : cfg.Codegen.Auth.Endpoints = pre ++ e :: post)
    (hlast : ∀ x ∈ post, x.Name ≠ e.Name) (v : GoString) (hv : v ∉ standardMethods) :
    (GetAuthConfigFromConfig cfg).RequiresAuth e.Name v = false := by
  rw [requiresAuth_build_last cfg pre post e hen hsplit hlast v]
  simp [hv]

/-- C5, as stated, fails at the verb HEAD: the record for `products` sets no value for
it, the defaults map is absent, and yet `RequiresAuth` is false. -/
theorem head_on_listed_resource_is_public :
    getMethodValue productsSilent (str "HEAD") = none
    ∧ GoMap.get? (Config.ofAuth true none [productsSilent]).Codegen.Auth.Defaults (str "HEAD")
        = none
    ∧ (GetAuthConfigFromConfig (Config.ofAuth true none [productsSilent])).RequiresAuth
        (str "products") (str "HEAD") = false := by
  decide

/-- C5 (amended): with auth enabled, for the last endpoint record `e` of a resource and
a verb among GET, POST, PUT, DELETE, PATCH for which `e` sets no explicit value and
the defaults map has no entry, `RequiresAuth` is true. -/
theorem requiresAuth_secure_by_default (cfg : Config) (pre post : List EndpointAuthConfig)
    (e : EndpointAuthConfig) (hen : cfg.Codegen.Auth.Enabled = true)
    (hsplit : cfg.Codegen.Auth.Endpoints = pre ++ e :: post)
    (hlast : ∀ x ∈ post, x.Name ≠ e.Name) (v : GoString) (hv : v ∈ standardMethods)
    (hunset : getMethodValue e v = none)
    (hnodef : GoMap.get? cfg.Codegen.Auth.Defaults v = none) :
    (GetAuthConfigFromConfig cfg).RequiresAuth e.Name v = true := by
  rw [requiresAuth_std cfg pre post e hen hsplit hlast v hv, hunset, hnodef]
  rfl

/-- C5 (amended) at PUT on `products`, silent on PUT, under defaults that only name GET
and POST. -/
theorem requiresAuth_secure_by_default_witness :
    (GetAuthConfigFromConfig (Config.ofAuth true (some defaultsPublicGet)
        [productsSilent, usersPublicGet])).RequiresAuth (str "products") (str "PUT") = true :=
  requiresAuth_secure_by_default
    (Config.ofAuth true (some defaultsPublicGet) [productsSilent, usersPublicGet])
    [] [usersPublicGet] productsSilent rfl rfl (by decide) (str "PUT") (by decide) rfl rfl

/-- C6: on an auth-enabled AuthConfig (its map nil or not), after
`SetResourceAuth r ms` the resource `r` requires auth on exactly the verbs of `ms`,
every other resource answers as before, and the Enabled flag is unchanged. -/
theorem setResourceAuth_effect (c : AuthConfig) (hen : c.Enabled = true) (r : GoString)
    (ms : List GoString) :
    (∀ v, (c.SetResourceAuth r ms).RequiresAuth r v = true ↔ v ∈ ms)
    ∧ (∀ r2 v, r2 ≠ r → (c.SetResourceAuth r ms).RequiresAuth r2 v = c.RequiresAuth r2 v)
    ∧ (c.SetResourceAuth r ms).Enabled = c.Enabled := by
  refine ⟨fun v => ?_, fun r2 v hne => ?_, rfl⟩
  · simp [AuthConfig.SetResourceAuth, AuthConfig.RequiresAuth, hen, GoMap.get?,
      AList.lookup_insert, methodListed_eq_decide]
  · cases hm : c.RequireAuth with
    | none =>
      simp only [AuthConfig.SetResourceAuth, AuthConfig.RequiresAuth, hen, GoMap.get?, hm,
        AList.lookup_insert_ne hne, AList.lookup_empty]
    | some m =>
      simp [AuthConfig.SetResourceAuth, AuthConfig.RequiresAuth, hen, GoMap.get?, hm,
        AList.lookup_insert_ne hne]

/-- C6 at an enabled AuthConfig whose map is nil. -/
theorem setResourceAuth_effect_witness :
    (∀ v, ((AuthConfig.mk true none).SetResourceAuth (str "users")
        [str "POST", str "DELETE"]).RequiresAuth (str "users") v = true
        ↔ v ∈ [str "POST", str "DELETE"])
    ∧ (∀ r2 v, r2 ≠ str "users" →
        ((AuthConfig.mk true none).SetResourceAuth (str "users")
          [str "POST", str "DELETE"]).RequiresAuth r2 v
        = (AuthConfig.mk true none).RequiresAuth r2 v)
    ∧ ((AuthConfig.mk true none).SetResourceAuth (str "users")
        [str "POST", str "DELETE"]).Enabled = (AuthConfig.mk true none).Enabled :=
  setResourceAuth_effect (AuthConfig.mk true none) rfl (str "users") [str "POST", str "DELETE"]



/-! ## DTO synthesizer -/

theorem foldl_step_eq_filter {α : Type} (step : GoString → α → GoString) (keep : α → Bool)
    (line : α → GoString) (hstep : ∀ r x, step r x = if keep x then r ++ line x else r)
    (l : List α) (acc : GoString) :
    l.foldl step acc = acc ++ (l.filter keep).flatMap line := by
  induction l generalizing acc with
  | nil => simp
  | cons x xs ih =>
    rw [List.foldl_cons, ih, hstep]
    by_cases h : keep x = true
    · simp [h, List.filter]
    · simp [h, List.filter]

theorem str_empty : str "" = [] := rfl

theorem toLower_fixed_keys (unicodeLower : GoString → GoString) :
    strings_ToLower unicodeLower (str "id") = FieldID
    ∧ strings_ToLower unicodeLower (str "created_at") = FieldCreatedAt
    ∧ strings_ToLower unicodeLower (str "updated_at") = FieldUpdatedAt :=
  ⟨rfl, rfl, rfl⟩

theorem generateDTOFields_eq (unicodeLower title : GoString → GoString)
    (fields : List StructField) :
    generateDTOFields unicodeLower title fields
      = (fields.filter inReadDTO).flatMap (dtoFieldLine unicodeLower title) := by
  unfold generateDTOFields
  rw [foldl_step_eq_filter _ inReadDTO (dtoFieldLine unicodeLower title)]
  · simp
  · intro r x
    by_cases h1 : x.DTOTag = str "-" <;> by_cases h2 : x.DTOTag = str "write" <;>
      by_cases h3 : x.IsPointer = true <;>
      simp [inReadDTO, dtoFieldLine, str_empty, h1, h2, h3]

theorem generateCreateDTOFields_eq (unicodeLower title : GoString → GoString)
    (fields : List StructField) :
    generateCreateDTOFields unicodeLower title fields
      = (fields.filter (inWriteDTO unicodeLower)).flatMap (dtoFieldLine unicodeLower title) := by
  unfold generateCreateDTOFields
  rw [foldl_step_eq_filter _ (inWriteDTO unicodeLower) (dtoFieldLine unicodeLower title)]
  · simp
  · intro r x
    obtain ⟨e1, e2, e3⟩ := toLower_fixed_keys unicodeLower
    by_cases h1 : x.DTOTag = str "-" <;> by_cases h2 : x.DTOTag = str "read" <;>
      by_cases h3 : x.IsPointer = true <;>
      by_cases h4 : strings_ToLower unicodeLower x.DBTag = FieldID <;>
      by_cases h5 : strings_ToLower unicodeLower x.DBTag = FieldCreatedAt <;>
      by_cases h6 : strings_ToLower unicodeLower x.DBTag = FieldUpdatedAt <;>
      simp [inWriteDTO, equalIgnoringCase, dtoFieldLine, str_empty, e1, e2, e3, h1, h2, h3,
        h4, h5, h6]

theorem generateUpdateDTOFields_eq (unicodeLower title : GoString → GoString)
    (fields : List StructField) :
    generateUpdateDTOFields unicodeLower title fields
      = (fields.filter (inWriteDTO unicodeLower)).flatMap (dtoFieldLine unicodeLower title) := by
  unfold generateUpdateDTOFields
  rw [foldl_step_eq_filter _ (inWriteDTO unicodeLower) (dtoFieldLine unicodeLower title)]
  · simp
  · intro r x
    obtain ⟨e1, e2, e3⟩ := toLower_fixed_keys unicodeLower
    by_cases h1 : x.DTOTag = str "-" <;> by_cases h2 : x.DTOTag = str "read" <;>
      by_cases h3 : x.IsPointer = true <;>
      by_cases h4 : strings_ToLower unicodeLower x.DBTag = FieldID <;>
      by_cases h5 : strings_ToLower unicodeLower x.DBTag = FieldCreatedAt <;>
      by_cases h6 : strings_ToLower unicodeLower x.DBTag = FieldUpdatedAt <;>
      simp [inWriteDTO, equalIgnoringCase, dtoFieldLine, str_empty, e1, e2, e3, h1, h2, h3,
        h4, h5, h6]


/-- C7: the read DTO text is the lines, in source order, of exactly the fields whose dto
tag is neither `-` nor `write`; a field tagged `write` is never among them. -/
theorem generateDTOFields_lines (unicodeLower title : GoString → GoString)
    (fields : List StructField) :
    generateDTOFields unicodeLower title fields
      = (fields.filter (fun f => !(decide (f.DTOTag = str "-")
            || decide (f.DTOTag = str "write")))).flatMap
          (dtoFieldLine unicodeLower title)
    ∧ ∀ f ∈ fields, f.DTOTag = str "write" →
        f ∉ fields.filter (fun f => !(decide (f.DTOTag = str "-")
            || decide (f.DTOTag = str "write"))) := by
  refine ⟨generateDTOFields_eq unicodeLower title fields, fun f _ hw hmem => ?_⟩
  have := (List.mem_filter.1 hmem).2
  simp [hw] at this

/-- C8: the create DTO text and the update DTO text are equal, and are the lines, in
source order, of exactly the fields whose db tag is, case-insensitively, none of `id`,
`created_at`, `updated_at` and whose dto tag is neither `-` nor `read`; a field tagged
`read` is never among them. -/
theorem generateCreateDTOFields_lines (unicodeLower title : GoString → GoString)
    (fields : List StructField) :
    generateCreateDTOFields unicodeLower title fields
      = generateUpdateDTOFields unicodeLower title fields
    ∧ generateCreateDTOFields unicodeLower title fields
      = (fields.filter (fun f =>
            !(equalIgnoringCase unicodeLower f.DBTag (str "id")
              || equalIgnoringCase unicodeLower f.DBTag (str "created_at")
              || equalIgnoringCase unicodeLower f.DBTag (str "updated_at"))
            && !(decide (f.DTOTag = str "-") || decide (f.DTOTag = str "read")))).flatMap
          (dtoFieldLine unicodeLower title)
    ∧ ∀ f ∈ fields, f.DTOTag = str "read" →
        f ∉ fields.filter (inWriteDTO unicodeLower) := by
  refine ⟨?_, generateCreateDTOFields_eq unicodeLower title fields, fun f _ hr hmem => ?_⟩
  · rw [generateCreateDTOFields_eq, generateUpdateDTOFields_eq]
  · have := (List.mem_filter.1 hmem).2
    simp [inWriteDTO, hr] at this

/-- The three generators on a model with a read-only `Id` (db tag `ID`), a plain `Email`
and a write-only, untagged `Password`. -/
theorem dto_texts_of_sample_model (unicodeLower title : GoString → GoString) :
    generateDTOFields unicodeLower title [idField, emailField, passwordField]
      = str "\tId *string `json:\"id\"`\n\tEmail string `json:\"email\"`\n"
    ∧ generateCreateDTOFields unicodeLower title [idField, emailField, passwordField]
      = str "\tEmail string `json:\"email\"`\n\tPassword string `json:\"password\"`\n"
    ∧ generateUpdateDTOFields unicodeLower title [idField, emailField, passwordField]
      = str "\tEmail string `json:\"email\"`\n\tPassword string `json:\"password\"`\n" := by
  set_option maxRecDepth 8000 in
  exact ⟨rfl, rfl, rfl⟩

theorem needsTimeImport_iff (fields : List StructField) :
    needsTimeImport fields = true ↔ ∃ f ∈ fields, f.Typ = str "time.Time" := by
  induction fields with
  | nil => simp [needsTimeImport]
  | cons x xs ih =>
    by_cases h : x.Typ = str "time.Time"
    · simp [needsTimeImport, h]
    · simp [needsTimeImport, h, ih]

/-- What `generateDTOsFromModel` does: the import line follows the package clause
exactly when some field of the model, included in a DTO or not, has type `time.Time`. -/
theorem generateDTOsFromModel_import (unicodeLower title : GoString → GoString)
    (structName : GoString) (fields : List StructField) :
    generateDTOsFromModel unicodeLower title structName fields
      = str "package dtos\n\n"
        ++ (if ∃ f ∈ fields, f.Typ = str "time.Time" then str "import \"time\"" else str "")
        ++ str "\n\ntype " ++ structName ++ str "DTO struct \x7b\n"
        ++ generateDTOFields unicodeLower title fields
        ++ str "\x7d\n\ntype " ++ structName ++ str "CreateDTO struct \x7b\n"
        ++ generateCreateDTOFields unicodeLower title fields
        ++ str "\x7d\n\ntype " ++ structName ++ str "UpdateDTO struct \x7b\n"
        ++ generateUpdateDTOFields unicodeLower title fields ++ str "\x7d\n" := by
  unfold generateDTOsFromModel
  by_cases h : needsTimeImport fields = true
  · have h2 := (needsTimeImport_iff fields).1 h
    simp only [h, h2, if_true]
  · have h2 : ¬ ∃ f ∈ fields, f.Typ = str "time.Time" :=
      fun hex => h ((needsTimeImport_iff fields).2 hex)
    simp only [h, h2, if_false]
    rfl

theorem hiddenDeletedAt_no_lines (unicodeLower title : GoString → GoString) :
    generateDTOFields unicodeLower title [hiddenDeletedAt] = str ""
    ∧ generateCreateDTOFields unicodeLower title [hiddenDeletedAt] = str ""
    ∧ generateUpdateDTOFields unicodeLower title [hiddenDeletedAt] = str "" :=
  ⟨rfl, rfl, rfl⟩

/-- C9 fails at a model whose only `time.Time` field is excluded from every DTO: the
text carries the line `import "time"` although the read, create and update DTO are
all empty. -/
theorem time_import_for_excluded_field (unicodeLower title : GoString → GoString) :
    generateDTOsFromModel unicodeLower title (str "User") [hiddenDeletedAt]
      = str ("package dtos\n\nimport \"time\"\n\ntype UserDTO struct \x7b\n\x7d\n\n"
          ++ "type UserCreateDTO struct \x7b\n\x7d\n\ntype UserUpdateDTO struct \x7b\n\x7d\n")
    ∧ hasTimeImportLine
        (generateDTOsFromModel unicodeLower title (str "User") [hiddenDeletedAt]) = true
    ∧ inReadDTO hiddenDeletedAt = false
    ∧ inWriteDTO unicodeLower hiddenDeletedAt = false
    ∧ generateDTOFields unicodeLower title [hiddenDeletedAt] = str ""
    ∧ generateCreateDTOFields unicodeLower title [hiddenDeletedAt] = str ""
    ∧ generateUpdateDTOFields unicodeLower title [hiddenDeletedAt] = str "" := by
  obtain ⟨h1, h2, h3⟩ := hiddenDeletedAt_no_lines unicodeLower title
  have hout : generateDTOsFromModel unicodeLower title (str "User") [hiddenDeletedAt]
      = str ("package dtos\n\nimport \"time\"\n\ntype UserDTO struct \x7b\n\x7d\n\n"
          ++ "type UserCreateDTO struct \x7b\n\x7d\n\ntype UserUpdateDTO struct \x7b\n\x7d\n") := by
    unfold generateDTOsFromModel
    rw [h1, h2, h3, show needsTimeImport [hiddenDeletedAt] = true from rfl]
    decide
  refine ⟨hout, ?_, rfl, rfl, h1, h2, h3⟩
  rw [hout]
  decide


/-- The layout of an emitted line, checked on each of the three generators at a
one-field model: a tab, the name, a space, the type with `*` in front exactly when the
pointer flag is set, a space, and the backquoted tag `json:"K"` with `K` the JSONTag
when non-empty and `toJSONCamelCase Name` otherwise. -/
theorem emitted_line_layout (unicodeLower title : GoString → GoString) (f : StructField) :
    (inReadDTO f = true →
      generateDTOFields unicodeLower title [f]
        = str "\t" ++ f.Name ++ str " " ++ (if f.IsPointer then str "*" else str "") ++ f.Typ
          ++ str " `json:\""
          ++ (if f.JSONTag = str "" then toJSONCamelCase unicodeLower title f.Name
              else f.JSONTag)
          ++ str "\"`\n")
    ∧ (inWriteDTO unicodeLower f = true →
      generateCreateDTOFields unicodeLower title [f]
        = str "\t" ++ f.Name ++ str " " ++ (if f.IsPointer then str "*" else str "") ++ f.Typ
          ++ str " `json:\""
          ++ (if f.JSONTag = str "" then toJSONCamelCase unicodeLower title f.Name
              else f.JSONTag)
          ++ str "\"`\n"
      ∧ generateUpdateDTOFields unicodeLower title [f]
        = str "\t" ++ f.Name ++ str " " ++ (if f.IsPointer then str "*" else str "") ++ f.Typ
          ++ str " `json:\""
          ++ (if f.JSONTag = str "" then toJSONCamelCase unicodeLower title f.Name
              else f.JSONTag)
          ++ str "\"`\n") := by
  refine ⟨fun h => ?_, fun h => ⟨?_, ?_⟩⟩
  · rw [generateDTOFields_eq]; simp [List.filter, h, dtoFieldLine]
  · rw [generateCreateDTOFields_eq]; simp [List.filter, h, dtoFieldLine]
  · rw [generateUpdateDTOFields_eq]; simp [List.filter, h, dtoFieldLine]

/-- For a name without underscore whose first byte is ASCII, the derived key is the name
with its first character lower-cased. -/
theorem toJSONCamelCase_ascii_initial (unicodeLower title : GoString → GoString)
    (c : Nat) (rest : GoString) (hc : c < 128) (hu : 95 ∉ c :: rest) :
    toJSONCamelCase unicodeLower title (c :: rest)
      = (if 65 ≤ c ∧ c ≤ 90 then c + 32 else c) :: rest := by
  have hcont : strings_Contains (c :: rest) 95 = false := by
    simp only [strings_Contains, List.any_eq_false]
    intro x hx
    have : x ≠ 95 := fun e => hu (e ▸ hx)
    simpa using this
  simp [toJSONCamelCase, str_empty, hcont, strings_ToLower, hc]

/-- C10 fails at the untagged field `Élan string`: the key keeps the second byte of `É`
behind whatever `strings.ToLower` makes of its first byte alone, so it is never `élan`
and the emitted line is never the one with `json:"élan"`. -/
theorem elan_key_not_lowercased (unicodeLower title : GoString → GoString) :
    toJSONCamelCase unicodeLower title (str "Élan")
      = unicodeLower [0xC3] ++ [0x89, 0x6C, 0x61, 0x6E]
    ∧ toJSONCamelCase unicodeLower title (str "Élan") ≠ str "élan"
    ∧ generateDTOFields unicodeLower title [elanField]
      = str "\tÉlan string `json:\"" ++ unicodeLower [0xC3] ++ [0x89, 0x6C, 0x61, 0x6E]
        ++ str "\"`\n"
    ∧ generateDTOFields unicodeLower title [elanField]
      ≠ str "\tÉlan string `json:\"élan\"`\n" := by
  have hkey : toJSONCamelCase unicodeLower title (str "Élan")
      = unicodeLower [0xC3] ++ [0x89, 0x6C, 0x61, 0x6E] := rfl
  have hne : ∀ pre : GoString, pre ++ unicodeLower [0xC3] ++ [0x89, 0x6C, 0x61, 0x6E]
      ≠ pre ++ str "élan" := by
    intro pre h
    have h2 := congrArg (fun l => (l.reverse).take 4) h
    simp [str, utf8EncodeRune] at h2
  have hline : generateDTOFields unicodeLower title [elanField]
      = str "\tÉlan string `json:\"" ++ unicodeLower [0xC3] ++ [0x89, 0x6C, 0x61, 0x6E]
        ++ str "\"`\n" := rfl
  refine ⟨hkey, ?_, hline, ?_⟩
  · intro h
    exact hne [] (by simpa using h)
  · rw [hline]
    intro h
    have h2 := congrArg (fun l => (l.reverse).take 7) h
    simp [str, utf8EncodeRune] at h2

/-! ## Field extractor -/

theorem foldl_append_flatMap {α β : Type} (step : List β → α → List β) (g : α → List β)
    (hstep : ∀ acc x, step acc x = acc ++ g x) (l : List α) (acc : List β) :
    l.foldl step acc = acc ++ l.flatMap g := by
  induction l generalizing acc with
  | nil => simp
  | cons x xs ih => rw [List.foldl_cons, ih, hstep]; simp

theorem extractStructFieldsFromAST_loop (st : List AstField) (acc : List StructField) :
    st.foldl
      (fun fields field =>
        if field.Names.length = 0 then fields
        else
          let fieldName := field.Names.headD []
          let typ : GoString × Bool :=
            match field.Typ with
            | .Ident name => (name, false)
            | .StarExpr x =>
              match x with
              | .Ident name => (name, true)
              | .SelectorExpr (.Ident pkg) sel => (pkg ++ str "." ++ sel, true)
              | _ => (str "", true)
            | .SelectorExpr (.Ident pkg) sel => (pkg ++ str "." ++ sel, false)
            | .InterfaceType => (str "interface\x7b\x7d", false)
            | .MapType _ _ => (str "map[string]interface\x7b\x7d", false)
            | _ => (str "", false)
          let tags : GoString × GoString × GoString :=
            match field.Tag with
            | none => (str "", str "", str "")
            | some tag =>
              ((strings_Split 44 (extractTag tag (str "json"))).headD [],
               extractTag tag (str "db"), extractTag tag (str "dto"))
          fields ++ [StructField.mk fieldName typ.1 tags.1 tags.2.1 tags.2.2 typ.2])
      acc
    = acc ++ st.flatMap (fun f => extractStructFieldsFromAST [f]) := by
  apply foldl_append_flatMap
  intro acc x
  by_cases h : x.Names = []
  · simp [extractStructFieldsFromAST, h]
  · simp [extractStructFieldsFromAST, h]

theorem extractStructFieldsFromAST_flatMap (st : List AstField) :
    extractStructFieldsFromAST st = st.flatMap (fun f => extractStructFieldsFromAST [f]) := by
  have h := extractStructFieldsFromAST_loop st []
  simpa [extractStructFieldsFromAST] using h

theorem extractStructFields_eq (node : AstFile) (structName : GoString) :
    extractStructFields (some node) structName
      = (structTypesNamed node structName).flatMap extractStructFieldsFromAST := by
  unfold extractStructFields structTypesNamed
  simp only
  rw [foldl_append_flatMap _
    (fun decl => (structsOfDecl structName decl).flatMap extractStructFieldsFromAST)]
  · simp [List.flatMap_assoc]
  · intro acc decl
    cases decl with
    | FuncDecl => simp [structsOfDecl]
    | GenDecl specs =>
      simp only
      rw [foldl_append_flatMap _
        (fun spec => (structOfSpec structName spec).toList.flatMap extractStructFieldsFromAST)]
      · congr 1
        induction specs with
        | nil => rfl
        | cons s ss ih =>
          cases hs : structOfSpec structName s with
          | none => simpa [structsOfDecl, List.filterMap, hs] using ih
          | some st => simpa [structsOfDecl, List.filterMap, hs] using ih
      · intro acc spec
        cases spec with
        | OtherSpec => simp [structOfSpec]
        | TypeSpec name typ =>
          cases typ with
          | NotStruct => by_cases hn : name = structName <;> simp [hn, structOfSpec]
          | StructType st =>
            by_cases hn : name = structName
            · simp only [hn, ne_eq, not_true_eq_false, if_false, if_true, Option.toList,
                List.flatMap_cons, List.flatMap_nil, List.append_nil, structOfSpec]
              rw [extractStructFieldsFromAST_loop, ← extractStructFieldsFromAST_flatMap]
            · simp [hn, structOfSpec]

theorem extractStructFields_single (structName : GoString) (st : List AstField) :
    extractStructFields (some (singleStructFile structName st)) structName
      = extractStructFieldsFromAST st := by
  rw [extractStructFields_eq]
  simp [structTypesNamed, singleStructFile, structsOfDecl, structOfSpec]

theorem extractStructFieldsFromAST_names (st : List AstField) :
    (extractStructFieldsFromAST st).map (fun d => d.Name)
      = st.filterMap (fun f => f.Names.head?) := by
  rw [extractStructFieldsFromAST_flatMap]
  induction st with
  | nil => rfl
  | cons f fs ih =>
    rw [List.flatMap_cons, List.map_append, ih]
    cases hN : f.Names with
    | nil => simp [extractStructFieldsFromAST, hN, List.filterMap]
    | cons n ns => simp [extractStructFieldsFromAST, hN, List.filterMap]

/-- The extractor returns as many descriptors as there are declarations with a name;
that is the number of named fields when no declaration groups several names. -/
theorem extractStructFieldsFromAST_length (st : List AstField) :
    (extractStructFieldsFromAST st).length = (st.filter (fun f => f.Names ≠ [])).length
    ∧ ((∀ f ∈ st, f.Names.length ≤ 1) →
        (extractStructFieldsFromAST st).length = namedFieldCount st) := by
  have hlen : (extractStructFieldsFromAST st).length
      = (st.filter (fun f => f.Names ≠ [])).length := by
    rw [extractStructFieldsFromAST_flatMap]
    induction st with
    | nil => rfl
    | cons f fs ih =>
      rw [List.flatMap_cons, List.length_append, ih]
      cases hN : f.Names with
      | nil => simp [extractStructFieldsFromAST, hN, List.filter]
      | cons n ns => simp [extractStructFieldsFromAST, hN, List.filter]; omega
  refine ⟨hlen, fun h => ?_⟩
  rw [hlen]
  clear hlen
  induction st with
  | nil => rfl
  | cons f fs ih =>
    have hf := h f (List.mem_cons_self _ _)
    have ih2 := ih (fun g hg => h g (List.mem_cons_of_mem _ hg))
    cases hN : f.Names with
    | nil => simpa [namedFieldCount, List.filter, hN] using ih2
    | cons n ns =>
      have hns : ns = [] := by
        rw [hN] at hf
        simp at hf
        exact hf
      simp [namedFieldCount, List.filter, hN, hns] at ih2 ⊢
      omega

/-- C11 fails at `type T struct { A, B string }`: the struct declares two named fields
and the extractor, from the file or from the struct type, returns the one descriptor
of `A`. -/
theorem grouped_names_yield_one_descriptor :
    namedFieldCount [fieldAB] = 2
    ∧ extractStructFieldsFromAST [fieldAB]
        = [⟨str "A", str "string", str "", str "", str "", false⟩]
    ∧ extractStructFields (some (singleStructFile (str "T") [fieldAB])) (str "T")
        = [⟨str "A", str "string", str "", str "", str "", false⟩]
    ∧ (extractStructFields (some (singleStructFile (str "T") [fieldAB])) (str "T")).length
        = 1 :=
  ⟨rfl, rfl, rfl, rfl⟩

/-- C12: the extractor's output holds, in source order, one descriptor for each field
declaration that carries a name, bearing the declaration's first name, and none for an
embedded field; `extractStructFields` on a file is `extractStructFieldsFromAST` on the
struct types of the wanted name, so the two agree on every field list. -/
theorem extractor_one_descriptor_per_declaration (st : List AstField)
    (structName : GoString) :
    (extractStructFieldsFromAST st).map (fun d => d.Name)
      = st.filterMap (fun f => f.Names.head?)
    ∧ (extractStructFields (some (singleStructFile structName st)) structName).map
        (fun d => d.Name) = st.filterMap (fun f => f.Names.head?)
    ∧ extractStructFields (some (singleStructFile structName st)) structName
      = extractStructFieldsFromAST st
    ∧ ∀ node : AstFile, extractStructFields (some node) structName
      = (structTypesNamed node structName).flatMap extractStructFieldsFromAST := by
  refine ⟨extractStructFieldsFromAST_names st, ?_, extractStructFields_single structName st,
    fun node => extractStructFields_eq node structName⟩
  rw [extractStructFields_single]
  exact extractStructFieldsFromAST_names st

/-- A struct with an embedded field between two named ones: two descriptors, in order. -/
theorem extractor_skips_embedded_field :
    (extractStructFieldsFromAST [fieldIDOfTest, fieldEmbedded, fieldNameOfTest]).map
      (fun d => d.Name) = [str "ID", str "Name"] := by
  rw [extractStructFieldsFromAST_names]
  rfl

/-- C13: the type string and pointer flag the extractor gives a named field, by the
form of its type: identifier, pointer to identifier, qualified name, pointer to
qualified name, interface literal, map type. -/
theorem extractor_type_resolution (structName n : GoString) (ns : List GoString)
    (tag : Option GoString) (T pkg : GoString) (key value : AstExpr) :
    (extractStructFields (some (singleStructFile structName
        [⟨n :: ns, .Ident T, tag⟩])) structName).map (fun d => (d.Typ, d.IsPointer))
      = [(T, false)]
    ∧ (extractStructFields (some (singleStructFile structName
        [⟨n :: ns, .StarExpr (.Ident T), tag⟩])) structName).map
          (fun d => (d.Typ, d.IsPointer))
      = [(T, true)]
    ∧ (extractStructFields (some (singleStructFile structName
        [⟨n :: ns, .SelectorExpr (.Ident pkg) T, tag⟩])) structName).map
          (fun d => (d.Typ, d.IsPointer))
      = [(pkg ++ str "." ++ T, false)]
    ∧ (extractStructFields (some (singleStructFile structName
        [⟨n :: ns, .StarExpr (.SelectorExpr (.Ident pkg) T), tag⟩])) structName).map
          (fun d => (d.Typ, d.IsPointer))
      = [(pkg ++ str "." ++ T, true)]
    ∧ (extractStructFields (some (singleStructFile structName
        [⟨n :: ns, .InterfaceType, tag⟩])) structName).map (fun d => (d.Typ, d.IsPointer))
      = [(str "interface\x7b\x7d", false)]
    ∧ (extractStructFields (some (singleStructFile structName
        [⟨n :: ns, .MapType key value, tag⟩])) structName).map
          (fun d => (d.Typ, d.IsPointer))
      = [(str "map[string]interface\x7b\x7d", false)] := by
  simp only [extractStructFields_single]
  refine ⟨?_, ?_, ?_, ?_, ?_, ?_⟩ <;> simp [extractStructFieldsFromAST]

theorem strings_Split_head (sep : Nat) (s : GoString) :
    (strings_Split sep s).headD [] = s.takeWhile (fun b => decide (b ≠ sep)) := by
  induction s with
  | nil => rfl
  | cons c cs ih =>
    by_cases h : c = sep
    · simp [strings_Split, h, List.takeWhile]
    · have htw : (c :: cs).takeWhile (fun b => decide (b ≠ sep))
          = c :: cs.takeWhile (fun b => decide (b ≠ sep)) := by
        simp [List.takeWhile, h]
      rw [htw, ← ih]
      cases hsp : strings_Split sep cs with
      | nil => simp [strings_Split, h, hsp]
      | cons p ps => simp [strings_Split, h, hsp]

theorem takeWhile_ne_not_mem (sep : Nat) (s : GoString) :
    sep ∉ s.takeWhile (fun b => decide (b ≠ sep)) := by
  intro h
  have := List.mem_takeWhile_imp h
  simp at this

/-- The tags of a descriptor in terms of `extractTag`: JSONTag is what `extractTag`
returns for `json`, up to its first comma; DBTag and DTOTag are what it returns for `db`
and `dto`; a field without tag gets three empty strings. -/
theorem extractor_tags (structName n : GoString) (ns : List GoString) (typ : AstExpr)
    (tag : GoString) :
    (extractStructFields (some (singleStructFile structName
        [⟨n :: ns, typ, some tag⟩])) structName).map
          (fun d => (d.JSONTag, d.DBTag, d.DTOTag))
      = [((extractTag tag (str "json")).takeWhile (fun b => decide (b ≠ 44)),
          extractTag tag (str "db"), extractTag tag (str "dto"))]
    ∧ 44 ∉ (extractTag tag (str "json")).takeWhile (fun b => decide (b ≠ 44))
    ∧ ((44 ∉ extractTag tag (str "json")) →
        (extractTag tag (str "json")).takeWhile (fun b => decide (b ≠ 44))
          = extractTag tag (str "json"))
    ∧ (extractStructFields (some (singleStructFile structName
        [⟨n :: ns, typ, none⟩])) structName).map (fun d => (d.JSONTag, d.DBTag, d.DTOTag))
      = [(str "", str "", str "")] := by
  simp only [extractStructFields_single]
  refine ⟨?_, takeWhile_ne_not_mem 44 _, fun h => ?_, ?_⟩
  · have hh := strings_Split_head 44 (extractTag tag (str "json"))
    simp only [extractStructFieldsFromAST, List.foldl, List.length_cons, Nat.add_one_ne_zero,
      if_false, List.nil_append, List.map_cons, List.map_nil, hh]
  · rw [List.takeWhile_eq_self_iff]
    intro b hb
    have : b ≠ 44 := fun e => h (e ▸ hb)
    simpa using this
  · simp [extractStructFieldsFromAST]

/-- The tags `TestExtractStructFieldsWithDTOTag` expects for `ID` and `Name`. -/
theorem extractor_tags_of_test :
    (extractStructFieldsFromAST [fieldIDOfTest, fieldNameOfTest]).map
        (fun d => (d.Name, d.JSONTag, d.DBTag, d.DTOTag))
      = [(str "ID", str "id", str "id", str "read"),
         (str "Name", str "name", str "name", str "read,write")] := by
  decide


/-! ## Identifier normalizer: case conversion -/

theorem strings_Split_no_sep (sep : Nat) (s : GoString) (h : sep ∉ s) :
    strings_Split sep s = [s] := by
  induction s with
  | nil => rfl
  | cons c cs ih =>
    have hc : c ≠ sep := fun e => h (e ▸ List.mem_cons_self _ _)
    have hcs : sep ∉ cs := fun e => h (List.mem_cons_of_mem _ e)
    simp [strings_Split, hc, ih hcs]

theorem strings_Split_append_sep (sep : Nat) (a rest : GoString) (h : sep ∉ a) :
    strings_Split sep (a ++ sep :: rest) = a :: strings_Split sep rest := by
  induction a with
  | nil => simp [strings_Split]
  | cons c cs ih =>
    have hc : c ≠ sep := fun e => h (e ▸ List.mem_cons_self _ _)
    have hcs : sep ∉ cs := fun e => h (List.mem_cons_of_mem _ e)
    simp [strings_Split, hc, ih hcs]

theorem strings_Split_ne_nil (sep : Nat) (s : GoString) : strings_Split sep s ≠ [] := by
  cases s with
  | nil => simp [strings_Split]
  | cons c cs =>
    by_cases hc : c = sep
    · simp [strings_Split, hc]
    · simp only [strings_Split, hc, if_false]
      split <;> simp

theorem strings_Split_singleton (sep : Nat) (s p : GoString)
    (h : strings_Split sep s = [p]) : p = s := by
  induction s generalizing p with
  | nil => simp [strings_Split] at h; exact h
  | cons c cs ih =>
    by_cases hc : c = sep
    · simp only [strings_Split, hc, if_true, List.cons.injEq] at h
      exact absurd h.2 (strings_Split_ne_nil sep cs)
    · cases hs : strings_Split sep cs with
      | nil => exact absurd hs (strings_Split_ne_nil sep cs)
      | cons q qs =>
        simp [strings_Split, hc, hs] at h
        obtain ⟨h1, h2⟩ := h
        subst h2
        rw [← h1, ← ih q hs]

theorem strings_Split_join (seg0 : GoString) (segs : List GoString)
    (h : ∀ p ∈ seg0 :: segs, 95 ∉ p) :
    strings_Split 95 (strings_Join (seg0 :: segs) (str "_")) = seg0 :: segs := by
  induction segs generalizing seg0 with
  | nil =>
    have : strings_Join [seg0] (str "_") = seg0 := by simp [strings_Join, List.intercalate]
    rw [this]
    exact strings_Split_no_sep 95 seg0 (h seg0 (List.mem_cons_self _ _))
  | cons s ss ih =>
    have hj : strings_Join (seg0 :: s :: ss) (str "_")
        = seg0 ++ 95 :: strings_Join (s :: ss) (str "_") := by
      simp [strings_Join, List.intercalate, List.intersperse, str, utf8EncodeRune]
    rw [hj, strings_Split_append_sep 95 seg0 _ (h seg0 (List.mem_cons_self _ _)),
      ih s (fun p hp => h p (List.mem_cons_of_mem _ hp))]

theorem strings_Join_empty_sep (parts : List GoString) :
    strings_Join parts (str "") = parts.flatten := by
  induction parts with
  | nil => rfl
  | cons p ps ih =>
    cases ps with
    | nil => simp [strings_Join, List.intercalate]
    | cons q qs =>
      have : strings_Join (p :: q :: qs) (str "") = p ++ strings_Join (q :: qs) (str "") := by
        simp [strings_Join, List.intercalate, List.intersperse, str_empty]
      rw [this, ih]
      simp

theorem appendTitled_eq (title : GoString → GoString) (result : GoString)
    (parts : List GoString) :
    appendTitled title result parts = result ++ (parts.map title).flatten := by
  induction parts generalizing result with
  | nil => simp [appendTitled]
  | cons p ps ih => simp [appendTitled, ih]

theorem toCamelCase_eq (title : GoString → GoString) (s : GoString) :
    toCamelCase title s
      = (strings_Split 95 s).headD [] ++ (((strings_Split 95 s).tail).map title).flatten := by
  unfold toCamelCase
  cases hs : strings_Split 95 s with
  | nil => simp
  | cons p0 rest =>
    cases rest with
    | nil =>
      have := strings_Split_singleton 95 s p0 hs
      simp [this]
    | cons q qs => simp [appendTitled_eq]

theorem toPascalCase_eq (title : GoString → GoString) (s : GoString) :
    toPascalCase title s = ((strings_Split 95 s).map title).flatten := by
  unfold toPascalCase
  rw [strings_Join_empty_sep]

/-- C19, as stated, fails at `User_id`: whatever the lower-casing and title-casing
library functions are, the result starts with `User`, not with its lower-cased form. -/
theorem camelCase_keeps_upper_first_segment :
    ¬ ∃ unicodeLower title : GoString → GoString,
        toCamelCase title (str "User_id")
          = strings_ToLower unicodeLower (str "User") ++ title (str "id") := by
  rintro ⟨unicodeLower, title, h⟩
  have h1 : toCamelCase title (str "User_id") = str "User" ++ title (str "id") := rfl
  have h2 : strings_ToLower unicodeLower (str "User") = str "user" := rfl
  rw [h1, h2] at h
  have h3 := List.append_cancel_right h
  revert h3
  decide

/-- C19 (amended): `toCamelCase s` is the first `_`-separated segment of `s`, left as it
is, followed by the title-cased remaining segments, i.e. `toPascalCase s` without the
title-casing of its first segment; a string without underscore is returned unchanged. -/
theorem toCamelCase_first_segment_kept (title : GoString → GoString) (s : GoString) :
    toCamelCase title s
      = (strings_Split 95 s).headD [] ++ (((strings_Split 95 s).tail).map title).flatten
    ∧ toPascalCase title s
      = title ((strings_Split 95 s).headD [])
        ++ (((strings_Split 95 s).tail).map title).flatten
    ∧ (95 ∉ s → toCamelCase title s = s) := by
  refine ⟨toCamelCase_eq title s, ?_, fun h => ?_⟩
  · rw [toPascalCase_eq]
    cases hs : strings_Split 95 s with
    | nil => exact absurd hs (strings_Split_ne_nil 95 s)
    | cons p ps => simp
  · rw [toCamelCase_eq, strings_Split_no_sep 95 s h]
    simp

theorem title_eq_capitalize (title : GoString → GoString)
    (htitle : ∀ c rest, isLowerWord (c :: rest) → title (c :: rest) = (c - 32) :: rest)
    (segs : List GoString) (h : ∀ p ∈ segs, isLowerWord p) :
    segs.map title = segs.map capitalize := by
  apply List.map_congr_left
  intro p hp
  have hl := h p hp
  cases p with
  | nil => exact absurd rfl hl.1
  | cons c rest => rw [htitle c rest hl]; rfl

theorem titleASCII_lower (c : Nat) (rest : GoString) (h : isLowerWord (c :: rest)) :
    titleASCII (c :: rest) = (c - 32) :: rest := by
  have hc := h.2 c (List.mem_cons_self _ _)
  have hrest : rest.map (fun b => if 65 ≤ b ∧ b ≤ 90 then b + 32 else b) = rest := by
    conv_rhs => rw [← List.map_id rest]
    apply List.map_congr_left
    intro b hb
    have hb2 := h.2 b (List.mem_cons_of_mem _ hb)
    have : ¬ (65 ≤ b ∧ b ≤ 90) := by omega
    simp [this]
  simp [titleASCII, hc.1, hc.2, hrest]

/-- C20: on a string made of non-empty segments of lower-case ASCII letters joined by
single underscores, `toPascalCase` returns the segments concatenated with the first
letter of each upper-cased and `toCamelCase` the same with the first segment left as it
is; with one segment `toCamelCase` returns the string unchanged. The title-caser of
golang.org/x/text is taken to upper-case the first letter of such a segment. -/
theorem case_conversion_of_snake_case (title : GoString → GoString) (seg0 : GoString)
    (segs : List GoString)
    (htitle : ∀ c rest, isLowerWord (c :: rest) → title (c :: rest) = (c - 32) :: rest)
    (hsegs : ∀ p ∈ seg0 :: segs, isLowerWord p) :
    toPascalCase title (strings_Join (seg0 :: segs) (str "_"))
      = ((seg0 :: segs).map capitalize).flatten
    ∧ toCamelCase title (strings_Join (seg0 :: segs) (str "_"))
      = seg0 ++ (segs.map capitalize).flatten
    ∧ toCamelCase title seg0 = seg0 := by
  have hno : ∀ p ∈ seg0 :: segs, 95 ∉ p := by
    intro p hp hmem
    have := (hsegs p hp).2 95 hmem
    omega
  refine ⟨?_, ?_, ?_⟩
  · rw [toPascalCase_eq, strings_Split_join seg0 segs hno,
      title_eq_capitalize title htitle (seg0 :: segs) hsegs]
  · rw [toCamelCase_eq, strings_Split_join seg0 segs hno]
    simp only [List.headD_cons, List.tail_cons]
    rw [title_eq_capitalize title htitle segs
      (fun p hp => hsegs p (List.mem_cons_of_mem _ hp))]
  · rw [toCamelCase_eq, strings_Split_no_sep 95 seg0 (hno seg0 (List.mem_cons_self _ _))]
    simp

/-- C20 at `user_profile`, with the ASCII title-caser: `UserProfile` and `userProfile`. -/
theorem case_conversion_of_snake_case_witness :
    toPascalCase titleASCII (str "user_profile") = str "UserProfile"
    ∧ toCamelCase titleASCII (str "user_profile") = str "userProfile"
    ∧ toCamelCase titleASCII (str "user") = str "user" :=
  case_conversion_of_snake_case titleASCII (str "user") [str "profile"] titleASCII_lower
    (by decide)

/-- The expectations of `TestToPascalCase` and `TestToCamelCase`, with the ASCII
title-caser. -/
theorem test_case_conversion :
    toPascalCase titleASCII (str "todo_item") = str "TodoItem"
    ∧ toPascalCase titleASCII (str "my_table_name") = str "MyTableName"
    ∧ toCamelCase titleASCII (str "user_id") = str "userId"
    ∧ toCamelCase titleASCII (str "created_at") = str "createdAt"
    ∧ toCamelCase titleASCII (str "my_table_name") = str "myTableName" := by
  decide


/-! ## Identifier normalizer: singularize -/

theorem isPrefixOf_length_le (l r : GoString) (h : l.isPrefixOf r = true) :
    l.length ≤ r.length :=
  (List.isPrefixOf_iff_prefix.1 h).length_le

theorem sliceTo_sub (w : GoString) (k : Nat) (h : k ≤ w.length) :
    sliceTo w ((w.length : Int) - (k : Int)) = some (w.reverse.drop k).reverse := by
  have h1 : (0 : Int) ≤ (w.length : Int) - (k : Int) ∧
      (w.length : Int) - (k : Int) ≤ (w.length : Int) := by omega
  rw [sliceTo, if_pos h1, Int.toNat_sub, List.drop_reverse, List.reverse_reverse]

theorem byteAt_sub (w : GoString) (h : 4 < w.length) :
    byteAt w ((w.length : Int) - 4) = w.reverse[3]? := by
  have h1 : (0 : Int) ≤ (w.length : Int) - 4 ∧
      (w.length : Int) - 4 < (w.length : Int) := by omega
  have h2 : ((w.length : Int) - 4).toNat = w.length - 4 := by omega
  rw [byteAt, if_pos h1, h2, List.get?_eq_getElem?]
  exact (List.getElem?_reverse' 3 (w.length - 4) (by omega)).symm

theorem str_suffixes :
    (str "ies").reverse = [115, 101, 105] ∧ (str "ves").reverse = [115, 101, 118]
    ∧ (str "ses").reverse = [115, 101, 115] ∧ (str "xes").reverse = [115, 101, 120]
    ∧ (str "zes").reverse = [115, 101, 122] ∧ (str "ches").reverse = [115, 101, 104, 99]
    ∧ (str "shes").reverse = [115, 101, 104, 115] ∧ (str "s").reverse = [115]
    ∧ (str "ss").reverse = [115, 115] ∧ (str "sses").reverse = [115, 101, 115, 115] := by
  decide

theorem singularize_eq_rev (w : GoString) :
    singularize w = some (singularizeRev w.reverse).reverse := by
  obtain ⟨e1, e2, e3, e4, e5, e6, e7, e8, e9, _⟩ := str_suffixes
  have hlen : w.reverse.length = w.length := List.length_reverse w
  unfold singularize SingularizeExported singularizeRev strings_HasSuffix
  simp only [List.isSuffixOf, e1, e2, e3, e4, e5, e6, e7, e8, e9]
  by_cases c1 : [115, 101, 105].isPrefixOf w.reverse = true
  · have hl := isPrefixOf_length_le _ _ c1
    have hs := sliceTo_sub w 3 (by simpa [hlen] using hl)
    simp only [Nat.cast_ofNat] at hs
    simp [c1, hs, str, utf8EncodeRune]
  · by_cases c2 : [115, 101, 118].isPrefixOf w.reverse = true
    · have hl := isPrefixOf_length_le _ _ c2
      have hs := sliceTo_sub w 3 (by simpa [hlen] using hl)
      simp only [Nat.cast_ofNat] at hs
      by_cases c3 : 4 < w.length
      · have hb := byteAt_sub w c3
        have c3i : (w.length : Int) > 4 := by omega
        by_cases c4 : w.reverse[3]? = some 108
        · simp [c1, c2, c3, c3i, hb, c4, hs, str, utf8EncodeRune]
        · cases hg : w.reverse[3]? with
          | none =>
            have : w.reverse.length ≤ 3 := List.getElem?_eq_none_iff.1 hg
            omega
          | some b =>
            have hb108 : b ≠ 108 := fun e => c4 (by rw [hg, e])
            rw [hg] at hb
            simp [c1, c2, c3, c3i, hb, hg, hb108, hs, str, utf8EncodeRune]
      · have c3i : ¬ (w.length : Int) > 4 := by omega
        simp [c1, c2, c3, c3i, hs, str, utf8EncodeRune]
    · by_cases c5 : [115, 101, 115].isPrefixOf w.reverse = true
      · have hl := isPrefixOf_length_le _ _ c5
        have hs := sliceTo_sub w 2 (by simp [hlen] at hl; omega)
        simp only [Nat.cast_ofNat] at hs
        simp [c1, c2, c5, hs]
      · by_cases c6 : ([115, 101, 120].isPrefixOf w.reverse
            || [115, 101, 122].isPrefixOf w.reverse
            || [115, 101, 104, 99].isPrefixOf w.reverse
            || [115, 101, 104, 115].isPrefixOf w.reverse) = true
        · have hl : 2 ≤ w.length := by
            simp only [Bool.or_eq_true] at c6
            rcases c6 with ((c6 | c6) | c6) | c6 <;>
              have := isPrefixOf_length_le _ _ c6 <;> simp [hlen] at this <;> omega
          have hs := sliceTo_sub w 2 hl
          simp only [Nat.cast_ofNat] at hs
          simp only [c1, c2, c5, c6, hs]
          simp
        · by_cases c7 : ([115].isPrefixOf w.reverse
              && !([115, 115].isPrefixOf w.reverse)) = true
          · have hl : 1 ≤ w.length := by
              simp only [Bool.and_eq_true] at c7
              have := isPrefixOf_length_le _ _ c7.1
              simp [hlen] at this
              omega
            have hs := sliceTo_sub w 1 hl
            simp only [Nat.cast_one] at hs
            simp only [c1, c2, c5, c6, c7, hs]
            simp
          · simp only [c1, c2, c5, c6, c7]
            simp

theorem singularizeRev_of_head_ne (r : GoString) (h : r.head? ≠ some 115) :
    singularizeRev r = r := by
  cases r with
  | nil => simp [singularizeRev]
  | cons a t =>
    have ha : ¬ (115 = a) := fun e => h (by simp [e])
    simp [singularizeRev, List.isPrefixOf, ha]

theorem singularizeRev_of_ss (t : GoString) :
    singularizeRev (115 :: 115 :: t) = 115 :: 115 :: t := by
  simp [singularizeRev, List.isPrefixOf]

theorem singularizeRev_length_lt (t : GoString) (h : t.head? ≠ some 115) :
    (singularizeRev (115 :: t)).length < (115 :: t).length := by
  rcases t with _ | ⟨b, _ | ⟨c, _ | ⟨d, t⟩⟩⟩
  · simp [singularizeRev, List.isPrefixOf]
  · have hb : ¬ (115 = b) := fun e => h (by simp [e])
    simp [singularizeRev, List.isPrefixOf, hb]
  · have hb : ¬ (115 = b) := fun e => h (by simp [e])
    simp only [singularizeRev, List.isPrefixOf, hb]
    split_ifs <;> simp_all
  · have hb : ¬ (115 = b) := fun e => h (by simp [e])
    simp only [singularizeRev, List.isPrefixOf, hb]
    split_ifs <;> simp_all

theorem singularizeRev_idem_iff (r : GoString) :
    singularizeRev (singularizeRev r) = singularizeRev r
      ↔ ¬ ([115, 101, 115].isPrefixOf r = true
            ∧ [115, 101, 115, 115].isPrefixOf r = false) := by
  by_cases h0 : r.head? = some 115
  · cases r with
    | nil => simp at h0
    | cons a t =>
      have ha : a = 115 := by simpa using h0
      subst ha
      by_cases h1 : t.head? = some 115
      · cases t with
        | nil => simp at h1
        | cons b t2 =>
          have hb : b = 115 := by simpa using h1
          subst hb
          simp [singularizeRev_of_ss, List.isPrefixOf]
      · have hlt := singularizeRev_length_lt t h1
        rcases t with _ | ⟨b, _ | ⟨c, t3⟩⟩
        · simp [singularizeRev, List.isPrefixOf]
        · have hb : ¬ (115 = b) := fun e => h1 (by simp [e])
          simp [singularizeRev, List.isPrefixOf, hb]
        · have hb : ¬ (115 = b) := fun e => h1 (by simp [e])
          by_cases hses : (101 = b ∧ 115 = c)
          · obtain ⟨hb2, hc⟩ := hses
            subst hb2
            subst hc
            have hr : singularizeRev (115 :: 101 :: 115 :: t3) = 115 :: t3 := by
              simp [singularizeRev, List.isPrefixOf]
            rw [hr]
            by_cases h3 : t3.head? = some 115
            · cases t3 with
              | nil => simp at h3
              | cons d t4 =>
                have hd : d = 115 := by simpa using h3
                subst hd
                simp [singularizeRev_of_ss, List.isPrefixOf]
            · have hlt2 := singularizeRev_length_lt t3 h3
              have hne : singularizeRev (115 :: t3) ≠ 115 :: t3 := by
                intro e
                rw [e] at hlt2
                exact Nat.lt_irrefl _ hlt2
              have hpre : [115, 101, 115, 115].isPrefixOf (115 :: 101 :: 115 :: t3) = false := by
                cases t3 with
                | nil => simp [List.isPrefixOf]
                | cons d t4 =>
                  have hd : ¬ (115 = d) := fun e => h3 (by simp [e])
                  simp [List.isPrefixOf, hd]
              constructor
              · intro e
                exact absurd e hne
              · intro hn
                exact absurd ⟨by simp [List.isPrefixOf], hpre⟩ hn
          · have hpre : [115, 101, 115].isPrefixOf (115 :: b :: c :: t3) = false := by
              simp only [List.isPrefixOf, Bool.and_eq_false_iff]
              simp only [not_and] at hses
              by_cases hb2 : 101 = b
              · have := hses hb2
                simp [this]
              · simp [hb2]
            have hhead : (singularizeRev (115 :: b :: c :: t3)).head? ≠ some 115 := by
              simp only [singularizeRev, List.isPrefixOf]
              split_ifs <;> (simp_all; try omega)
            rw [singularizeRev_of_head_ne _ hhead]
            simp [hpre]
  · rw [singularizeRev_of_head_ne r h0, singularizeRev_of_head_ne r h0]
    cases r with
    | nil => simp [List.isPrefixOf]
    | cons a t =>
      have ha : ¬ (115 = a) := fun e => h0 (by simp [e])
      simp [List.isPrefixOf, ha]

theorem suffix_iff_rev (lit w : GoString) :
    lit <:+ w ↔ lit.reverse.isPrefixOf w.reverse = true := by
  rw [List.isPrefixOf_iff_prefix, List.reverse_prefix]

theorem dropLast_eq_rev (w : GoString) :
    w.dropLast = (w.reverse.drop 1).reverse
    ∧ w.dropLast.dropLast = (w.reverse.drop 2).reverse := by
  have h1 : ∀ v : GoString, v.dropLast = (v.reverse.drop 1).reverse := by
    intro v
    rw [List.drop_reverse, List.reverse_reverse, List.dropLast_eq_take]
  refine ⟨h1 w, ?_⟩
  rw [h1 w.dropLast, h1 w, List.reverse_reverse, List.drop_drop]

/-- C16: for a word that does not end in `ves`, `singularize` returns the word with its
final `ies` replaced by `y` if it ends in `ies`; otherwise the word without its last
two bytes if it ends in `ses`, `xes`, `zes`, `ches` or `shes`; otherwise the word
without its last byte if it ends in `s` but not in `ss`; otherwise the word itself. -/
theorem singularize_plain_suffixes (w : GoString) (hves : ¬ str "ves" <:+ w) :
    (∀ stem, w = stem ++ str "ies" → singularize w = some (stem ++ str "y"))
    ∧ (¬ str "ies" <:+ w →
        (str "ses" <:+ w ∨ str "xes" <:+ w ∨ str "zes" <:+ w ∨ str "ches" <:+ w
          ∨ str "shes" <:+ w) →
        singularize w = some w.dropLast.dropLast)
    ∧ (¬ str "ies" <:+ w →
        ¬ (str "ses" <:+ w ∨ str "xes" <:+ w ∨ str "zes" <:+ w ∨ str "ches" <:+ w
          ∨ str "shes" <:+ w) →
        str "s" <:+ w → ¬ str "ss" <:+ w →
        singularize w = some w.dropLast)
    ∧ (¬ str "ies" <:+ w →
        ¬ (str "ses" <:+ w ∨ str "xes" <:+ w ∨ str "zes" <:+ w ∨ str "ches" <:+ w
          ∨ str "shes" <:+ w) →
        ¬ (str "s" <:+ w ∧ ¬ str "ss" <:+ w) →
        singularize w = some w) := by
  obtain ⟨e1, e2, e3, e4, e5, e6, e7, e8, e9, _⟩ := str_suffixes
  obtain ⟨d1, d2⟩ := dropLast_eq_rev w
  simp only [suffix_iff_rev, e1, e2, e3, e4, e5, e6, e7, e8, e9] at hves ⊢
  rw [singularize_eq_rev, d2, d1]
  refine ⟨fun stem hw => ?_, fun h1 h2 => ?_, fun h1 h2 h3 h4 => ?_, fun h1 h2 h3 => ?_⟩
  · subst hw
    simp [singularizeRev, List.isPrefixOf, str, utf8EncodeRune]
  · by_cases hs : [115, 101, 115].isPrefixOf w.reverse = true
    · simp [singularizeRev, h1, hves, hs]
    · have h2b : ([115, 101, 120].isPrefixOf w.reverse
          || [115, 101, 122].isPrefixOf w.reverse
          || [115, 101, 104, 99].isPrefixOf w.reverse
          || [115, 101, 104, 115].isPrefixOf w.reverse) = true := by
        simp only [Bool.or_eq_true]
        tauto
      simp only [singularizeRev, h1, hves, hs, h2b]
      simp
  · have hs : ¬ [115, 101, 115].isPrefixOf w.reverse = true := fun e => h2 (Or.inl e)
    have h2b : ¬ ([115, 101, 120].isPrefixOf w.reverse
        || [115, 101, 122].isPrefixOf w.reverse
        || [115, 101, 104, 99].isPrefixOf w.reverse
        || [115, 101, 104, 115].isPrefixOf w.reverse) = true := by
      simp only [Bool.or_eq_true]
      tauto
    simp only [singularizeRev, h1, hves, hs, h2b, h3, h4]
    simp
  · have hs : ¬ [115, 101, 115].isPrefixOf w.reverse = true := fun e => h2 (Or.inl e)
    have h2b : ¬ ([115, 101, 120].isPrefixOf w.reverse
        || [115, 101, 122].isPrefixOf w.reverse
        || [115, 101, 104, 99].isPrefixOf w.reverse
        || [115, 101, 104, 115].isPrefixOf w.reverse) = true := by
      simp only [Bool.or_eq_true]
      tauto
    have h3b : ¬ ([115].isPrefixOf w.reverse && !([115, 115].isPrefixOf w.reverse)) = true := by
      simp only [Bool.and_eq_true, Bool.not_eq_true', Bool.not_eq_true] at h3 ⊢
      tauto
    simp only [singularizeRev, h1, hves, hs, h2b, h3b]
    simp

/-- C16 at `categories`, `boxes`, `users` and `address`. -/
theorem singularize_plain_suffixes_witness :
    singularize (str "categories") = some (str "category")
    ∧ singularize (str "boxes") = some (str "box")
    ∧ singularize (str "users") = some (str "user")
    ∧ singularize (str "address") = some (str "address") :=
  ⟨(singularize_plain_suffixes (str "categories") (by decide)).1 (str "categor") (by decide),
   (singularize_plain_suffixes (str "boxes") (by decide)).2.1 (by decide) (by decide),
   (singularize_plain_suffixes (str "users") (by decide)).2.2.1 (by decide) (by decide)
     (by decide) (by decide),
   (singularize_plain_suffixes (str "address") (by decide)).2.2.2 (by decide) (by decide)
     (by decide)⟩

/-- C17, as stated, fails at `lves`: the byte before `ves` is `l`, and the result is
`lfe`, not `lf`. -/
theorem lves_gives_lfe :
    str "lves" = str "l" ++ str "ves"
    ∧ singularize (str "lves") = some (str "l" ++ str "fe")
    ∧ singularize (str "lves") ≠ some (str "l" ++ str "f") := by
  decide

/-- C17 (amended): for a word `stem ++ "ves"`, `singularize` replaces the final `ves` by
`f` when the word is longer than four bytes and the byte before `ves` is `l`, and by
`fe` otherwise. -/
theorem singularize_ves (stem : GoString) :
    singularize (stem ++ str "ves")
      = some (stem ++
          (if 4 < (stem ++ str "ves").length ∧ stem.getLast? = some 108 then str "f"
           else str "fe")) := by
  rw [singularize_eq_rev]
  have hr : (stem ++ str "ves").reverse = 115 :: 101 :: 118 :: stem.reverse := by
    simp [str, utf8EncodeRune]
  have hl : (stem ++ str "ves").length = stem.length + 3 := by
    simp [str, utf8EncodeRune]
  have hg : (115 :: 101 :: 118 :: stem.reverse)[3]? = stem.getLast? := by
    simp [List.getLast?_eq_head?_reverse, List.head?_eq_getElem?]
  rw [hr, hl]
  simp only [singularizeRev, List.isPrefixOf, hg, List.length_cons, List.length_reverse]
  by_cases hc : 4 < stem.length + 3 ∧ stem.getLast? = some 108
  · have hc2 : 4 < stem.length + 1 + 1 + 1 ∧ stem.getLast? = some 108 := hc
    simp [hc, hc2, str, utf8EncodeRune]
  · have hc2 : ¬ (4 < stem.length + 1 + 1 + 1 ∧ stem.getLast? = some 108) := hc
    simp [hc, hc2, str, utf8EncodeRune]

/-- The `ves` words of `TestSingularize`. -/
theorem test_singularize_ves :
    singularize (str "knives") = some (str "knife")
    ∧ singularize (str "wolves") = some (str "wolf") := by
  decide

/-- C18, as stated, fails at `buses`: its singular `bus` is singularized again, to
`bu`. -/
theorem buses_not_idempotent :
    singularize (str "buses") = some (str "bus")
    ∧ singularize (str "bus") = some (str "bu")
    ∧ (singularize (str "buses")).bind singularize ≠ singularize (str "buses") := by
  decide

/-- C18 (amended): `singularize (singularize w) = singularize w` holds exactly for the
words `w` that do not end in `ses` or that end in `sses`. -/
theorem singularize_idempotent_iff (w : GoString) :
    (singularize w).bind singularize = singularize w
      ↔ ¬ (str "ses" <:+ w ∧ ¬ str "sses" <:+ w) := by
  obtain ⟨_, _, e3, _, _, _, _, _, _, e10⟩ := str_suffixes
  rw [singularize_eq_rev w, Option.some_bind, singularize_eq_rev, List.reverse_reverse,
    suffix_iff_rev, suffix_iff_rev, e3, e10]
  simp only [Option.some.injEq, List.reverse_inj, Bool.not_eq_true]
  exact singularizeRev_idem_iff w.reverse


/-! ## Struct tags -/

theorem spaceEncodings_facts :
    (∀ enc ∈ whiteSpaceRunes.map utf8EncodeRune, enc ≠ [])
    ∧ (∀ enc ∈ whiteSpaceRunes.map utf8EncodeRune, ∀ y ∈ enc.tail, 128 ≤ y)
    ∧ (∀ enc ∈ whiteSpaceRunes.map utf8EncodeRune, ∀ x, enc.head? = some x → x < 128 →
        x ∈ [9, 10, 11, 12, 13, 32]) := by
  decide

theorem spaceWidth_eq_zero_iff (s : GoString) :
    spaceWidth s = 0 ↔ ∀ enc ∈ whiteSpaceRunes.map utf8EncodeRune, ¬ enc <+: s := by
  unfold spaceWidth
  cases h : (whiteSpaceRunes.map utf8EncodeRune).find? (fun enc => enc.isPrefixOf s) with
  | none =>
    simp only [true_iff]
    intro enc henc hpre
    have := List.find?_eq_none.1 h enc henc
    exact this (List.isPrefixOf_iff_prefix.2 hpre)
  | some e =>
    have hmem := List.mem_of_find?_eq_some h
    have hp := List.find?_some h
    have hne := spaceEncodings_facts.1 e hmem
    constructor
    · intro h0
      exact absurd (List.length_eq_zero.1 h0) hne
    · intro hall
      exact absurd (List.isPrefixOf_iff_prefix.1 hp) (hall e hmem)

theorem spaceWidth_space (rest : GoString) : spaceWidth (32 :: rest) = 1 := by
  simp [spaceWidth, whiteSpaceRunes, utf8EncodeRune, List.find?, List.isPrefixOf]

/-- An ASCII byte that is not white space starts no white space character. -/
theorem spaceWidth_ascii (x : Nat) (rest : GoString) (hx : x < 128)
    (hns : x ∉ [9, 10, 11, 12, 13, 32]) : spaceWidth (x :: rest) = 0 := by
  rw [spaceWidth_eq_zero_iff]
  intro enc henc hpre
  obtain ⟨t, ht⟩ := hpre
  cases enc with
  | nil => exact spaceEncodings_facts.1 [] henc rfl
  | cons y ys =>
    have hy : y = x := by
      simp at ht
      exact ht.1
    exact hns (spaceEncodings_facts.2.2 (y :: ys) henc x (by simp [hy]) hx)

/-- No white space character starts in `b` and runs on over an ASCII byte. -/
theorem spaceWidth_append_ascii (b : GoString) (x : Nat) (rest : GoString)
    (hb : spaceWidth b = 0) (hne : b ≠ []) (hx : x < 128) :
    spaceWidth (b ++ x :: rest) = 0 := by
  rw [spaceWidth_eq_zero_iff] at hb ⊢
  intro enc henc hpre
  have h2 : b ++ [x] <+: b ++ x :: rest := ⟨rest, by simp⟩
  have hx_not : x ∉ enc.tail := fun hmem => by
    have := spaceEncodings_facts.2.1 enc henc x hmem
    omega
  rcases List.prefix_or_prefix_of_prefix hpre h2 with h | h
  · rcases List.prefix_concat_iff.1 h with h | h
    · apply hx_not
      rw [h]
      cases b with
      | nil => exact absurd rfl hne
      | cons c cs => simp
    · exact hb enc henc h
  · obtain ⟨t, ht⟩ := h
    apply hx_not
    rw [← ht]
    cases b with
    | nil => exact absurd rfl hne
    | cons c cs => simp

theorem noWhiteSpace_append_ascii (s : GoString) (x : Nat) (t : GoString)
    (hs : noWhiteSpace s = true) (hx : x < 128) (hns : x ∉ [9, 10, 11, 12, 13, 32])
    (ht : noWhiteSpace t = true) : noWhiteSpace (s ++ x :: t) = true := by
  induction s with
  | nil => simp [noWhiteSpace, spaceWidth_ascii x t hx hns, ht]
  | cons y s2 ih =>
    simp only [noWhiteSpace, Bool.and_eq_true, beq_iff_eq] at hs
    have h0 := spaceWidth_append_ascii (y :: s2) x t hs.1 (by simp) hx
    simp only [List.cons_append] at h0
    simp only [List.cons_append, noWhiteSpace, Bool.and_eq_true, beq_iff_eq]
    exact ⟨h0, ih hs.2⟩

theorem fieldsScan_flush (cur : GoString) :
    fieldsScan [] 0 cur = if cur = [] then [] else [cur] := by
  simp [fieldsScan]

theorem fieldsScan_noWhiteSpace_end (e cur : GoString) (he : noWhiteSpace e = true) :
    fieldsScan e 0 cur = if cur ++ e = [] then [] else [cur ++ e] := by
  induction e generalizing cur with
  | nil => simp [fieldsScan]
  | cons y e2 ih =>
    simp only [noWhiteSpace, Bool.and_eq_true, beq_iff_eq] at he
    have h0 : ¬ (0 < spaceWidth (y :: e2)) := by omega
    rw [fieldsScan, if_neg h0, ih (cur ++ [y]) he.2]
    simp

theorem fieldsScan_noWhiteSpace_then (e : GoString) (x : Nat) (rest cur : GoString)
    (he : noWhiteSpace e = true) (hx : x < 128) :
    fieldsScan (e ++ x :: rest) 0 cur = fieldsScan (x :: rest) 0 (cur ++ e) := by
  induction e generalizing cur with
  | nil => simp
  | cons y e2 ih =>
    simp only [noWhiteSpace, Bool.and_eq_true, beq_iff_eq] at he
    have h0 := spaceWidth_append_ascii (y :: e2) x rest he.1 (by simp) hx
    have h1 : ¬ (0 < spaceWidth (y :: (e2 ++ x :: rest))) := by
      simp only [List.cons_append] at h0
      omega
    rw [List.cons_append, fieldsScan, if_neg h1, ih (cur ++ [y]) he.2]
    simp

theorem strings_Join_cons_cons (e e2 : GoString) (es : List GoString) (sep : GoString) :
    strings_Join (e :: e2 :: es) sep = e ++ sep ++ strings_Join (e2 :: es) sep := by
  simp [strings_Join, List.intercalate, List.intersperse]

theorem strings_Join_single (e sep : GoString) : strings_Join [e] sep = e := by
  simp [strings_Join, List.intercalate, List.intersperse]

theorem str_space : str " " = [32] := rfl

/-- The fields of space-joined pieces that are non-empty and hold no white space are
the pieces. -/
theorem strings_Fields_join (es : List GoString)
    (h : ∀ e ∈ es, noWhiteSpace e = true ∧ e ≠ []) :
    strings_Fields (strings_Join es (str " ")) = es := by
  unfold strings_Fields
  induction es with
  | nil => simp [strings_Join, List.intercalate, fieldsScan]
  | cons e es2 ih =>
    have he := h e (List.mem_cons_self _ _)
    cases es2 with
    | nil =>
      rw [strings_Join_single, fieldsScan_noWhiteSpace_end e [] he.1]
      simp [he.2]
    | cons e2 es3 =>
      have ih2 := ih (fun x hx => h x (List.mem_cons_of_mem _ hx))
      rw [strings_Join_cons_cons, str_space, List.append_assoc, List.singleton_append,
        fieldsScan_noWhiteSpace_then e 32 _ [] he.1 (by omega), List.nil_append, fieldsScan,
        if_pos (by rw [spaceWidth_space]; omega), spaceWidth_space, if_neg he.2]
      simp only [Nat.sub_self, List.singleton_append, List.cons.injEq, true_and]
      exact ih2

theorem strings_Trim_wrapped (c : Nat) (body : GoString) (hh : body.head? ≠ some c)
    (hl : body.getLast? ≠ some c) : strings_Trim (c :: (body ++ [c])) c = body := by
  unfold strings_Trim
  cases body with
  | nil => simp [List.dropWhile]
  | cons x b2 =>
    have hx : x ≠ c := fun e => hh (by simp [e])
    have h1 : (c :: (x :: b2 ++ [c])).dropWhile (fun b => decide (b = c)) = x :: b2 ++ [c] := by
      simp [List.dropWhile, hx]
    rw [h1]
    have h2 : (x :: b2 ++ [c]).reverse = c :: (x :: b2).reverse := by simp
    rw [h2]
    cases hr : (x :: b2).reverse with
    | nil => simp at hr
    | cons y r2 =>
      have hy : y ≠ c := by
        intro e
        apply hl
        rw [List.getLast?_eq_head?_reverse, hr, e]
        rfl
      have h3 : (c :: y :: r2).dropWhile (fun b => decide (b = c)) = y :: r2 := by
        simp [List.dropWhile, hy]
      rw [h3, ← hr, List.reverse_reverse]

theorem head?_ne_of_not_mem (c : Nat) (v : GoString) (h : c ∉ v) :
    v.head? ≠ some c ∧ v.getLast? ≠ some c := by
  constructor
  · intro e
    exact h (List.mem_of_mem_head? e)
  · intro e
    exact h (List.mem_of_mem_getLast? e)

theorem tagEntry_eq (k v : GoString) : tagEntry (k, v) = k ++ 58 :: 34 :: (v ++ [34]) := by
  simp [tagEntry, str, utf8EncodeRune]

theorem tagEntry_facts (k v : GoString) (hk : noWhiteSpace k = true)
    (hb : k.head? ≠ some 96) (hv : noWhiteSpace v = true) :
    noWhiteSpace (tagEntry (k, v)) = true ∧ tagEntry (k, v) ≠ []
    ∧ (tagEntry (k, v)).head? ≠ some 96 ∧ (tagEntry (k, v)).getLast? = some 34 := by
  rw [tagEntry_eq]
  refine ⟨?_, by simp, ?_, ?_⟩
  · apply noWhiteSpace_append_ascii k 58 _ hk (by omega) (by decide)
    have h1 : noWhiteSpace (v ++ [34]) = true :=
      noWhiteSpace_append_ascii v 34 [] hv (by omega) (by decide) rfl
    exact noWhiteSpace_append_ascii [] 34 _ rfl (by omega) (by decide) h1
  · cases k with
    | nil => simp
    | cons x k2 => simpa using hb
  · have : k ++ 58 :: 34 :: (v ++ [34]) = (k ++ 58 :: 34 :: v) ++ [34] := by simp
    rw [this, List.getLast?_concat]

theorem append_sep_inj (c : Nat) (a b x y : GoString) (ha : c ∉ a) (hb : c ∉ b)
    (h : a ++ c :: x = b ++ c :: y) : a = b := by
  induction a generalizing b with
  | nil =>
    cases b with
    | nil => rfl
    | cons z b2 =>
      simp at h
      exact absurd (by simp [h.1]) hb
  | cons z a2 ih =>
    cases b with
    | nil =>
      simp at h
      exact absurd (by simp [h.1]) ha
    | cons z2 b2 =>
      simp at h
      rw [h.1, ih b2 (fun e => ha (List.mem_cons_of_mem _ e))
        (fun e => hb (List.mem_cons_of_mem _ e)) h.2]

theorem hasPrefix_tagEntry_iff (k k2 v2 : GoString) (hk : 58 ∉ k) (hk2 : 58 ∉ k2) :
    strings_HasPrefix (tagEntry (k2, v2)) (k ++ str ":") = true ↔ k = k2 := by
  have hc : str ":" = [58] := rfl
  rw [strings_HasPrefix, List.isPrefixOf_iff_prefix, tagEntry_eq, hc]
  constructor
  · rintro ⟨t, ht⟩
    have ht2 : k ++ 58 :: t = k2 ++ 58 :: 34 :: (v2 ++ [34]) := by simpa using ht
    exact append_sep_inj 58 k k2 _ _ hk hk2 ht2
  · intro e
    subst e
    exact ⟨34 :: (v2 ++ [34]), by simp⟩

theorem trim_value_of_entry (k v : GoString) (hv : 34 ∉ v) :
    strings_Trim (strings_TrimPrefix (tagEntry (k, v)) (k ++ str ":")) 34 = v := by
  have hc : str ":" = [58] := rfl
  have hp : strings_HasPrefix (tagEntry (k, v)) (k ++ str ":") = true := by
    rw [strings_HasPrefix, List.isPrefixOf_iff_prefix, tagEntry_eq, hc]
    exact ⟨34 :: (v ++ [34]), by simp⟩
  have hd : (tagEntry (k, v)).drop (k ++ str ":").length = 34 :: (v ++ [34]) := by
    rw [tagEntry_eq, hc]
    have : k ++ 58 :: 34 :: (v ++ [34]) = (k ++ [58]) ++ 34 :: (v ++ [34]) := by simp
    rw [this, List.drop_left]
  rw [strings_TrimPrefix, if_pos hp, hd]
  exact strings_Trim_wrapped 34 v (head?_ne_of_not_mem 34 v hv).1 (head?_ne_of_not_mem 34 v hv).2

theorem extractTagLoop_absent (k : GoString) (entries : List (GoString × GoString))
    (hk : 58 ∉ k) (hkeys : ∀ kv ∈ entries, 58 ∉ kv.1) (habs : k ∉ entries.map Prod.fst) :
    extractTagLoop k (entries.map tagEntry) = str "" := by
  induction entries with
  | nil => rfl
  | cons kv rest ih =>
    obtain ⟨k2, v2⟩ := kv
    have hne : ¬ k = k2 := fun e => habs (by simp [e])
    have hp : ¬ strings_HasPrefix (tagEntry (k2, v2)) (k ++ str ":") = true := fun e =>
      hne ((hasPrefix_tagEntry_iff k k2 v2 hk (hkeys (k2, v2) (List.mem_cons_self _ _))).1 e)
    rw [List.map_cons, extractTagLoop, if_neg hp]
    exact ih (fun kv h => hkeys kv (List.mem_cons_of_mem _ h))
      (fun e => habs (by simp at e ⊢; exact Or.inr e))

theorem extractTagLoop_present (k v : GoString) (entries : List (GoString × GoString))
    (hnd : (entries.map Prod.fst).Nodup) (hkeys : ∀ kv ∈ entries, 58 ∉ kv.1)
    (hvals : ∀ kv ∈ entries, 34 ∉ kv.2) (hmem : (k, v) ∈ entries) :
    extractTagLoop k (entries.map tagEntry) = v := by
  induction entries with
  | nil => simp at hmem
  | cons kv rest ih =>
    obtain ⟨k2, v2⟩ := kv
    have hk : 58 ∉ k := hkeys (k, v) hmem
    have hk2 : 58 ∉ k2 := hkeys (k2, v2) (List.mem_cons_self _ _)
    rw [List.map_cons, List.nodup_cons] at hnd
    by_cases he : k = k2
    · subst he
      have hv : v = v2 := by
        rcases List.mem_cons.1 hmem with h | h
        · exact (Prod.mk.inj h).2
        · exact absurd (List.mem_map_of_mem Prod.fst h) hnd.1
      subst hv
      have hp := (hasPrefix_tagEntry_iff k k v hk hk).2 rfl
      rw [List.map_cons, extractTagLoop, if_pos hp]
      exact trim_value_of_entry k v (hvals (k, v) (List.mem_cons_self _ _))
    · have hp : ¬ strings_HasPrefix (tagEntry (k2, v2)) (k ++ str ":") = true := fun e =>
        he ((hasPrefix_tagEntry_iff k k2 v2 hk hk2).1 e)
      have hmem2 : (k, v) ∈ rest := by
        rcases List.mem_cons.1 hmem with h | h
        · exact absurd (Prod.mk.inj h).1 he
        · exact h
      rw [List.map_cons, extractTagLoop, if_neg hp]
      exact ih hnd.2 (fun kv h => hkeys kv (List.mem_cons_of_mem _ h))
        (fun kv h => hvals kv (List.mem_cons_of_mem _ h)) hmem2

theorem join_head_last (es : List GoString)
    (h : ∀ e ∈ es, e ≠ [] ∧ e.head? ≠ some 96 ∧ e.getLast? = some 34) :
    (strings_Join es (str " ")).head? ≠ some 96
    ∧ (strings_Join es (str " ")).getLast? ≠ some 96 := by
  induction es with
  | nil => simp [strings_Join, List.intercalate]
  | cons e es2 ih =>
    have he := h e (List.mem_cons_self _ _)
    cases es2 with
    | nil =>
      rw [strings_Join_single]
      refine ⟨he.2.1, ?_⟩
      rw [he.2.2]
      decide
    | cons e2 es3 =>
      have ih2 := ih (fun x hx => h x (List.mem_cons_of_mem _ hx))
      have he2 := h e2 (List.mem_cons_of_mem _ (List.mem_cons_self _ _))
      rw [strings_Join_cons_cons, str_space]
      constructor
      · cases e with
        | nil => exact absurd rfl he.1
        | cons x e3 => simpa using he.2.1
      · have hne : strings_Join (e2 :: es3) [32] ≠ [] := by
          cases es3 with
          | nil => rw [strings_Join_single]; exact he2.1
          | cons e4 es4 =>
            rw [strings_Join_cons_cons]
            cases e2 with
            | nil => exact absurd rfl he2.1
            | cons y e5 => simp
        rw [List.getLast?_append_of_ne_nil _ hne]
        exact ih2.2

theorem strings_Fields_tagLiteral (entries : List (GoString × GoString))
    (hk : ∀ kv ∈ entries, noWhiteSpace kv.1 = true ∧ kv.1.head? ≠ some 96)
    (hv : ∀ kv ∈ entries, noWhiteSpace kv.2 = true) :
    strings_Fields (strings_Trim (tagLiteral entries) 96) = entries.map tagEntry := by
  have hf : ∀ e ∈ entries.map tagEntry, noWhiteSpace e = true ∧ e ≠ []
      ∧ e.head? ≠ some 96 ∧ e.getLast? = some 34 := by
    intro e he
    obtain ⟨kv, hkv, rfl⟩ := List.mem_map.1 he
    obtain ⟨k, v⟩ := kv
    exact tagEntry_facts k v (hk (k, v) hkv).1 (hk (k, v) hkv).2 (hv (k, v) hkv)
  have hjl := join_head_last (entries.map tagEntry)
    (fun e he => ⟨(hf e he).2.1, (hf e he).2.2.1, (hf e he).2.2.2⟩)
  have hlit : tagLiteral entries
      = 96 :: (strings_Join (entries.map tagEntry) (str " ") ++ [96]) := by
    simp [tagLiteral, str, utf8EncodeRune]
  rw [hlit, strings_Trim_wrapped 96 _ hjl.1 hjl.2]
  exact strings_Fields_join _ (fun e he => ⟨(hf e he).1, (hf e he).2.1⟩)

/-- C15, as stated, fails at the one-entry tag with key `a b`: the key holds no colon,
the value `v` no white space, double quote or backquote, and `extractTag` returns the
empty string for that key, because the tag string is cut at the blank. -/
theorem key_with_blank_is_not_found :
    58 ∉ str "a b"
    ∧ noWhiteSpace (str "v") = true ∧ 34 ∉ str "v" ∧ 96 ∉ str "v"
    ∧ tagLiteral [(str "a b", str "v")] = str "`a b:\"v\"`"
    ∧ extractTag (tagLiteral [(str "a b", str "v")]) (str "a b") = str ""
    ∧ extractTag (tagLiteral [(str "a b", str "v")]) (str "a b") ≠ str "v" := by
  decide

/-- C15 (amended): for a tag literal built from entries `k:"v"` whose keys are pairwise
distinct, hold no colon and no white space and do not begin with a backquote, and
whose values hold no white space and no double quote, `extractTag` returns `v` for
every key of the list and the empty string for every colon-free key not in the list. -/
theorem extractTag_of_tagLiteral (entries : List (GoString × GoString))
    (hnd : (entries.map Prod.fst).Nodup)
    (hk : ∀ kv ∈ entries, 58 ∉ kv.1 ∧ noWhiteSpace kv.1 = true ∧ kv.1.head? ≠ some 96)
    (hv : ∀ kv ∈ entries, noWhiteSpace kv.2 = true ∧ 34 ∉ kv.2) :
    (∀ kv ∈ entries, extractTag (tagLiteral entries) kv.1 = kv.2)
    ∧ (∀ k, 58 ∉ k → k ∉ entries.map Prod.fst →
        extractTag (tagLiteral entries) k = str "") := by
  have hf := strings_Fields_tagLiteral entries (fun kv h => ⟨(hk kv h).2.1, (hk kv h).2.2⟩)
    (fun kv h => (hv kv h).1)
  constructor
  · intro kv hmem
    obtain ⟨k, v⟩ := kv
    rw [extractTag, hf]
    exact extractTagLoop_present k v entries hnd (fun kv h => (hk kv h).1)
      (fun kv h => (hv kv h).2) hmem
  · intro k hcolon habs
    rw [extractTag, hf]
    exact extractTagLoop_absent k entries hcolon (fun kv h => (hk kv h).1) habs

/-- C15 (amended) at the tag of `Name` in `TestExtractStructFieldsWithDTOTag`, read in
two orders of its entries. -/
theorem extractTag_of_tagLiteral_witness :
    extractTag (str "`json:\"name\" db:\"name\" dto:\"read,write\"`") (str "dto")
      = str "read,write"
    ∧ extractTag (str "`dto:\"read,write\" json:\"name\" db:\"name\"`") (str "dto")
      = str "read,write"
    ∧ extractTag (str "`json:\"name\" db:\"name\" dto:\"read,write\"`") (str "xml")
      = str "" :=
  ⟨(extractTag_of_tagLiteral tagEntriesOfTest (by decide) (by decide) (by decide)).1
      (str "dto", str "read,write") (by decide),
   (extractTag_of_tagLiteral
      [(str "dto", str "read,write"), (str "json", str "name"), (str "db", str "name")]
      (by decide) (by decide) (by decide)).1 (str "dto", str "read,write") (by decide),
   (extractTag_of_tagLiteral tagEntriesOfTest (by decide) (by decide) (by decide)).2
      (str "xml") (by decide) (by decide)⟩

/-- The expectations of `TestExtractTag` hold of the embedding. -/
theorem test_extractTag :
    extractTag (str "`json:\"id\"`") (str "json") = str "id"
    ∧ extractTag (str "`json:\"id,omitempty\"`") (str "json") = str "id,omitempty"
    ∧ extractTag (str "`dto:\"read\"`") (str "dto") = str "read"
    ∧ extractTag (str "`dto:\"read,write\"`") (str "dto") = str "read,write"
    ∧ extractTag (str "`json:\"name\" db:\"name\" dto:\"read,write\"`") (str "dto")
        = str "read,write"
    ∧ extractTag (str "`json:\"id\" db:\"id\"`") (str "dto") = str "" := by
  decide

theorem extractTag_tagLiteral_value (entries : List (GoString × GoString))
    (hnd : (entries.map Prod.fst).Nodup)
    (hk : ∀ kv ∈ entries, 58 ∉ kv.1 ∧ noWhiteSpace kv.1 = true ∧ kv.1.head? ≠ some 96)
    (hv : ∀ kv ∈ entries, noWhiteSpace kv.2 = true ∧ 34 ∉ kv.2)
    (k : GoString) (hcolon : 58 ∉ k) :
    extractTag (tagLiteral entries) k = tagValue entries k := by
  have hf := strings_Fields_tagLiteral entries (fun kv h => ⟨(hk kv h).2.1, (hk kv h).2.2⟩)
    (fun kv h => (hv kv h).1)
  rw [extractTag, hf]
  unfold tagValue
  cases hfind : entries.find? (fun kv => decide (kv.1 = k)) with
  | none =>
    have habs : k ∉ entries.map Prod.fst := by
      intro hmem
      obtain ⟨kv, hkv, e⟩ := List.mem_map.1 hmem
      have := List.find?_eq_none.1 hfind kv hkv
      simp [e] at this
    exact extractTagLoop_absent k entries hcolon (fun kv h => (hk kv h).1) habs
  | some kv =>
    obtain ⟨k2, v2⟩ := kv
    have hmem : (k2, v2) ∈ entries := List.mem_of_find?_eq_some hfind
    have hkey : k2 = k := by
      have := List.find?_some hfind
      simpa using this
    subst hkey
    exact extractTagLoop_present k2 v2 entries hnd (fun kv h => (hk kv h).1)
      (fun kv h => (hv kv h).2) hmem

/-- C14, as stated, fails at the declaration ``A string `db:"a b" dto:"read write"` ``:
the tag string is cut at the blanks, and the descriptor holds the db value `a` and the
dto value `read`, not the values written. -/
theorem tag_value_with_blank_is_cut :
    (extractStructFields (some (singleStructFile (str "T") [fieldWithBlankValues]))
        (str "T")).map (fun d => (d.Name, d.DBTag, d.DTOTag))
      = [(str "A", str "a", str "read")]
    ∧ str "a" ≠ str "a b" ∧ str "read" ≠ str "read write" := by
  rw [extractStructFields_single]
  decide

/-- C14 (amended): for a named field whose tag literal is built from entries `k:"v"`
whose keys are pairwise distinct, hold no colon and no white space and do not begin with
a backquote, and whose values hold no white space and no double quote, JSONTag is the
json value written up to its first comma, all of it when it has no comma, and holds no
comma; DBTag and DTOTag are the db and dto values written, whole; the value of a key
that is not written is empty; and a field without tag gets three empty strings. -/
theorem extractor_tags_of_tagLiteral (structName n : GoString) (ns : List GoString)
    (typ : AstExpr) (entries : List (GoString × GoString))
    (hnd : (entries.map Prod.fst).Nodup)
    (hk : ∀ kv ∈ entries, 58 ∉ kv.1 ∧ noWhiteSpace kv.1 = true ∧ kv.1.head? ≠ some 96)
    (hv : ∀ kv ∈ entries, noWhiteSpace kv.2 = true ∧ 34 ∉ kv.2) :
    (extractStructFields (some (singleStructFile structName
        [⟨n :: ns, typ, some (tagLiteral entries)⟩])) structName).map
          (fun d => (d.JSONTag, d.DBTag, d.DTOTag))
      = [((tagValue entries (str "json")).takeWhile (fun b => decide (b ≠ 44)),
          tagValue entries (str "db"), tagValue entries (str "dto"))]
    ∧ 44 ∉ (tagValue entries (str "json")).takeWhile (fun b => decide (b ≠ 44))
    ∧ ((44 ∉ tagValue entries (str "json")) →
        (tagValue entries (str "json")).takeWhile (fun b => decide (b ≠ 44))
          = tagValue entries (str "json"))
    ∧ (∀ v, (str "json", v) ∈ entries → tagValue entries (str "json") = v)
    ∧ (∀ v, (str "db", v) ∈ entries → tagValue entries (str "db") = v)
    ∧ (∀ v, (str "dto", v) ∈ entries → tagValue entries (str "dto") = v)
    ∧ (extractStructFields (some (singleStructFile structName
        [⟨n :: ns, typ, none⟩])) structName).map (fun d => (d.JSONTag, d.DBTag, d.DTOTag))
      = [(str "", str "", str "")] := by
  have hval : ∀ k v, (k, v) ∈ entries → tagValue entries k = v := by
    intro k v hmem
    have hc : 58 ∉ k := (hk (k, v) hmem).1
    have h1 := extractTag_tagLiteral_value entries hnd hk hv k hc
    have h2 : extractTag (tagLiteral entries) k = v := by
      rw [extractTag, strings_Fields_tagLiteral entries
        (fun kv h => ⟨(hk kv h).2.1, (hk kv h).2.2⟩) (fun kv h => (hv kv h).1)]
      exact extractTagLoop_present k v entries hnd (fun kv h => (hk kv h).1)
        (fun kv h => (hv kv h).2) hmem
    exact h1.symm.trans h2
  have ej := extractTag_tagLiteral_value entries hnd hk hv (str "json") (by decide)
  have ed := extractTag_tagLiteral_value entries hnd hk hv (str "db") (by decide)
  have et := extractTag_tagLiteral_value entries hnd hk hv (str "dto") (by decide)
  simp only [extractStructFields_single]
  refine ⟨?_, takeWhile_ne_not_mem 44 _, fun h => ?_, hval _, hval _, hval _, ?_⟩
  · have hh := strings_Split_head 44 (tagValue entries (str "json"))
    simp only [extractStructFieldsFromAST, List.foldl, List.length_cons, Nat.add_one_ne_zero,
      if_false, List.nil_append, List.map_cons, List.map_nil, hh, ej, ed, et]
  · rw [List.takeWhile_eq_self_iff]
    intro b hb
    have : b ≠ 44 := fun e => h (e ▸ hb)
    simpa using this
  · simp [extractStructFieldsFromAST]

/-- C14 (amended) at the tags of `Name` and `ID` in `TestExtractStructFieldsWithDTOTag`:
`name`, `name` and `read,write`; and `id`, cut before `,omitempty`, `id` and `read`. -/
theorem extractor_tags_of_tagLiteral_witness :
    (extractStructFields (some (singleStructFile (str "T")
        [⟨[str "Name"], .Ident (str "string"), some (tagLiteral tagEntriesOfTest)⟩]))
        (str "T")).map (fun d => (d.JSONTag, d.DBTag, d.DTOTag))
      = [(str "name", str "name", str "read,write")]
    ∧ (extractStructFields (some (singleStructFile (str "T")
        [⟨[str "ID"], .Ident (str "string"),
          some (tagLiteral [(str "json", str "id,omitempty"), (str "db", str "id"),
            (str "dto", str "read")])⟩]))
        (str "T")).map (fun d => (d.JSONTag, d.DBTag, d.DTOTag))
      = [(str "id", str "id", str "read")]
    ∧ tagLiteral tagEntriesOfTest = str "`json:\"name\" db:\"name\" dto:\"read,write\"`" :=
  ⟨((extractor_tags_of_tagLiteral (str "T") (str "Name") [] (.Ident (str "string"))
      tagEntriesOfTest (by decide) (by decide) (by decide)).1).trans (by decide),
   ((extractor_tags_of_tagLiteral (str "T") (str "ID") [] (.Ident (str "string"))
      [(str "json", str "id,omitempty"), (str "db", str "id"), (str "dto", str "read")]
      (by decide) (by decide) (by decide)).1).trans (by decide),
   by decide⟩



/-! ## The singularization table and totality -/

/-- C21: `singularize` maps every plural of the table of `TestSingularize` to the listed
singular, and returns `process`, `address` and `person` unchanged. -/
theorem singularize_table :
    singularize (str "users") = some (str "user")
    ∧ singularize (str "todos") = some (str "todo")
    ∧ singularize (str "categories") = some (str "category")
    ∧ singularize (str "stories") = some (str "story")
    ∧ singularize (str "knives") = some (str "knife")
    ∧ singularize (str "wolves") = some (str "wolf")
    ∧ singularize (str "classes") = some (str "class")
    ∧ singularize (str "addresses") = some (str "address")
    ∧ singularize (str "boxes") = some (str "box")
    ∧ singularize (str "buzzes") = some (str "buzz")
    ∧ singularize (str "churches") = some (str "church")
    ∧ singularize (str "dishes") = some (str "dish")
    ∧ singularize (str "process") = some (str "process")
    ∧ singularize (str "address") = some (str "address")
    ∧ singularize (str "person") = some (str "person") := by
  decide

/-- C22: `singularize` is total. In the embedding every slice `word[:len(word)-k]` and
the index `word[len(word)-4]` is checked and yields `none` when out of range; on every
word, the empty one and the short ones included, a result is returned, so no access is
out of range. -/
theorem singularize_total (w : GoString) :
    (∃ r, singularize w = some r) ∧ (∃ r, SingularizeExported w = some r)
    ∧ singularize (str "") = some (str "") ∧ singularize (str "s") = some (str "")
    ∧ singularize (str "es") = some (str "e") ∧ singularize (str "ves") = some (str "fe")
    ∧ singularize (str "ies") = some (str "y") ∧ singularize (str "ses") = some (str "s")
    ∧ singularize (str "lves") = some (str "lfe") := by
  refine ⟨⟨_, singularize_eq_rev w⟩, ⟨_, singularize_eq_rev w⟩, ?_⟩
  decide




/-! ## Route registrations -/

theorem requiresAuthOf_eq_false_iff (authCfg : Option AuthConfig) (resource httpMethod : GoString) :
    requiresAuthOf authCfg resource httpMethod = false
      ↔ authCfg = none ∨ ∃ c, authCfg = some c ∧ c.RequiresAuth resource httpMethod = false := by
  cases authCfg with
  | none => simp [requiresAuthOf]
  | some c => simp [requiresAuthOf]

theorem str_route_literals :
    str "\trouter." = str "\t" ++ str "router."
    ∧ str ")\n" = str ")" ++ str "\n"
    ∧ str "\n" ++ str "\tif authMiddleware != nil \x7b\n" ++ str "\t\trouter."
        = str "\n\tif authMiddleware != nil \x7b\n\t\t" ++ str "router."
    ∧ str "\n" ++ str "\t\x7d else \x7b\n" ++ str "\t\trouter."
        = str "\n\t\x7d else \x7b\n\t\t" ++ str "router."
    ∧ str "\n" ++ str "\t\x7d\n" = str "\n\t\x7d\n" := by
  decide

theorem generateRouteWithAuth_direct (method path handler resource httpMethod : GoString)
    (authCfg : Option AuthConfig) (h : requiresAuthOf authCfg resource httpMethod = false) :
    generateRouteWithAuth method path handler resource httpMethod authCfg
      = str "\t" ++ directRegistration method path handler ++ str "\n" := by
  obtain ⟨e1, e2, _, _, _⟩ := str_route_literals
  simp only [generateRouteWithAuth, h, directRegistration, e1, e2, List.append_assoc]
  rfl

theorem generateRouteWithAuth_guarded (method path handler resource httpMethod : GoString)
    (authCfg : Option AuthConfig) (h : requiresAuthOf authCfg resource httpMethod = true) :
    generateRouteWithAuth method path handler resource httpMethod authCfg
      = guardedBlock method path handler := by
  obtain ⟨_, e2, e3, e4, e5⟩ := str_route_literals
  have e3a : ∀ t, str "\n" ++ (str "\tif authMiddleware != nil \x7b\n" ++ (str "\t\trouter." ++ t))
      = str "\n\tif authMiddleware != nil \x7b\n\t\t" ++ (str "router." ++ t) := by
    intro t; rw [← List.append_assoc, ← List.append_assoc, e3, List.append_assoc]
  have e4a : ∀ t, str "\n" ++ (str "\t\x7d else \x7b\n" ++ (str "\t\trouter." ++ t))
      = str "\n\t\x7d else \x7b\n\t\t" ++ (str "router." ++ t) := by
    intro t; rw [← List.append_assoc, ← List.append_assoc, e4, List.append_assoc]
  simp only [generateRouteWithAuth, h, guardedBlock, guardedRegistration, directRegistration,
    e2, List.append_assoc, if_true, e3a, e4a, e5]

/-- C23: when the auth config is nil or `RequiresAuth(resource, verb)` is false,
`generateRouteWithAuth` returns the single direct registration
`router.<Method>("/<path>", <handler>)` on a line of its own; when `RequiresAuth` is true
it returns the block that tests `authMiddleware != nil` and registers the same path and
handler in both branches, with `authMiddleware` passed in the first branch only. -/
theorem generateRouteWithAuth_forms (method path handler resource httpMethod : GoString)
    (authCfg : Option AuthConfig) :
    ((authCfg = none ∨ ∃ c, authCfg = some c ∧ c.RequiresAuth resource httpMethod = false) →
      generateRouteWithAuth method path handler resource httpMethod authCfg
        = str "\t" ++ directRegistration method path handler ++ str "\n")
    ∧ (∀ c, authCfg = some c → c.RequiresAuth resource httpMethod = true →
      generateRouteWithAuth method path handler resource httpMethod authCfg
        = str "\n\tif authMiddleware != nil \x7b\n\t\t"
          ++ guardedRegistration method path handler
          ++ str "\n\t\x7d else \x7b\n\t\t" ++ directRegistration method path handler
          ++ str "\n\t\x7d\n") := by
  constructor
  · intro h
    exact generateRouteWithAuth_direct _ _ _ _ _ _
      ((requiresAuthOf_eq_false_iff _ _ _).mpr h)
  · intro c hc h
    subst hc
    exact generateRouteWithAuth_guarded _ _ _ _ _ _ h

/-- C23 at the list route of `users`: direct without an auth config and under
`NoAuthConfig`, guarded under `DefaultAuthConfig`. -/
theorem generateRouteWithAuth_forms_witness :
    generateRouteWithAuth (str "Get") (str "users") (str "res.List") (str "users") (str "GET")
        none = str "\trouter.Get(\"/users\", res.List)\n"
    ∧ generateRouteWithAuth (str "Get") (str "users") (str "res.List") (str "users")
        (str "GET") (some NoAuthConfig) = str "\trouter.Get(\"/users\", res.List)\n"
    ∧ generateRouteWithAuth (str "Get") (str "users") (str "res.List") (str "users")
        (str "GET") (some DefaultAuthConfig)
        = str "\n\tif authMiddleware != nil \x7b\n\t\trouter.Get(\"/users\", authMiddleware, res.List)\n\t\x7d else \x7b\n\t\trouter.Get(\"/users\", res.List)\n\t\x7d\n" :=
  ⟨((generateRouteWithAuth_forms (str "Get") (str "users") (str "res.List") (str "users")
      (str "GET") none).1 (Or.inl rfl)).trans (by decide),
   ((generateRouteWithAuth_forms (str "Get") (str "users") (str "res.List") (str "users")
      (str "GET") (some NoAuthConfig)).1 (Or.inr ⟨_, rfl, by decide⟩)).trans (by decide),
   ((generateRouteWithAuth_forms (str "Get") (str "users") (str "res.List") (str "users")
      (str "GET") (some DefaultAuthConfig)).2 _ rfl (by decide)).trans (by decide)⟩


theorem infix_skip {a b : GoString} (c : GoString) (h : a <:+: b) : a <:+: c ++ b :=
  h.trans (List.suffix_append c b).isInfix

theorem infix_chain3 (a x b rest : GoString) : a ++ (x ++ b) <:+: a ++ (x ++ (b ++ rest)) :=
  ⟨[], rest, by simp⟩

theorem requiresAuthOf_nil_or_disabled (authCfg : Option AuthConfig)
    (h : authCfg = none ∨ ∃ c, authCfg = some c ∧ c.Enabled = false)
    (resource httpMethod : GoString) : requiresAuthOf authCfg resource httpMethod = false := by
  rcases h with h | ⟨c, h, hc⟩
  · subst h; rfl
  · subst h; simp [requiresAuthOf, AuthConfig.RequiresAuth, hc]

theorem needsAuthContext_eq (authCfg : Option AuthConfig) (P : GoString) :
    needsAuthContext authCfg P
      = (requiresAuthOf authCfg P (str "GET") || requiresAuthOf authCfg P (str "POST")
        || requiresAuthOf authCfg P (str "PUT") || requiresAuthOf authCfg P (str "DELETE")) := by
  cases authCfg <;> rfl

theorem str_close_literals :
    str "\n" ++ str "\x7d\n" = str "\n\x7d\n" := by
  decide

/-- C27: when no verb requires authentication on the plural resource name `P`, the
Pluralize of the lower-cased model name, the body of the registration function after the
resource value consists of exactly five route registrations, in this order: Get `/P` to
`res.List`, Get `/P/:id` to `res.Get`, Post `/P` to `res.Create`, Put `/P/:id` to
`res.Update`, Delete `/P/:id` to `res.Delete`; the closing brace of the function
follows. -/
theorem registration_body_without_auth (w : Surroundings) (structName : GoString)
    (fields : List StructField) (authCfg : Option AuthConfig)
    (h : ∀ v ∈ [str "GET", str "POST", str "PUT", str "DELETE"],
      requiresAuthOf authCfg (w.Pluralize (strings_ToLower w.unicodeLower structName)) v
        = false) :
    (resourceLocals w structName fields authCfg).authMiddlewareSetup
        ++ (resourceLocals w structName fields authCfg).listRoute
        ++ (resourceLocals w structName fields authCfg).getRoute
        ++ (resourceLocals w structName fields authCfg).postRoute
        ++ (resourceLocals w structName fields authCfg).putRoute
        ++ (resourceLocals w structName fields authCfg).deleteRoute
      = fiveRoutes (w.Pluralize (strings_ToLower w.unicodeLower structName))
    ∧ resourceHead (resourceLocals w structName fields authCfg).importsSection structName
          routesSignature (resourceLocals w structName fields authCfg).crudInit
        ++ fiveRoutes (w.Pluralize (strings_ToLower w.unicodeLower structName))
        ++ str "\n\x7d\n"
      <+: generateResourceFromModel w structName fields authCfg := by
  have hG := h (str "GET") (by simp)
  have hP := h (str "POST") (by simp)
  have hU := h (str "PUT") (by simp)
  have hD := h (str "DELETE") (by simp)
  have hn : needsAuthContext authCfg
      (w.Pluralize (strings_ToLower w.unicodeLower structName)) = false := by
    rw [needsAuthContext_eq, hG, hP, hU, hD]; rfl
  have hbody : (resourceLocals w structName fields authCfg).authMiddlewareSetup
        ++ (resourceLocals w structName fields authCfg).listRoute
        ++ (resourceLocals w structName fields authCfg).getRoute
        ++ (resourceLocals w structName fields authCfg).postRoute
        ++ (resourceLocals w structName fields authCfg).putRoute
        ++ (resourceLocals w structName fields authCfg).deleteRoute
      = fiveRoutes (w.Pluralize (strings_ToLower w.unicodeLower structName)) := by
    simp only [resourceLocals, hn, authMiddlewareSetup, fiveRoutes,
      generateRouteWithAuth_direct _ _ _ _ _ _ hG, generateRouteWithAuth_direct _ _ _ _ _ _ hP,
      generateRouteWithAuth_direct _ _ _ _ _ _ hU, generateRouteWithAuth_direct _ _ _ _ _ _ hD,
      List.append_assoc]
    exact List.nil_append _
  refine ⟨hbody, ?_⟩
  have hbody2 : ∀ t, (resourceLocals w structName fields authCfg).authMiddlewareSetup
        ++ ((resourceLocals w structName fields authCfg).listRoute
        ++ ((resourceLocals w structName fields authCfg).getRoute
        ++ ((resourceLocals w structName fields authCfg).postRoute
        ++ ((resourceLocals w structName fields authCfg).putRoute
        ++ ((resourceLocals w structName fields authCfg).deleteRoute ++ t)))))
      = fiveRoutes (w.Pluralize (strings_ToLower w.unicodeLower structName)) ++ t := by
    intro t
    rw [← hbody]
    simp only [List.append_assoc]
  unfold generateResourceFromModel resourceFormat
  simp only [List.append_assoc]
  refine (List.prefix_append_right_inj _).2 ?_
  rw [hbody2]
  refine (List.prefix_append_right_inj _).2 ?_
  rw [← List.append_assoc (str "\n") (str "\x7d\n"), str_close_literals]
  exact List.prefix_append _ _

/-- C27 at the model `User` of `TestGenerateResourceFromModel`, under `NoAuthConfig`:
the five registrations under `/users`. -/
theorem registration_body_without_auth_witness :
    (resourceLocals (surroundingsOfExample false) (str "User") fieldsOfUserTest
        (some NoAuthConfig)).authMiddlewareSetup
        ++ (resourceLocals (surroundingsOfExample false) (str "User") fieldsOfUserTest
          (some NoAuthConfig)).listRoute
        ++ (resourceLocals (surroundingsOfExample false) (str "User") fieldsOfUserTest
          (some NoAuthConfig)).getRoute
        ++ (resourceLocals (surroundingsOfExample false) (str "User") fieldsOfUserTest
          (some NoAuthConfig)).postRoute
        ++ (resourceLocals (surroundingsOfExample false) (str "User") fieldsOfUserTest
          (some NoAuthConfig)).putRoute
        ++ (resourceLocals (surroundingsOfExample false) (str "User") fieldsOfUserTest
          (some NoAuthConfig)).deleteRoute
      = str "\trouter.Get(\"/users\", res.List)\n\trouter.Get(\"/users/:id\", res.Get)\n\trouter.Post(\"/users\", res.Create)\n\trouter.Put(\"/users/:id\", res.Update)\n\trouter.Delete(\"/users/:id\", res.Delete)\n" :=
  (registration_body_without_auth (surroundingsOfExample false) (str "User") fieldsOfUserTest
    (some NoAuthConfig)
    (fun v _ => requiresAuthOf_nil_or_disabled _ (Or.inr ⟨_, rfl, rfl⟩) _ v)).1.trans
    (by set_option maxRecDepth 8000 in decide)


/-! ## The allow-list, the context and the user id block -/

theorem infix_chain4 (a x b c rest : GoString) :
    a ++ (x ++ (b ++ c)) <:+: a ++ (x ++ (b ++ (c ++ rest))) :=
  ⟨[], rest, by simp⟩

theorem infix_head (a rest : GoString) : a <:+: a ++ rest :=
  ⟨[], rest, by simp⟩

theorem allowedFieldsList_loop (fields : List StructField) (acc : List GoString) :
    fields.foldl
        (fun allowedFieldsList field =>
          if field.DBTag ≠ str "" then
            if field.DBTag = str "password" ∨ field.DTOTag = str "write" then allowedFieldsList
            else allowedFieldsList ++ [str "\"" ++ field.DBTag ++ str "\""]
          else allowedFieldsList)
        acc
      = acc ++ (fields.filter inAllowList).map quotedDBTag := by
  induction fields generalizing acc with
  | nil => simp
  | cons f fs ih =>
    rw [List.foldl_cons, ih]
    by_cases h1 : f.DBTag = str ""
    · simp [inAllowList, h1]
    · by_cases h2 : f.DBTag = str "password"
      · simp [inAllowList, h1, h2]
      · by_cases h3 : f.DTOTag = str "write"
        · simp [inAllowList, h1, h3]
        · simp [inAllowList, h1, h2, h3, quotedDBTag]

theorem allowedFieldsStr_eq (fields : List StructField) :
    allowedFieldsStr fields
      = strings_Join ((fields.filter inAllowList).map quotedDBTag) (str ", ") := by
  unfold allowedFieldsStr allowedFieldsList
  rw [allowedFieldsList_loop, List.nil_append]

theorem listHandler_allow_line (s p allowed ctx : GoString) :
    str "\tallowedFields := []string\x7b" ++ allowed ++ str "\x7d\n"
      <:+: listHandler s p allowed ctx := by
  simp only [listHandler, List.append_assoc]
  repeat (first | with_reducible exact infix_chain3 _ _ _ _ | apply infix_skip)

/-- C26: the allow-list of the `List` handler is the quoted db tags, in source order and
joined by `, `, of exactly the fields whose db tag is non-empty and not `password` and
whose dto tag is not `write`; the handler declares it as `allowedFields`. -/
theorem list_allow_list (w : Surroundings) (structName : GoString)
    (fields : List StructField) (authCfg : Option AuthConfig) :
    (resourceLocals w structName fields authCfg).allowedFieldsStr
      = strings_Join
          ((fields.filter (fun f => decide (f.DBTag ≠ str "" ∧ f.DBTag ≠ str "password"
            ∧ f.DTOTag ≠ str "write"))).map (fun f => str "\"" ++ f.DBTag ++ str "\""))
          (str ", ")
    ∧ str "\tallowedFields := []string\x7b"
        ++ (resourceLocals w structName fields authCfg).allowedFieldsStr ++ str "\x7d\n"
      <:+: listHandler structName (resourceLocals w structName fields authCfg).pluralResourceName
        (resourceLocals w structName fields authCfg).allowedFieldsStr
        (resourceLocals w structName fields authCfg).contextFunc
    ∧ listHandler structName (resourceLocals w structName fields authCfg).pluralResourceName
        (resourceLocals w structName fields authCfg).allowedFieldsStr
        (resourceLocals w structName fields authCfg).contextFunc
      <:+: generateResourceFromModel w structName fields authCfg := by
  refine ⟨allowedFieldsStr_eq fields, listHandler_allow_line _ _ _ _, ?_⟩
  simp only [generateResourceFromModel, resourceFormat, List.append_assoc]
  repeat (first | with_reducible exact infix_head _ _ | apply infix_skip)


theorem hasUserIdField_eq_any (fields : List StructField) :
    hasUserIdField fields = fields.any (fun f => decide (f.Name = str "UserId")) := by
  induction fields with
  | nil => rfl
  | cons f fs ih =>
    by_cases h : f.Name = str "UserId"
    · simp [hasUserIdField, h]
    · simp [hasUserIdField, h, ih]

theorem needsAuth_or_userId_eq (authCfg : Option AuthConfig) (P : GoString)
    (fields : List StructField) :
    (needsAuthContext authCfg P || hasUserIdField fields) = usesAuthContext authCfg P fields := by
  rw [needsAuthContext_eq, hasUserIdField_eq_any]
  simp [usesAuthContext, Bool.or_assoc]

theorem importsSection_eq (moduleName d m : GoString) (a u h : Bool) :
    importsSection moduleName d m a u h
      = importsWith d m ((if a || u then [authImportLine] else [])
          ++ (if h then [hooksImportLine moduleName] else [])) := by
  have eA : ∀ X : GoString,
      str "import (\n" ++ (str "\t\"net/url\"\n" ++ (str "\n" ++ (str "\t\"" ++ X)))
        = str "import (\n\t\"net/url\"\n\n\t\"" ++ X := by
    intro X
    have e : str "import (\n" ++ (str "\t\"net/url\"\n" ++ (str "\n" ++ str "\t\""))
        = str "import (\n\t\"net/url\"\n\n\t\"" := by decide
    rw [← e]; simp only [List.append_assoc]
  have eB : ∀ X : GoString, str "\"\n" ++ (str "\t\"" ++ X) = str "\"\n\t\"" ++ X := by
    intro X
    have e : str "\"\n" ++ str "\t\"" = str "\"\n\t\"" := by decide
    rw [← e]; simp only [List.append_assoc]
  have eC : ∀ X : GoString,
      str "\"\n" ++ (str "\n" ++ (str "\t\"github.com/gofiber/fiber/v2\"\n"
        ++ (str "\t\"github.com/nicolasbonnici/gorest/crud\"\n"
        ++ (str "\t\"github.com/nicolasbonnici/gorest/database\"\n"
        ++ (str "\t\"github.com/nicolasbonnici/gorest/filter\"\n"
        ++ (str "\t\"github.com/nicolasbonnici/gorest/logger\"\n"
        ++ (str "\t\"github.com/nicolasbonnici/gorest/pagination\"\n"
        ++ (str "\t\"github.com/nicolasbonnici/gorest/plugin\"\n"
        ++ (str "\t\"github.com/nicolasbonnici/gorest/response\"" ++ X)))))))))
        = str "\"\n\n\t\"github.com/gofiber/fiber/v2\"\n\t\"github.com/nicolasbonnici/gorest/crud\"\n\t\"github.com/nicolasbonnici/gorest/database\"\n\t\"github.com/nicolasbonnici/gorest/filter\"\n\t\"github.com/nicolasbonnici/gorest/logger\"\n\t\"github.com/nicolasbonnici/gorest/pagination\"\n\t\"github.com/nicolasbonnici/gorest/plugin\"\n\t\"github.com/nicolasbonnici/gorest/response\""
          ++ X := by
    intro X
    have e : str "\"\n" ++ (str "\n" ++ (str "\t\"github.com/gofiber/fiber/v2\"\n"
        ++ (str "\t\"github.com/nicolasbonnici/gorest/crud\"\n"
        ++ (str "\t\"github.com/nicolasbonnici/gorest/database\"\n"
        ++ (str "\t\"github.com/nicolasbonnici/gorest/filter\"\n"
        ++ (str "\t\"github.com/nicolasbonnici/gorest/logger\"\n"
        ++ (str "\t\"github.com/nicolasbonnici/gorest/pagination\"\n"
        ++ (str "\t\"github.com/nicolasbonnici/gorest/plugin\"\n"
        ++ str "\t\"github.com/nicolasbonnici/gorest/response\""))))))))
        = str "\"\n\n\t\"github.com/gofiber/fiber/v2\"\n\t\"github.com/nicolasbonnici/gorest/crud\"\n\t\"github.com/nicolasbonnici/gorest/database\"\n\t\"github.com/nicolasbonnici/gorest/filter\"\n\t\"github.com/nicolasbonnici/gorest/logger\"\n\t\"github.com/nicolasbonnici/gorest/pagination\"\n\t\"github.com/nicolasbonnici/gorest/plugin\"\n\t\"github.com/nicolasbonnici/gorest/response\"" := by
      set_option maxRecDepth 8000 in decide
    rw [← e]; simp only [List.append_assoc]
  have eD : ∀ X : GoString,
      str "\n\tauth \"github.com/nicolasbonnici/gorest-auth\"" ++ X
        = str "\n" ++ (authImportLine ++ X) := by
    intro X
    have e : str "\n\tauth \"github.com/nicolasbonnici/gorest-auth\""
        = str "\n" ++ authImportLine := by decide
    rw [e]; simp only [List.append_assoc]
  have eE : ∀ X : GoString, str "\n\t\"" ++ X = str "\n" ++ (str "\t\"" ++ X) := by
    intro X
    have e : str "\n\t\"" = str "\n" ++ str "\t\"" := by decide
    rw [e]; simp only [List.append_assoc]
  cases a <;> cases u <;> cases h <;>
    simp only [importsSection, importsWith, hooksImportLine, Bool.or_self, Bool.or_true,
      Bool.or_false, Bool.true_or, if_true, if_false, Bool.false_eq_true, List.append_assoc,
      List.map, List.flatten, List.nil_append, List.append_nil, List.cons_append,
      List.singleton_append, eA, eB, eC, eD, eE]


theorem suffix_skip {a b : GoString} (c : GoString) (h : a <:+ b) : a <:+ c ++ b :=
  h.trans (List.suffix_append c b)

theorem handler_crud_lines (s p lower allowed pop ctx : GoString) :
    (str "\tresult, err := r.CRUD.GetAllPaginated(" ++ ctx
        ++ str ", crud.PaginationOptions\x7b\n" <:+: listHandler s p allowed ctx)
    ∧ (str "\titem, err := r.CRUD.GetByID(" ++ ctx ++ str ", id)\n" <:+: getHandler s p ctx)
    ∧ (str "\tctx := " ++ ctx ++ str "\n"
        ++ str "\tif err := r.CRUD.Create(ctx, item); err != nil \x7b\n"
        <:+: createHandler s p lower pop ctx)
    ∧ (str "\tif err := r.CRUD.Update(" ++ ctx ++ str ", id, item); err != nil \x7b\n"
        <:+: updateHandler s p lower pop ctx)
    ∧ (str "\tif err := r.CRUD.Delete(" ++ ctx ++ str ", id); err != nil \x7b\n"
        <:+: deleteHandler s p ctx) := by
  refine ⟨?_, ?_, ?_, ?_, ?_⟩
  · simp only [listHandler, List.append_assoc]
    repeat (first | with_reducible exact infix_chain3 _ _ _ _ | apply infix_skip)
  · simp only [getHandler, List.append_assoc]
    repeat (first | with_reducible exact infix_chain3 _ _ _ _ | apply infix_skip)
  · simp only [createHandler, List.append_assoc]
    repeat (first | with_reducible exact infix_chain4 _ _ _ _ _ | apply infix_skip)
  · simp only [updateHandler, List.append_assoc]
    repeat (first | with_reducible exact infix_chain3 _ _ _ _ | apply infix_skip)
  · simp only [deleteHandler, List.append_assoc]
    repeat (first | with_reducible exact infix_chain3 _ _ _ _ | apply infix_skip)

theorem handlers_suffix_of_text (w : Surroundings) (structName : GoString)
    (fields : List StructField) (authCfg : Option AuthConfig) :
    listHandler structName (resourceLocals w structName fields authCfg).pluralResourceName
        (resourceLocals w structName fields authCfg).allowedFieldsStr
        (resourceLocals w structName fields authCfg).contextFunc
      ++ getHandler structName (resourceLocals w structName fields authCfg).pluralResourceName
        (resourceLocals w structName fields authCfg).contextFunc
      ++ createHandler structName
        (resourceLocals w structName fields authCfg).pluralResourceName
        (resourceLocals w structName fields authCfg).lowerStructName
        (resourceLocals w structName fields authCfg).userIdAutoPopulate
        (resourceLocals w structName fields authCfg).contextFunc
      ++ updateHandler structName
        (resourceLocals w structName fields authCfg).pluralResourceName
        (resourceLocals w structName fields authCfg).lowerStructName
        (resourceLocals w structName fields authCfg).userIdAutoPopulate
        (resourceLocals w structName fields authCfg).contextFunc
      ++ deleteHandler structName
        (resourceLocals w structName fields authCfg).pluralResourceName
        (resourceLocals w structName fields authCfg).contextFunc
      <:+ generateResourceFromModel w structName fields authCfg := by
  simp only [generateResourceFromModel, resourceFormat, List.append_assoc]
  repeat (first | with_reducible exact List.suffix_refl _ | apply suffix_skip)

theorem not_infix_of_byte (b : Nat) (x y : GoString) (hx : b ∈ x)
    (hy : y.all (fun c => decide (c ≠ b)) = true) : ¬ x <:+: y := by
  intro h
  have hb : b ∈ y := h.subset hx
  have := List.all_eq_true.mp hy b hb
  simp at this

theorem all_ne_of_not_mem (b : Nat) (s : GoString) (h : b ∉ s) :
    s.all (fun c => decide (c ≠ b)) = true := by
  rw [List.all_eq_true]
  intro c hc
  have : c ≠ b := fun e => h (e ▸ hc)
  simpa using this

theorem prefix_chain8 (a1 a2 a3 a4 a5 a6 a7 a8 rest : GoString) :
    a1 ++ (a2 ++ (a3 ++ (a4 ++ (a5 ++ (a6 ++ (a7 ++ a8))))))
      <+: a1 ++ (a2 ++ (a3 ++ (a4 ++ (a5 ++ (a6 ++ (a7 ++ (a8 ++ rest))))))) :=
  ⟨rest, by simp⟩

theorem imports_prefix_of_text (w : Surroundings) (structName : GoString)
    (fields : List StructField) (authCfg : Option AuthConfig) :
    str "// Code generated by GoREST. DO NOT EDIT.\n" ++ str "\n" ++ str "package resources\n"
        ++ str "\n" ++ (resourceLocals w structName fields authCfg).importsSection ++ str "\n"
        ++ str "\n" ++ str "type "
      <+: generateResourceFromModel w structName fields authCfg := by
  unfold generateResourceFromModel resourceFormat resourceHead
  simp only [List.append_assoc]
  with_reducible exact prefix_chain8 _ _ _ _ _ _ _ _ _

theorem imports_infix_text (w : Surroundings) (structName : GoString)
    (fields : List StructField) (authCfg : Option AuthConfig) :
    (resourceLocals w structName fields authCfg).importsSection
      <:+: generateResourceFromModel w structName fields authCfg := by
  refine List.IsInfix.trans ?_ (imports_prefix_of_text w structName fields authCfg).isInfix
  simp only [List.append_assoc]
  repeat (first | with_reducible exact infix_head _ _ | apply infix_skip)

theorem authImportLine_infix_importsWith (d m : GoString) (rest : List GoString) :
    str "\n" ++ authImportLine ++ str "\n" <:+: importsWith d m (authImportLine :: rest) := by
  have e : str "\n)" = str "\n" ++ str ")" := by decide
  cases rest with
  | nil =>
    simp only [importsWith, List.map, List.flatten, List.append_assoc, List.append_nil, e]
    repeat (first | with_reducible exact infix_chain3 _ _ _ _ | apply infix_skip)
  | cons r rs =>
    simp only [importsWith, List.map, List.flatten, List.append_assoc]
    repeat (first | with_reducible exact infix_chain3 _ _ _ _ | apply infix_skip)

theorem importsWith_without_hyphen (moduleName d m : GoString) (hasHooks : Bool)
    (hM : 45 ∉ moduleName) (hd : 45 ∉ d) (hm : 45 ∉ m) :
    ¬ authImportLine
      <:+: importsWith d m (if hasHooks then [hooksImportLine moduleName] else []) := by
  have h1 := all_ne_of_not_mem 45 moduleName hM
  have h2 := all_ne_of_not_mem 45 d hd
  have h3 := all_ne_of_not_mem 45 m hm
  refine not_infix_of_byte 45 _ _ (by decide) ?_
  cases hasHooks
  · simp only [importsWith, Bool.false_eq_true, if_false, List.map, List.flatten,
      List.all_append, h2, h3, Bool.and_true, Bool.true_and]
    set_option maxRecDepth 100000 in decide
  · simp only [importsWith, hooksImportLine, if_true, List.map, List.flatten,
      List.all_append, h1, h2, h3, Bool.and_true, Bool.true_and]
    set_option maxRecDepth 100000 in decide

/-- C24: the context of the CRUD call is `auth.Context(c)` in all five handlers when some
of GET, POST, PUT, DELETE requires authentication on the plural resource name or some
field is named `UserId`, and `c.Context()` in all five otherwise; the import of the
auth package is among the imports in the first case and not in the second. The import
declaration follows the package clause at the head of the text; in the first case the
text holds the line of the auth import, and in the second the import declaration, for a
module name and import paths free of `-`, does not hold it. -/
theorem context_of_crud_calls (w : Surroundings) (structName : GoString)
    (fields : List StructField) (authCfg : Option AuthConfig) :
    let l := resourceLocals w structName fields authCfg
    let uses := usesAuthContext authCfg l.pluralResourceName fields
    l.contextFunc = (if uses then str "auth.Context(c)" else str "c.Context()")
    ∧ (str "\tresult, err := r.CRUD.GetAllPaginated(" ++ l.contextFunc
          ++ str ", crud.PaginationOptions\x7b\n"
        <:+: listHandler structName l.pluralResourceName l.allowedFieldsStr l.contextFunc)
    ∧ (str "\titem, err := r.CRUD.GetByID(" ++ l.contextFunc ++ str ", id)\n"
        <:+: getHandler structName l.pluralResourceName l.contextFunc)
    ∧ (str "\tctx := " ++ l.contextFunc ++ str "\n"
          ++ str "\tif err := r.CRUD.Create(ctx, item); err != nil \x7b\n"
        <:+: createHandler structName l.pluralResourceName l.lowerStructName
          l.userIdAutoPopulate l.contextFunc)
    ∧ (str "\tif err := r.CRUD.Update(" ++ l.contextFunc
          ++ str ", id, item); err != nil \x7b\n"
        <:+: updateHandler structName l.pluralResourceName l.lowerStructName
          l.userIdAutoPopulate l.contextFunc)
    ∧ (str "\tif err := r.CRUD.Delete(" ++ l.contextFunc ++ str ", id); err != nil \x7b\n"
        <:+: deleteHandler structName l.pluralResourceName l.contextFunc)
    ∧ (listHandler structName l.pluralResourceName l.allowedFieldsStr l.contextFunc
        ++ getHandler structName l.pluralResourceName l.contextFunc
        ++ createHandler structName l.pluralResourceName l.lowerStructName
          l.userIdAutoPopulate l.contextFunc
        ++ updateHandler structName l.pluralResourceName l.lowerStructName
          l.userIdAutoPopulate l.contextFunc
        ++ deleteHandler structName l.pluralResourceName l.contextFunc
        <:+ generateResourceFromModel w structName fields authCfg)
    ∧ l.importsSection
        = importsWith l.dtosImport l.modelsImport
            ((if uses then [authImportLine] else [])
              ++ (if l.hasHooks then [hooksImportLine w.moduleName] else []))
    ∧ (str "// Code generated by GoREST. DO NOT EDIT.\n" ++ str "\n"
        ++ str "package resources\n" ++ str "\n" ++ l.importsSection ++ str "\n" ++ str "\n"
        ++ str "type "
        <+: generateResourceFromModel w structName fields authCfg)
    ∧ (uses = true →
        str "\n" ++ authImportLine ++ str "\n"
          <:+: generateResourceFromModel w structName fields authCfg)
    ∧ (uses = false → 45 ∉ w.moduleName → 45 ∉ l.dtosImport → 45 ∉ l.modelsImport →
        ¬ authImportLine <:+: l.importsSection) := by
  intro l uses
  have hu : (l.needsAuthContext || l.hasUserIdField) = uses :=
    needsAuth_or_userId_eq authCfg _ fields
  obtain ⟨h1, h2, h3, h4, h5⟩ := handler_crud_lines structName l.pluralResourceName
    l.lowerStructName l.allowedFieldsStr l.userIdAutoPopulate l.contextFunc
  have himp : l.importsSection
      = importsWith l.dtosImport l.modelsImport
          ((if uses then [authImportLine] else [])
            ++ (if l.hasHooks then [hooksImportLine w.moduleName] else [])) := by
    show importsSection w.moduleName l.dtosImport l.modelsImport l.needsAuthContext
      l.hasUserIdField l.hasHooks = _
    rw [importsSection_eq, hu]
  refine ⟨?_, h1, h2, h3, h4, h5, handlers_suffix_of_text w structName fields authCfg, himp,
    imports_prefix_of_text w structName fields authCfg, ?_, ?_⟩
  · show contextFunc l.needsAuthContext l.hasUserIdField = _
    unfold contextFunc
    rw [hu]
  · intro hy
    refine List.IsInfix.trans ?_ (imports_infix_text w structName fields authCfg)
    show _ <:+: l.importsSection
    rw [himp, hy]
    exact authImportLine_infix_importsWith _ _ _
  · intro hn hM hd hm
    rw [himp, hn]
    exact importsWith_without_hyphen w.moduleName _ _ l.hasHooks hM hd hm

/-- C24 at the module `example.com/app` and the resource `Todo`: without fields and
without authentication the import declaration does not hold the line of the auth import;
with a field named `UserId` the text holds it. -/
theorem context_of_crud_calls_witness :
    (¬ authImportLine
      <:+: (resourceLocals (surroundingsOfExample false) (str "Todo") [] none).importsSection)
    ∧ (str "\n" ++ authImportLine ++ str "\n"
      <:+: generateResourceFromModel (surroundingsOfExample false) (str "Todo") [userIdField]
        none) :=
  ⟨(context_of_crud_calls (surroundingsOfExample false) (str "Todo") [] none).2.2.2.2.2.2.2.2.2.2
      (by decide) (by decide) (by decide) (by decide),
    (context_of_crud_calls (surroundingsOfExample false) (str "Todo") [userIdField]
      none).2.2.2.2.2.2.2.2.2.1 (by decide)⟩



/-! ## The user id block -/

theorem userIdAutoPopulate_eq (hasUserId : Bool) :
    userIdAutoPopulate hasUserId = if hasUserId then userIdBlock else [] := by
  cases hasUserId
  · simp only [userIdAutoPopulate, Bool.false_eq_true, if_false]
    rfl
  · simp only [userIdAutoPopulate, if_true]
    set_option maxRecDepth 8000 in decide

theorem infix_chain5 (a x b y c rest : GoString) :
    a ++ (x ++ (b ++ (y ++ c))) <:+: a ++ (x ++ (b ++ (y ++ (c ++ rest)))) :=
  ⟨[], rest, by simp⟩

theorem handler_populate_lines (s p lower pop ctx : GoString) :
    (str "\titem := " ++ lower ++ str "CreateDTOToModel(createDTO)\n" ++ pop ++ str "\n"
        <:+: createHandler s p lower pop ctx)
    ∧ (str "\titem := " ++ lower ++ str "UpdateDTOToModel(updateDTO)\n" ++ pop ++ str "\n"
        <:+: updateHandler s p lower pop ctx) := by
  refine ⟨?_, ?_⟩
  · simp only [createHandler, List.append_assoc]
    repeat (first | with_reducible exact infix_chain5 _ _ _ _ _ _ | apply infix_skip)
  · simp only [updateHandler, List.append_assoc]
    repeat (first | with_reducible exact infix_chain5 _ _ _ _ _ _ | apply infix_skip)

theorem handlers_without_ampersand (s p allowed ctx : GoString)
    (hs : 38 ∉ s) (hp : 38 ∉ p) (ha : 38 ∉ allowed) (hc : 38 ∉ ctx) :
    (listHandler s p allowed ctx).all (fun c => decide (c ≠ 38)) = true
    ∧ (getHandler s p ctx).all (fun c => decide (c ≠ 38)) = true
    ∧ (deleteHandler s p ctx).all (fun c => decide (c ≠ 38)) = true := by
  have hs2 := all_ne_of_not_mem 38 s hs
  have hp2 := all_ne_of_not_mem 38 p hp
  have ha2 := all_ne_of_not_mem 38 allowed ha
  have hc2 := all_ne_of_not_mem 38 ctx hc
  refine ⟨?_, ?_, ?_⟩
  · simp only [listHandler, List.all_append, hs2, hp2, ha2, hc2, Bool.and_true, Bool.true_and]
    set_option maxRecDepth 8000 in decide
  · simp only [getHandler, List.all_append, hs2, hp2, ha2, hc2, Bool.and_true, Bool.true_and]
    set_option maxRecDepth 8000 in decide
  · simp only [deleteHandler, List.all_append, hs2, hp2, ha2, hc2, Bool.and_true,
      Bool.true_and]
    set_option maxRecDepth 8000 in decide


theorem contextFunc_without_ampersand (a u : Bool) : 38 ∉ contextFunc a u := by
  cases a <;> cases u <;> decide

theorem mem_userIdBlock : 38 ∈ userIdBlock := by
  set_option maxRecDepth 8000 in decide

theorem populate_infix_line (a lower b pop c : GoString) :
    pop <:+: a ++ lower ++ b ++ pop ++ c :=
  ⟨a ++ lower ++ b, c, by simp⟩

/-- C25, as stated, fails on a model with a `UserId` field: the block that sets
`item.UserId` is in the body of the `Update` handler too, and that handler is part of the
text. -/
theorem update_handler_sets_user_id :
    (resourceLocals (surroundingsOfExample false) (str "Todo") [userIdField]
        none).userIdAutoPopulate = userIdBlock
    ∧ userIdBlock <:+: updateHandler (str "Todo")
        (resourceLocals (surroundingsOfExample false) (str "Todo") [userIdField]
          none).pluralResourceName
        (resourceLocals (surroundingsOfExample false) (str "Todo") [userIdField]
          none).lowerStructName
        (resourceLocals (surroundingsOfExample false) (str "Todo") [userIdField]
          none).userIdAutoPopulate
        (resourceLocals (surroundingsOfExample false) (str "Todo") [userIdField]
          none).contextFunc
    ∧ updateHandler (str "Todo")
        (resourceLocals (surroundingsOfExample false) (str "Todo") [userIdField]
          none).pluralResourceName
        (resourceLocals (surroundingsOfExample false) (str "Todo") [userIdField]
          none).lowerStructName
        (resourceLocals (surroundingsOfExample false) (str "Todo") [userIdField]
          none).userIdAutoPopulate
        (resourceLocals (surroundingsOfExample false) (str "Todo") [userIdField]
          none).contextFunc
      <:+: generateResourceFromModel (surroundingsOfExample false) (str "Todo") [userIdField]
        none := by
  have hf : hasUserIdField [userIdField] = true := by decide
  have hpop : (resourceLocals (surroundingsOfExample false) (str "Todo") [userIdField]
      none).userIdAutoPopulate = userIdBlock := by
    show userIdAutoPopulate (hasUserIdField [userIdField]) = _
    rw [userIdAutoPopulate_eq, hf]
    rfl
  refine ⟨hpop, ?_, ?_⟩
  · refine List.IsInfix.trans ?_ (handler_populate_lines _ _ _ _ _).2
    rw [hpop]
    exact populate_infix_line _ _ _ _ _
  · simp only [generateResourceFromModel, resourceFormat, List.append_assoc]
    repeat (first | with_reducible exact infix_head _ _ | apply infix_skip)

/-- C25 (amended): the block that sets `item.UserId` from the authenticated user is
emitted exactly when the model has a field named `UserId`, and then in the `Create` and
the `Update` handler, right after the conversion of the DTO, and in no other handler: the
`List`, `Get` and `Delete` handlers of a model whose name, plural resource name and db
tags are free of `&` do not contain it. -/
theorem user_id_block_in_create_and_update (w : Surroundings) (structName : GoString)
    (fields : List StructField) (authCfg : Option AuthConfig) :
    let l := resourceLocals w structName fields authCfg
    l.userIdAutoPopulate
        = (if fields.any (fun f => decide (f.Name = str "UserId")) then userIdBlock else [])
    ∧ (str "\titem := " ++ l.lowerStructName ++ str "CreateDTOToModel(createDTO)\n"
          ++ l.userIdAutoPopulate ++ str "\n"
        <:+: createHandler structName l.pluralResourceName l.lowerStructName
          l.userIdAutoPopulate l.contextFunc)
    ∧ (str "\titem := " ++ l.lowerStructName ++ str "UpdateDTOToModel(updateDTO)\n"
          ++ l.userIdAutoPopulate ++ str "\n"
        <:+: updateHandler structName l.pluralResourceName l.lowerStructName
          l.userIdAutoPopulate l.contextFunc)
    ∧ (38 ∉ structName → 38 ∉ l.pluralResourceName → 38 ∉ l.allowedFieldsStr →
        ¬ userIdBlock
            <:+: listHandler structName l.pluralResourceName l.allowedFieldsStr l.contextFunc
        ∧ ¬ userIdBlock <:+: getHandler structName l.pluralResourceName l.contextFunc
        ∧ ¬ userIdBlock <:+: deleteHandler structName l.pluralResourceName l.contextFunc)
    ∧ (listHandler structName l.pluralResourceName l.allowedFieldsStr l.contextFunc
        ++ getHandler structName l.pluralResourceName l.contextFunc
        ++ createHandler structName l.pluralResourceName l.lowerStructName
          l.userIdAutoPopulate l.contextFunc
        ++ updateHandler structName l.pluralResourceName l.lowerStructName
          l.userIdAutoPopulate l.contextFunc
        ++ deleteHandler structName l.pluralResourceName l.contextFunc
        <:+ generateResourceFromModel w structName fields authCfg) := by
  intro l
  obtain ⟨h1, h2⟩ := handler_populate_lines structName l.pluralResourceName
    l.lowerStructName l.userIdAutoPopulate l.contextFunc
  refine ⟨?_, h1, h2, ?_, handlers_suffix_of_text w structName fields authCfg⟩
  · show userIdAutoPopulate (hasUserIdField fields) = _
    rw [userIdAutoPopulate_eq, hasUserIdField_eq_any]
  · intro hs hp ha
    obtain ⟨a1, a2, a3⟩ := handlers_without_ampersand structName l.pluralResourceName
      l.allowedFieldsStr l.contextFunc hs hp ha (contextFunc_without_ampersand _ _)
    exact ⟨not_infix_of_byte 38 _ _ mem_userIdBlock a1,
      not_infix_of_byte 38 _ _ mem_userIdBlock a2,
      not_infix_of_byte 38 _ _ mem_userIdBlock a3⟩

/-- C25 (amended) at a model `Todo` with a `UserId` field: the block is emitted, and the
`List`, `Get` and `Delete` handlers do not contain it. -/
theorem user_id_block_in_create_and_update_witness :
    (resourceLocals (surroundingsOfExample false) (str "Todo") [userIdField]
        none).userIdAutoPopulate
      = (if [userIdField].any (fun f => decide (f.Name = str "UserId")) then userIdBlock
          else [])
    ∧ ¬ userIdBlock <:+: getHandler (str "Todo")
        (resourceLocals (surroundingsOfExample false) (str "Todo") [userIdField]
          none).pluralResourceName
        (resourceLocals (surroundingsOfExample false) (str "Todo") [userIdField]
          none).contextFunc :=
  ⟨(user_id_block_in_create_and_update (surroundingsOfExample false) (str "Todo")
      [userIdField] none).1,
   ((user_id_block_in_create_and_update (surroundingsOfExample false) (str "Todo")
      [userIdField] none).2.2.2.1 (by decide) (by decide) (by decide)).2.1⟩


/-! ## Hooks and import paths -/

theorem crudInit_hooks_ne (structName : GoString) :
    crudInit structName true
      ≠ str "crud.NewWithHooks[models." ++ structName ++ str "](db, hooks.New" ++ structName
        ++ str "Hooks())" := by
  have e1 : str "](db, &hooks." = str "](db, " ++ (38 :: str "hooks.") := by decide
  have e2 : str "](db, hooks.New" = str "](db, " ++ (104 :: str "ooks.New") := by decide
  simp only [crudInit, if_true, List.append_assoc, e1, e2, ne_eq, List.append_cancel_left_eq,
    List.cons_append, List.cons.injEq]
  omega

/-- C28: without a hook file the CRUD handle is constructed with `crud.New[models.X](db)`
and no hooks package is imported; with a hook file the hooks package of the module is
imported, but the handle is constructed with
`crud.NewWithHooks[models.X](db, &hooks.XHooks{})`, which for no model name `X` is the
form `crud.NewWithHooks[models.X](db, hooks.NewXHooks())` that
`TestGenerateResourceFromModel` looks for. -/
theorem crud_handle_with_hooks (w : Surroundings) (structName : GoString)
    (fields : List StructField) (authCfg : Option AuthConfig) :
    let l := resourceLocals w structName fields authCfg
    let uses := usesAuthContext authCfg l.pluralResourceName fields
    l.hasHooks = w.hookFileExists (strings_ToLower w.unicodeLower structName ++ str ".go")
    ∧ (l.hasHooks = false →
        l.crudInit = str "crud.New[models." ++ structName ++ str "](db)"
        ∧ l.importsSection = importsWith l.dtosImport l.modelsImport
            (if uses then [authImportLine] else []))
    ∧ (l.hasHooks = true →
        l.crudInit = str "crud.NewWithHooks[models." ++ structName ++ str "](db, &hooks."
          ++ structName ++ str "Hooks\x7b\x7d)"
        ∧ l.crudInit ≠ str "crud.NewWithHooks[models." ++ structName
          ++ str "](db, hooks.New" ++ structName ++ str "Hooks())"
        ∧ l.importsSection = importsWith l.dtosImport l.modelsImport
            ((if uses then [authImportLine] else []) ++ [hooksImportLine w.moduleName]))
    ∧ (str "\t\tCRUD:               " ++ l.crudInit ++ str ",\n"
        <:+: generateResourceFromModel w structName fields authCfg) := by
  intro l uses
  have hu : (l.needsAuthContext || l.hasUserIdField) = uses :=
    needsAuth_or_userId_eq authCfg _ fields
  have hi : l.importsSection = importsSection w.moduleName l.dtosImport l.modelsImport
      l.needsAuthContext l.hasUserIdField l.hasHooks := rfl
  have hc : l.crudInit = crudInit structName l.hasHooks := rfl
  refine ⟨rfl, ?_, ?_, ?_⟩
  · intro h
    rw [hi, hc, importsSection_eq, hu, h]
    exact ⟨by simp only [crudInit, Bool.false_eq_true, if_false], by simp⟩
  · intro h
    rw [hi, hc, importsSection_eq, hu, h]
    exact ⟨by simp only [crudInit, if_true], crudInit_hooks_ne structName, by simp⟩
  · simp only [generateResourceFromModel, resourceFormat, resourceHead, List.append_assoc]
    repeat (first | with_reducible exact infix_chain3 _ _ _ _ | apply infix_skip)

theorem strings_ReplaceAll_same (s : GoString) : strings_ReplaceAll s 47 (str "/") = s := by
  unfold strings_ReplaceAll
  induction s with
  | nil => rfl
  | cons b bs ih =>
    rw [List.flatMap_cons, ih]
    by_cases h : b = 47
    · subst h; rfl
    · simp [h]

/-- C29: with the separator `/`, the models import path is the module name followed, for
a configured directory other than `models` and the empty one, by `/` and the directory
without a leading `./`; then a trailing `/models` is cut and `/models` is appended in
every case. For the directory `entities` of module `example.com/app` the path emitted is
`example.com/app/entities/models`, not `example.com/app/entities`, the directory the
models are written to; likewise `example.com/app/api/dtos` for the DTO directory `api`. -/
theorem import_path_of_custom_directory :
    (∀ M D : GoString, modelsImport M 47 D
      = strings_TrimSuffix
          (if D ≠ str "models" ∧ D ≠ str "" then M ++ str "/" ++ strings_TrimPrefix D (str "./")
            else M) (str "/models") ++ str "/models")
    ∧ (∀ M D : GoString, dtosImport M 47 D
      = strings_TrimSuffix
          (if D ≠ str "dtos" ∧ D ≠ str "" then M ++ str "/" ++ strings_TrimPrefix D (str "./")
            else M) (str "/dtos") ++ str "/dtos")
    ∧ modelsImport (str "example.com/app") 47 (str "entities")
        = str "example.com/app/entities/models"
    ∧ modelsImport (str "example.com/app") 47 (str "entities")
        ≠ str "example.com/app" ++ str "/" ++ str "entities"
    ∧ dtosImport (str "example.com/app") 47 (str "api") = str "example.com/app/api/dtos"
    ∧ dtosImport (str "example.com/app") 47 (str "api")
        ≠ str "example.com/app" ++ str "/" ++ str "api"
    ∧ modelsImport (str "example.com/app") 47 (str "./internal/models")
        = str "example.com/app/internal/models"
    ∧ modelsImport (str "example.com/app") 47 (str "models") = str "example.com/app/models" := by
  refine ⟨?_, ?_, ?_⟩
  · intro M D
    simp only [modelsImport, strings_ReplaceAll_same]
  · intro M D
    simp only [dtosImport, strings_ReplaceAll_same]
  · set_option maxRecDepth 8000 in decide


/-! ## The word that is pluralised -/

theorem toLower_capitalize_word (p : GoString) (h : isLowerWord p) :
    (capitalize p).all (fun c => decide (c < 0x80)) = true
    ∧ (capitalize p).map (fun c => if 65 ≤ c ∧ c ≤ 90 then c + 32 else c) = p := by
  cases p with
  | nil => exact absurd rfl h.1
  | cons c rest =>
    have hc := h.2 c (List.mem_cons_self _ _)
    have hrest : ∀ b ∈ rest, 97 ≤ b ∧ b ≤ 122 := fun b hb => h.2 b (List.mem_cons_of_mem _ hb)
    constructor
    · simp only [capitalize, List.all_cons, Bool.and_eq_true, decide_eq_true_eq,
        List.all_eq_true]
      refine ⟨by omega, fun b hb => ?_⟩
      have := hrest b hb
      omega
    · simp only [capitalize, List.map_cons]
      have h1 : (if 65 ≤ c - 32 ∧ c - 32 ≤ 90 then c - 32 + 32 else c - 32) = c := by
        have : 65 ≤ c - 32 ∧ c - 32 ≤ 90 := by omega
        rw [if_pos this]; omega
      have h2 : rest.map (fun c => if 65 ≤ c ∧ c ≤ 90 then c + 32 else c) = rest := by
        conv_rhs => rw [← List.map_id rest]
        apply List.map_congr_left
        intro b hb
        have := hrest b hb
        have hn : ¬ (65 ≤ b ∧ b ≤ 90) := by omega
        simp [hn]
      rw [h1, h2]

theorem toLower_capitalized_words (unicodeLower : GoString → GoString)
    (segs : List GoString) (h : ∀ p ∈ segs, isLowerWord p) :
    strings_ToLower unicodeLower (segs.map capitalize).flatten = segs.flatten := by
  have key : ((segs.map capitalize).flatten).all (fun c => decide (c < 0x80)) = true
      ∧ ((segs.map capitalize).flatten).map (fun c => if 65 ≤ c ∧ c ≤ 90 then c + 32 else c)
        = segs.flatten := by
    induction segs with
    | nil => exact ⟨rfl, rfl⟩
    | cons p ps ih =>
      obtain ⟨a1, a2⟩ := toLower_capitalize_word p (h p (List.mem_cons_self _ _))
      obtain ⟨b1, b2⟩ := ih (fun q hq => h q (List.mem_cons_of_mem _ hq))
      simp only [List.map_cons, List.flatten_cons, List.all_append, List.map_append, a1, a2,
        b1, b2, Bool.and_self, and_self]
  unfold strings_ToLower
  rw [if_pos key.1, key.2]

/-- C30, as stated, fails at the table `todo_items`: its singular is `todo_item`, the
struct name `TodoItem`, and the word that is pluralised is `todoitem`, not
`todo_item`. -/
theorem todo_items_word_has_no_underscore :
    singularize (str "todo_items") = some (str "todo_item")
    ∧ toPascalCase titleASCII (str "todo_item") = str "TodoItem"
    ∧ (resourceLocals (surroundingsOfExample false) (str "TodoItem") [] none).lowerStructName
        = str "todoitem"
    ∧ (resourceLocals (surroundingsOfExample false) (str "TodoItem") []
        none).pluralResourceName
        = (surroundingsOfExample false).Pluralize (str "todoitem")
    ∧ str "todoitem" ≠ str "todo_item" := by
  refine ⟨by decide, by decide, by decide, by decide, by decide⟩

/-- C30 (amended): for every table name whose singular consists of non-empty words of
lower-case ASCII letters joined by single underscores, the word that is pluralised to
form the route segment, the lower-cased struct name `toPascalCase(singularize(T))`, is
the singular with its underscores removed, so that the route segment is `Pluralize` of
that word; it is `Pluralize(singularize(T))` when the singular has no underscore. The
title-caser of golang.org/x/text is taken to upper-case the first letter of such a
word. -/
theorem route_word_of_table (w : Surroundings) (title : GoString → GoString)
    (T seg0 : GoString) (segs : List GoString) (fields : List StructField)
    (authCfg : Option AuthConfig)
    (htitle : ∀ c rest, isLowerWord (c :: rest) → title (c :: rest) = (c - 32) :: rest)
    (hsegs : ∀ p ∈ seg0 :: segs, isLowerWord p)
    (hsing : singularize T = some (strings_Join (seg0 :: segs) (str "_"))) :
    (singularize T).map
        (fun S => (resourceLocals w (toPascalCase title S) fields authCfg).pluralResourceName)
      = some (w.Pluralize (seg0 :: segs).flatten)
    ∧ (segs = [] →
      (singularize T).map
          (fun S =>
            (resourceLocals w (toPascalCase title S) fields authCfg).pluralResourceName)
        = (singularize T).map w.Pluralize) := by
  have hno : ∀ p ∈ seg0 :: segs, 95 ∉ p := by
    intro p hp hmem
    have := (hsegs p hp).2 95 hmem
    omega
  have hword : strings_ToLower w.unicodeLower
      (toPascalCase title (strings_Join (seg0 :: segs) (str "_")))
      = (seg0 :: segs).flatten := by
    rw [toPascalCase_eq, strings_Split_join seg0 segs hno,
      title_eq_capitalize title htitle (seg0 :: segs) hsegs,
      toLower_capitalized_words w.unicodeLower (seg0 :: segs) hsegs]
  have hp : (resourceLocals w (toPascalCase title (strings_Join (seg0 :: segs) (str "_")))
      fields authCfg).pluralResourceName = w.Pluralize (seg0 :: segs).flatten := by
    show w.Pluralize (strings_ToLower w.unicodeLower _) = _
    rw [hword]
  refine ⟨?_, ?_⟩
  · rw [hsing, Option.map_some', hp]
  · intro hs
    subst hs
    rw [hsing, Option.map_some', Option.map_some', hp, strings_Join_single]
    simp

/-- C30 (amended) at the table `user_profiles`, with the ASCII title-caser: the route
segment is `Pluralize` of `userprofile`. -/
theorem route_word_of_table_witness :
    (singularize (str "user_profiles")).map
        (fun S => (resourceLocals (surroundingsOfExample false) (toPascalCase titleASCII S) []
          none).pluralResourceName)
      = some ((surroundingsOfExample false).Pluralize [str "user", str "profile"].flatten) :=
  (route_word_of_table (surroundingsOfExample false) titleASCII (str "user_profiles")
    (str "user") [str "profile"] [] none titleASCII_lower (by decide) (by decide)).1




/-! ## The type mapping -/

theorem pgToGoType_known (n : Bool) :
    ∀ t ∈ knownStorageTypes,
      pgToGoType t n
        = if n = true ∨ baseGoType t = str "time.Time" then str "*" ++ baseGoType t
          else baseGoType t := by
  cases n <;> decide

theorem pgToGoType_unknown (t : GoString) (n : Bool) (h : t ∉ knownStorageTypes) :
    pgToGoType t n = (if n = true then str "*" ++ str "string" else str "string")
    ∧ baseGoType t = str "string" := by
  simp only [knownStorageTypes, List.mem_cons, List.mem_singleton, List.not_mem_nil,
    or_false, not_or] at h
  obtain ⟨h1, h2, h3, h4, h5, h6, h7, h8, h9, h10, h11, h12, h13, h14, h15, h16⟩ := h
  have hb : baseGoType t = str "string" := by
    simp only [baseGoType, h1, h2, h3, h4, h5, h6, h7, h8, h9, h10, h11, h12, h13, h14, h15,
      h16, if_false]
  have e1 : decide (str "string" = str "time.Time") = false := by decide
  have e2 : decide (str "string" ≠ str "interface\x7b\x7d") = true := by decide
  refine ⟨?_, hb⟩
  simp only [pgToGoType, GoMap.ofList, List.foldl, lookup_insert_ite, AList.lookup_empty,
    h1, h2, h3, h4, h5, h6, h7, h8, h9, h10, h11, h12, h13, h14, h15, h16, if_false,
    Option.getD_none, e1, e2, Bool.or_false, Bool.and_true]

theorem pgToGoType_eq (t : GoString) (n : Bool) :
    pgToGoType t n
      = if n = true ∨ baseGoType t = str "time.Time" then str "*" ++ baseGoType t
        else baseGoType t := by
  by_cases h : t ∈ knownStorageTypes
  · exact pgToGoType_known n t h
  · obtain ⟨h1, h2⟩ := pgToGoType_unknown t n h
    have e : str "string" ≠ str "time.Time" := by decide
    rw [h1, h2]
    simp [e]

/-- C32: `pgToGoType(t, n)` is the base type of `t` prefixed with `*` exactly when `n` is
true or the base type is `time.Time`, where the base type is given by the table of the
sixteen known storage types and is `string` for every other type. So a nullable column
gets a pointer type, a timestamp column gets `*time.Time` whether nullable or not, and
an unknown type gets `string` or `*string`. -/
theorem pgToGoType_pointer_rule (t : GoString) (n : Bool) :
    pgToGoType t n
      = (if n = true ∨ baseGoType t = str "time.Time" then str "*" ++ baseGoType t
        else baseGoType t)
    ∧ pgToGoType t true = str "*" ++ baseGoType t
    ∧ (baseGoType t = str "time.Time" → pgToGoType t n = str "*time.Time")
    ∧ (t ∉ knownStorageTypes →
        pgToGoType t false = str "string" ∧ pgToGoType t true = str "*string")
    ∧ knownStorageTypes.length = 16 ∧ knownStorageTypes.Nodup
    ∧ (baseGoType t = str "time.Time"
        ↔ t = str "timestamp without time zone" ∨ t = str "timestamp with time zone"
          ∨ t = str "timestamp") := by
  have e : str "*" ++ str "time.Time" = str "*time.Time" := by decide
  have e2 : str "*" ++ str "string" = str "*string" := by decide
  refine ⟨pgToGoType_eq t n, ?_, ?_, ?_, by decide, by decide, ?_⟩
  · rw [pgToGoType_eq]; simp
  · intro h
    rw [pgToGoType_eq, if_pos (Or.inr h), h, e]
  · intro h
    obtain ⟨h1, _⟩ := pgToGoType_unknown t false h
    obtain ⟨h2, _⟩ := pgToGoType_unknown t true h
    rw [h1, h2, ← e2]
    simp
  · by_cases h : t ∈ knownStorageTypes
    · revert t
      decide
    · have hb := (pgToGoType_unknown t false h).2
      have e3 : str "string" ≠ str "time.Time" := by decide
      simp only [knownStorageTypes, List.mem_cons, List.mem_singleton, List.not_mem_nil,
        or_false, not_or] at h
      rw [hb]
      simp [e3, h]

/-- The table of `TestPgToGoType`. -/
theorem test_pgToGoType :
    pgToGoType (str "integer") false = str "int"
    ∧ pgToGoType (str "integer") true = str "*int"
    ∧ pgToGoType (str "text") false = str "string"
    ∧ pgToGoType (str "text") true = str "*string"
    ∧ pgToGoType (str "boolean") false = str "bool"
    ∧ pgToGoType (str "boolean") true = str "*bool"
    ∧ pgToGoType (str "timestamp without time zone") false = str "*time.Time"
    ∧ pgToGoType (str "timestamp without time zone") true = str "*time.Time"
    ∧ pgToGoType (str "unknown_type") false = str "string"
    ∧ pgToGoType (str "unknown_type") true = str "*string" := by
  decide


/-! ## The model text -/

theorem modelText_eq (title : GoString → GoString) (structName : GoString)
    (table : TableSchema) :
    modelText title structName table
      = str "package models\n\n"
        ++ (if needsTime table.Columns then str "import \"time\"\n\n" else [])
        ++ str "type " ++ structName ++ str " struct \x7b\n"
        ++ table.Columns.flatMap (modelFieldLine title)
        ++ str "\x7d\n" ++ str "\n"
        ++ str "func (" ++ structName ++ str ") TableName() string \x7b\n"
        ++ str "\treturn \"" ++ table.TableName ++ str "\" \n"
        ++ str "\x7d\n" := by
  unfold modelText
  simp only
  rw [foldl_append_flatMap _ (modelFieldLine title)]
  · by_cases h : needsTime table.Columns = true
    · simp only [h, if_true, List.append_assoc]
    · simp only [h, if_false, List.append_assoc, List.nil_append, Bool.false_eq_true]
  · intro acc col
    simp only [modelFieldLine, modelFieldTag, List.append_assoc]

/-- C31: for a table `T` whose struct name `S = toPascalCase(singularize(T))` is not
`model`, `GenerateStructs` writes one file, named after the lower-cased `S`, whose text
declares `type S struct`, holds one field line per column in column order (name
`toPascalCase(col)`, type `pgToGoType(col.Type, col.IsNullable)`, tag with the json key
`toCamelCase(col)` followed by `,omitempty` exactly when the column is `id`,
`created_at`, `updated_at` or nullable, and with the db key `col`) and ends with a
`TableName` method on `S` returning `T` verbatim. -/
theorem generateStructs_model_text (unicodeLower title : GoString → GoString)
    (table : TableSchema) (s : GoString) (hs : singularize table.TableName = some s)
    (hm : toPascalCase title s ≠ str "model") :
    GenerateStructs unicodeLower title [table]
      = some [(strings_ToLower unicodeLower (toPascalCase title s) ++ str ".go",
          modelText title (toPascalCase title s) table)]
    ∧ modelText title (toPascalCase title s) table
      = str "package models\n\n"
        ++ (if needsTime table.Columns then str "import \"time\"\n\n" else [])
        ++ str "type " ++ toPascalCase title s ++ str " struct \x7b\n"
        ++ table.Columns.flatMap
            (fun col => str "\t" ++ toPascalCase title col.Name ++ str " "
              ++ pgToGoType col.Typ col.IsNullable ++ str " " ++ str "`json:\""
              ++ toCamelCase title col.Name
              ++ (if col.Name = str "id" ∨ col.Name = str "created_at"
                    ∨ col.Name = str "updated_at" ∨ col.IsNullable = true
                  then str ",omitempty" else str "")
              ++ str "\" db:\"" ++ col.Name ++ str "\"`" ++ str "\n")
        ++ str "\x7d\n" ++ str "\n"
        ++ str "func (" ++ toPascalCase title s ++ str ") TableName() string \x7b\n"
        ++ str "\treturn \"" ++ table.TableName ++ str "\" \n"
        ++ str "\x7d\n" := by
  constructor
  · simp only [GenerateStructs, List.foldl, Option.some_bind, hs, Option.map_some', hm,
      if_false, List.nil_append]
  · rw [modelText_eq]
    have e : modelFieldLine title
        = fun col => str "\t" ++ toPascalCase title col.Name ++ str " "
              ++ pgToGoType col.Typ col.IsNullable ++ str " " ++ str "`json:\""
              ++ toCamelCase title col.Name
              ++ (if col.Name = str "id" ∨ col.Name = str "created_at"
                    ∨ col.Name = str "updated_at" ∨ col.IsNullable = true
                  then str ",omitempty" else str "")
              ++ str "\" db:\"" ++ col.Name ++ str "\"`" ++ str "\n" := by
      funext col
      simp only [modelFieldLine, modelFieldTag, List.append_assoc]
    rw [e]

/-- C31 at the table `users`, with the ASCII title-caser: the file `user.go` declares the
struct `User`, whose `TableName` returns `users`. -/
theorem generateStructs_model_text_witness :
    GenerateStructs (fun s => s) titleASCII [usersTable]
      = some [(str "user.go",
          str "package models\n\nimport \"time\"\n\ntype User struct \x7b\n\tId int `json:\"id,omitempty\" db:\"id\"`\n\tEmail string `json:\"email\" db:\"email\"`\n\tPassword *string `json:\"password,omitempty\" db:\"password\"`\n\tCreatedAt *time.Time `json:\"createdAt,omitempty\" db:\"created_at\"`\n\x7d\n\nfunc (User) TableName() string \x7b\n\treturn \"users\" \n\x7d\n")] :=
  (generateStructs_model_text (fun s => s) titleASCII usersTable (str "user") (by decide)
    (by decide)).1.trans (by set_option maxRecDepth 100000 in decide)

/-! ## The OpenAPI stubs and the time import -/

/-- C33: the text `GenerateOpenAPI` writes depends on the order in which the table map is
visited: for the tables `users` and `todos` the two orders give two different texts. -/
theorem openapi_text_depends_on_order :
    [usersTable, todosTable].Perm [todosTable, usersTable]
    ∧ GenerateOpenAPI titleASCII [usersTable, todosTable]
      = some (str "package api\n\n// Auto-generated OpenAPI schema stubs\n\n// UserResource defines OpenAPI schema and endpoints for users\ntype UserResource struct \x7b\x7d\n\n// TodoResource defines OpenAPI schema and endpoints for todos\ntype TodoResource struct \x7b\x7d\n\n")
    ∧ GenerateOpenAPI titleASCII [todosTable, usersTable]
      = some (str "package api\n\n// Auto-generated OpenAPI schema stubs\n\n// TodoResource defines OpenAPI schema and endpoints for todos\ntype TodoResource struct \x7b\x7d\n\n// UserResource defines OpenAPI schema and endpoints for users\ntype UserResource struct \x7b\x7d\n\n")
    ∧ GenerateOpenAPI titleASCII [usersTable, todosTable]
      ≠ GenerateOpenAPI titleASCII [todosTable, usersTable] := by
  refine ⟨List.Perm.swap _ _ _, ?_, ?_, ?_⟩
  · set_option maxRecDepth 100000 in decide
  · set_option maxRecDepth 100000 in decide
  · set_option maxRecDepth 100000 in decide


theorem needsTime_iff (cols : List Column) :
    needsTime cols = true ↔ ∃ c ∈ cols, strings_ContainsStr c.Typ (str "timestamp") = true := by
  induction cols with
  | nil => simp [needsTime]
  | cons c cs ih =>
    by_cases h : strings_ContainsStr c.Typ (str "timestamp") = true
    · simp [needsTime, h]
    · simp [needsTime, h, ih]

theorem baseGoType_values (t : GoString) :
    baseGoType t ∈ [str "int", str "int64", str "int16", str "string", str "bool",
      str "time.Time", str "float64", str "float32", str "map[string]interface\x7b\x7d"] := by
  by_cases hk : t ∈ knownStorageTypes
  · have hall : ∀ t ∈ knownStorageTypes,
        baseGoType t ∈ [str "int", str "int64", str "int16", str "string", str "bool",
          str "time.Time", str "float64", str "float32",
          str "map[string]interface\x7b\x7d"] := by
      decide
    exact hall t hk
  · rw [(pgToGoType_unknown t false hk).2]
    decide

theorem timeType_of_pointer_to_time (t : GoString) (n : Bool)
    (h : pgToGoType t n = str "*time.Time") :
    t = str "timestamp without time zone" ∨ t = str "timestamp with time zone"
      ∨ t = str "timestamp" := by
  have hne : ∀ v ∈ [str "int", str "int64", str "int16", str "string", str "bool",
      str "time.Time", str "float64", str "float32", str "map[string]interface\x7b\x7d"],
      v ≠ str "*time.Time" ∧ (str "*" ++ v = str "*time.Time" → v = str "time.Time") := by
    decide
  obtain ⟨h1, h2⟩ := hne _ (baseGoType_values t)
  rw [pgToGoType_eq] at h
  have hb : baseGoType t = str "time.Time" := by
    split_ifs at h
    · exact h2 h
    · exact absurd h h1
  by_cases hk : t ∈ knownStorageTypes
  · have hall : ∀ t ∈ knownStorageTypes, baseGoType t = str "time.Time" →
        t = str "timestamp without time zone" ∨ t = str "timestamp with time zone"
          ∨ t = str "timestamp" := by
      decide
    exact hall t hk hb
  · have := (pgToGoType_unknown t false hk).2
    rw [this] at hb
    exact absurd hb (by decide)

/-- C40: the `import "time"` line is in the model text exactly when some column's storage
type contains `timestamp`, which every column made a `*time.Time` field does; but not
every column whose storage type contains `timestamp` is made a `*time.Time` field: for
the table `events` with one column of storage type `timestamptz` the text imports `time`
and its only field has type `string`. -/
theorem time_import_without_time_field :
    (∀ cols : List Column,
      (∃ c ∈ cols, pgToGoType c.Typ c.IsNullable = str "*time.Time") →
        needsTime cols = true)
    ∧ needsTime eventsTable.Columns = true
    ∧ (∀ c ∈ eventsTable.Columns, pgToGoType c.Typ c.IsNullable ≠ str "*time.Time")
    ∧ GenerateStructs (fun s => s) titleASCII [eventsTable]
      = some [(str "event.go",
          str "package models\n\nimport \"time\"\n\ntype Event struct \x7b\n\tAt string `json:\"at\" db:\"at\"`\n\x7d\n\nfunc (Event) TableName() string \x7b\n\treturn \"events\" \n\x7d\n")] := by
  refine ⟨?_, by decide, by decide, by set_option maxRecDepth 100000 in decide⟩
  rintro cols ⟨c, hc, h⟩
  rw [needsTime_iff]
  refine ⟨c, hc, ?_⟩
  rcases timeType_of_pointer_to_time _ _ h with e | e | e <;> rw [e] <;> decide


/-! ## Fixed points of the singularizer -/

theorem singularizeRev_fixed_iff (r : GoString) :
    (singularizeRev r = r ↔ (¬ [115].isPrefixOf r = true ∨ [115, 115].isPrefixOf r = true))
    ∧ (¬ (¬ [115].isPrefixOf r = true ∨ [115, 115].isPrefixOf r = true) →
        (singularizeRev r).length < r.length) := by
  rcases r with _ | ⟨a, t⟩
  · simp [singularizeRev]
  · by_cases ha : a = 115
    · subst ha
      rcases t with _ | ⟨b, t⟩
      · have hlt := singularizeRev_length_lt [] (by simp)
        have hne : singularizeRev [115] ≠ [115] := fun e => by rw [e] at hlt; omega
        exact ⟨⟨fun e => absurd e hne, fun h => by simp [List.isPrefixOf] at h⟩, fun _ => hlt⟩
      · by_cases hb : b = 115
        · subst hb
          simp [singularizeRev_of_ss, List.isPrefixOf]
        · have hh : (b :: t).head? ≠ some 115 := by simp [hb]
          have hlt := singularizeRev_length_lt (b :: t) hh
          have hne : singularizeRev (115 :: b :: t) ≠ 115 :: b :: t :=
            fun e => by rw [e] at hlt; omega
          have hb2 : ¬ (115 = b) := fun e => hb e.symm
          exact ⟨⟨fun e => absurd e hne, fun h => by simp [List.isPrefixOf, hb2] at h⟩,
            fun _ => hlt⟩
    · have hh : (a :: t).head? ≠ some 115 := by simp [ha]
      have ha2 : ¬ (115 = a) := fun e => ha e.symm
      simp [singularizeRev_of_head_ne _ hh, List.isPrefixOf, ha2]

/-- C39: `singularize(w) = w` exactly when `w` does not end in `s` or ends in `ss`; in
every other case the result is strictly shorter than `w`. -/
theorem singularize_fixed_iff (w : GoString) :
    (singularize w = some w ↔ (¬ str "s" <:+ w ∨ str "ss" <:+ w))
    ∧ (¬ (¬ str "s" <:+ w ∨ str "ss" <:+ w) →
        ∃ r, singularize w = some r ∧ r.length < w.length) := by
  obtain ⟨_, _, _, _, _, _, _, e8, e9, _⟩ := str_suffixes
  obtain ⟨h1, h2⟩ := singularizeRev_fixed_iff w.reverse
  rw [singularize_eq_rev, suffix_iff_rev, suffix_iff_rev, e8, e9]
  refine ⟨?_, ?_⟩
  · rw [← h1, Option.some.injEq, List.reverse_eq_iff]
  · intro h
    refine ⟨_, rfl, ?_⟩
    have := h2 h
    rw [List.length_reverse] at this
    rw [List.length_reverse]
    exact this

/-! ## Unresolved field types -/

/-- C37: for a named field whose type is none of identifier, pointer to identifier,
qualified name, pointer to qualified name, interface literal or map type, the extractor
still emits a descriptor, with an empty type string and the pointer flag set exactly when
the type is a pointer. -/
theorem extractor_unresolved_type (structName n : GoString) (ns : List GoString)
    (typ : AstExpr) (tag : Option GoString) (h : isResolvedType typ = false) :
    (extractStructFields (some (singleStructFile structName [⟨n :: ns, typ, tag⟩]))
        structName).map (fun d => (d.Name, d.Typ, d.IsPointer))
      = [(n, str "", isPointerType typ)] := by
  rw [extractStructFields_single]
  rcases typ with _ | x | ⟨x, sel⟩ | _ | _ | _ | _
  · simp [isResolvedType] at h
  · rcases x with _ | y | ⟨y, sel⟩ | _ | _ | _ | _
    · simp [isResolvedType] at h
    · simp [extractStructFieldsFromAST, isPointerType]
    · rcases y with _ | _ | _ | _ | _ | _ | _
      · simp [isResolvedType] at h
      all_goals simp [extractStructFieldsFromAST, isPointerType]
    all_goals simp [extractStructFieldsFromAST, isPointerType]
  · rcases x with _ | _ | _ | _ | _ | _ | _
    · simp [isResolvedType] at h
    all_goals simp [extractStructFieldsFromAST, isPointerType]
  · simp [isResolvedType] at h
  · simp [isResolvedType] at h
  · simp [extractStructFieldsFromAST, isPointerType]
  · simp [extractStructFieldsFromAST, isPointerType]

/-- C37 at the field of a nullable `jsonb` column, of type `*map[string]interface{}`, at a
slice and at an array of strings: an empty type string, and the pointer flag on the
first only. -/
theorem extractor_unresolved_type_witness :
    pgToGoType (str "jsonb") true = str "*map[string]interface\x7b\x7d"
    ∧ (extractStructFields (some (singleStructFile (str "Doc")
        [⟨[str "Meta"], .StarExpr (.MapType (.Ident (str "string")) .InterfaceType),
          some (str "`json:\"meta,omitempty\" db:\"meta\"`")⟩])) (str "Doc")).map
          (fun d => (d.Name, d.Typ, d.IsPointer))
      = [(str "Meta", str "", true)]
    ∧ (extractStructFields (some (singleStructFile (str "Doc")
        [⟨[str "Tags"], .ArrayType (.Ident (str "string")), none⟩])) (str "Doc")).map
          (fun d => (d.Name, d.Typ, d.IsPointer))
      = [(str "Tags", str "", false)] :=
  ⟨by decide,
   extractor_unresolved_type (str "Doc") (str "Meta") []
    (.StarExpr (.MapType (.Ident (str "string")) .InterfaceType)) _ rfl,
   extractor_unresolved_type (str "Doc") (str "Tags") [] (.ArrayType (.Ident (str "string")))
    none rfl⟩


/-! ## The main DTO -/

theorem infix_of_append_singleton (p x : GoString) (a : Nat) (hp : p ≠ [])
    (hl : p.getLast? ≠ some a) (h : p <:+: x ++ [a]) : p <:+: x := by
  obtain ⟨s, t, e⟩ := h
  rcases List.eq_nil_or_concat t with ht | ⟨t1, b, ht⟩
  · subst ht
    rw [List.append_nil] at e
    have : (s ++ p).getLast? = some a := by rw [e]; simp
    rw [List.getLast?_append_of_ne_nil _ hp] at this
    exact absurd this hl
  · subst ht
    rw [List.concat_eq_append, ← List.append_assoc] at e
    have e2 := List.append_inj' e rfl
    exact ⟨s, t1, e2.1⟩

theorem not_infix_append_DTO (p X : GoString) (hp : p ≠ []) (h68 : p.getLast? ≠ some 68)
    (h84 : p.getLast? ≠ some 84) (h79 : p.getLast? ≠ some 79) (h : ¬ p <:+: X) :
    ¬ p <:+: X ++ str "DTO" := by
  intro hc
  have e : X ++ str "DTO" = ((X ++ [68]) ++ [84]) ++ [79] := by
    have : str "DTO" = [68, 84, 79] := by decide
    rw [this]; simp
  rw [e] at hc
  exact h (infix_of_append_singleton p _ 68 hp h68
    (infix_of_append_singleton p _ 84 hp h84 (infix_of_append_singleton p _ 79 hp h79 hc)))

theorem mainDTO_name_facts (X : GoString) (hC : ¬ str "Create" <:+: X)
    (hU : ¬ str "Update" <:+: X) :
    (!strings_ContainsStr (X ++ str "DTO") (str "Create")
        && !strings_ContainsStr (X ++ str "DTO") (str "Update")) = true
    ∧ (!strings_ContainsStr (X ++ str "CreateDTO") (str "Create")
        && !strings_ContainsStr (X ++ str "CreateDTO") (str "Update")) = false
    ∧ (!strings_ContainsStr (X ++ str "UpdateDTO") (str "Create")
        && !strings_ContainsStr (X ++ str "UpdateDTO") (str "Update")) = false := by
  have c1 : ¬ str "Create" <:+: X ++ str "DTO" :=
    not_infix_append_DTO _ X (by decide) (by decide) (by decide) (by decide) hC
  have c2 : ¬ str "Update" <:+: X ++ str "DTO" :=
    not_infix_append_DTO _ X (by decide) (by decide) (by decide) (by decide) hU
  have c3 : str "Create" <:+: X ++ str "CreateDTO" :=
    ⟨X, str "DTO", by
      have : str "CreateDTO" = str "Create" ++ str "DTO" := by decide
      rw [this]; simp⟩
  have c4 : str "Update" <:+: X ++ str "UpdateDTO" :=
    ⟨X, str "DTO", by
      have : str "UpdateDTO" = str "Update" ++ str "DTO" := by decide
      rw [this]; simp⟩
  simp [strings_ContainsStr, c1, c2, c3, c4]

theorem getMainDTOLoop_unique (l : List (GoString × DTOSchema)) (a : GoString × DTOSchema)
    (ha : a ∈ l)
    (hpa : (!strings_ContainsStr a.1 (str "Create")
      && !strings_ContainsStr a.1 (str "Update")) = true)
    (hu : ∀ e ∈ l, (!strings_ContainsStr e.1 (str "Create")
      && !strings_ContainsStr e.1 (str "Update")) = true → e = a) :
    getMainDTOLoop l = some a.2 := by
  induction l with
  | nil => simp at ha
  | cons e rest ih =>
    obtain ⟨name, dto⟩ := e
    by_cases hp : (!strings_ContainsStr name (str "Create")
        && !strings_ContainsStr name (str "Update")) = true
    · have := hu (name, dto) (List.mem_cons_self _ _) hp
      simp only [getMainDTOLoop, hp, if_true]
      rw [← this]
    · have hne : a ≠ (name, dto) := by
        intro e
        rw [e] at hpa
        exact hp hpa
      have ha2 : a ∈ rest := by
        rcases List.mem_cons.1 ha with h | h
        · exact absurd h hne
        · exact h
      simp only [getMainDTOLoop, hp, if_false, Bool.false_eq_true]
      exact ih ha2 (fun e he => hu e (List.mem_cons_of_mem _ he))

theorem getMainDTOLoop_none (l : List (GoString × DTOSchema))
    (h : ∀ e ∈ l, (!strings_ContainsStr e.1 (str "Create")
      && !strings_ContainsStr e.1 (str "Update")) = false) :
    getMainDTOLoop l = none := by
  induction l with
  | nil => rfl
  | cons e rest ih =>
    obtain ⟨name, dto⟩ := e
    have hp := h (name, dto) (List.mem_cons_self _ _)
    simp only [getMainDTOLoop, hp, if_false, Bool.false_eq_true]
    exact ih (fun e he => h e (List.mem_cons_of_mem _ he))

/-- C38, as stated, fails for the model `Update`: the names `UpdateDTO`,
`UpdateCreateDTO` and `UpdateUpdateDTO` all contain `Update`, and in no iteration order
does `GetMainDTO` return the schema `UpdateDTO`; it returns nil. -/
theorem main_dto_of_update_is_nil :
    ResourceDTOs.GetMainDTO
        ⟨str "update", str "updates", generatedSchemas (str "Update") [] [] []⟩ = none
    ∧ ¬ ∃ order : List (GoString × DTOSchema),
        order.Perm (generatedSchemas (str "Update") [] [] [])
          ∧ ResourceDTOs.GetMainDTO ⟨str "update", str "updates", order⟩
            = some ⟨str "UpdateDTO", []⟩ := by
  have hall : ∀ e ∈ generatedSchemas (str "Update") [] [] [],
      (!strings_ContainsStr e.1 (str "Create")
        && !strings_ContainsStr e.1 (str "Update")) = false := by
    intro e he
    simp only [generatedSchemas, List.mem_cons, List.mem_singleton, List.not_mem_nil,
      or_false] at he
    rcases he with h | h | h <;> subst h <;> decide
  refine ⟨getMainDTOLoop_none _ hall, ?_⟩
  rintro ⟨order, hp, h⟩
  have : ResourceDTOs.GetMainDTO ⟨str "update", str "updates", order⟩ = none :=
    getMainDTOLoop_none _ (fun e he => hall e (hp.mem_iff.1 he))
  rw [this] at h
  exact absurd h (by simp)

/-- C38 (amended): for every model name `X` that contains neither `Create` nor `Update`,
`GetMainDTO` on a `ResourceDTOs` whose map holds exactly the three generated schemas
`XDTO`, `XCreateDTO` and `XUpdateDTO` returns the schema named `XDTO`, whatever the order
in which the map is visited. -/
theorem main_dto_of_generated_schemas (X name plural : GoString)
    (f1 f2 f3 : List StructField) (order : List (GoString × DTOSchema))
    (hC : ¬ str "Create" <:+: X) (hU : ¬ str "Update" <:+: X)
    (hp : order.Perm (generatedSchemas X f1 f2 f3)) :
    ResourceDTOs.GetMainDTO ⟨name, plural, order⟩ = some ⟨X ++ str "DTO", f1⟩ := by
  obtain ⟨p1, p2, p3⟩ := mainDTO_name_facts X hC hU
  have hmem : ∀ e, e ∈ order ↔ e ∈ generatedSchemas X f1 f2 f3 := fun e => hp.mem_iff
  refine getMainDTOLoop_unique order (X ++ str "DTO", ⟨X ++ str "DTO", f1⟩) ?_ p1 ?_
  · rw [hmem]; simp [generatedSchemas]
  · intro e he hpe
    rw [hmem] at he
    simp only [generatedSchemas, List.mem_cons, List.mem_singleton, List.not_mem_nil,
      or_false] at he
    rcases he with h | h | h
    · exact h
    · subst h; rw [p2] at hpe; exact absurd hpe (by simp)
    · subst h; rw [p3] at hpe; exact absurd hpe (by simp)

/-- C38 (amended) at the model `User`, visited with `UserUpdateDTO` first. -/
theorem main_dto_of_generated_schemas_witness :
    ResourceDTOs.GetMainDTO ⟨str "user", str "users",
        [(str "User" ++ str "UpdateDTO", ⟨str "User" ++ str "UpdateDTO", []⟩),
         (str "User" ++ str "DTO", ⟨str "User" ++ str "DTO", [idField]⟩),
         (str "User" ++ str "CreateDTO", ⟨str "User" ++ str "CreateDTO", []⟩)]⟩
      = some ⟨str "User" ++ str "DTO", [idField]⟩ :=
  main_dto_of_generated_schemas (str "User") (str "user") (str "users") [idField] [] []
    _ (by decide) (by decide)
    ((List.Perm.swap _ _ _).trans (List.Perm.cons _ (List.Perm.swap _ _ _)))



/-! ## Conversion functions and DTO declarations -/

theorem infix_chain12 (a1 a2 a3 a4 a5 a6 a7 a8 a9 a10 a11 a12 rest : GoString) :
    a1 ++ (a2 ++ (a3 ++ (a4 ++ (a5 ++ (a6 ++ (a7 ++ (a8 ++ (a9 ++ (a10 ++ (a11 ++ a12))))))))))
      <:+: a1 ++ (a2 ++ (a3 ++ (a4 ++ (a5 ++ (a6 ++ (a7 ++ (a8 ++ (a9 ++ (a10
        ++ (a11 ++ (a12 ++ rest))))))))))) :=
  ⟨[], rest, by simp⟩

theorem conversion_read_loop (fields : List StructField) :
    fields.foldl
        (fun b field =>
          if field.DTOTag = str "-" ∨ field.DTOTag = str "write" then b
          else b ++ (str "\t\t" ++ field.Name ++ str ": m." ++ field.Name ++ str ",\n"))
        []
      = (fields.filter inReadDTO).flatMap readAssignment := by
  rw [foldl_step_eq_filter _ inReadDTO readAssignment]
  · simp
  · intro r x
    by_cases h1 : x.DTOTag = str "-" <;> by_cases h2 : x.DTOTag = str "write" <;>
      simp [inReadDTO, readAssignment, h1, h2]

theorem conversion_write_loop (unicodeLower : GoString → GoString)
    (fields : List StructField) :
    fields.foldl
        (fun b field =>
          let dbTag := strings_ToLower unicodeLower field.DBTag
          if dbTag ≠ FieldID ∧ dbTag ≠ FieldCreatedAt ∧ dbTag ≠ FieldUpdatedAt then
            if field.DTOTag = str "-" ∨ field.DTOTag = str "read" then b
            else b ++ (str "\t\t" ++ field.Name ++ str ": dto." ++ field.Name ++ str ",\n")
          else b)
        []
      = (fields.filter (inWriteDTO unicodeLower)).flatMap writeAssignment := by
  rw [foldl_step_eq_filter _ (inWriteDTO unicodeLower) writeAssignment]
  · simp
  · intro r x
    obtain ⟨e1, e2, e3⟩ := toLower_fixed_keys unicodeLower
    by_cases h1 : x.DTOTag = str "-" <;> by_cases h2 : x.DTOTag = str "read" <;>
      by_cases h4 : strings_ToLower unicodeLower x.DBTag = FieldID <;>
      by_cases h5 : strings_ToLower unicodeLower x.DBTag = FieldCreatedAt <;>
      by_cases h6 : strings_ToLower unicodeLower x.DBTag = FieldUpdatedAt <;>
      simp [inWriteDTO, equalIgnoringCase, writeAssignment, e1, e2, e3, h1, h2, h4, h5, h6]

theorem generateConversionFunctions_blocks (unicodeLower : GoString → GoString)
    (structName : GoString) (fields : List StructField) :
    (str "\treturn dtos." ++ structName ++ str "DTO\x7b\n"
        ++ (fields.filter inReadDTO).flatMap readAssignment ++ str "\t\x7d\n"
      <:+: generateConversionFunctions unicodeLower structName fields)
    ∧ (str "func " ++ strings_ToLower unicodeLower structName
        ++ str "CreateDTOToModel(dto dtos." ++ structName ++ str "CreateDTO) models."
        ++ structName ++ str " \x7b\n" ++ str "\treturn models." ++ structName ++ str "\x7b\n"
        ++ (fields.filter (inWriteDTO unicodeLower)).flatMap writeAssignment ++ str "\t\x7d\n"
      <:+: generateConversionFunctions unicodeLower structName fields)
    ∧ (str "func " ++ strings_ToLower unicodeLower structName
        ++ str "UpdateDTOToModel(dto dtos." ++ structName ++ str "UpdateDTO) models."
        ++ structName ++ str " \x7b\n" ++ str "\treturn models." ++ structName ++ str "\x7b\n"
        ++ (fields.filter (inWriteDTO unicodeLower)).flatMap writeAssignment ++ str "\t\x7d\n"
      <:+: generateConversionFunctions unicodeLower structName fields) := by
  unfold generateConversionFunctions
  rw [conversion_read_loop, conversion_write_loop]
  simp only [List.append_assoc]
  refine ⟨?_, ?_, ?_⟩
  · repeat (first | with_reducible exact infix_chain5 _ _ _ _ _ _ | apply infix_skip)
  · repeat (first
      | with_reducible exact infix_chain12 _ _ _ _ _ _ _ _ _ _ _ _ _ | apply infix_skip)
  · repeat (first
      | with_reducible exact infix_chain12 _ _ _ _ _ _ _ _ _ _ _ _ _ | apply infix_skip)


theorem prefix_chain3 (a x b rest : GoString) : a ++ (x ++ b) <+: a ++ (x ++ (b ++ rest)) :=
  ⟨rest, by simp⟩

/-- C34: the conversion functions assign the fields the DTO declarations declare. The
field lines of `<X>DTO` and the assignments of `modelTo<X>DTO` run over the same fields in
the same order, those the read rule keeps; the field lines of `<X>CreateDTO` and of
`<X>UpdateDTO` and the assignments of `<x>CreateDTOToModel` and of `<x>UpdateDTOToModel`
run over the same fields in the same order, those the write rule keeps. Each field line
and each assignment starts with the name of its field. -/
theorem conversions_agree_with_dtos (unicodeLower title : GoString → GoString)
    (structName : GoString) (fields : List StructField) :
    generateDTOFields unicodeLower title fields
      = (fields.filter inReadDTO).flatMap (dtoFieldLine unicodeLower title)
    ∧ (str "\treturn dtos." ++ structName ++ str "DTO\x7b\n"
        ++ (fields.filter inReadDTO).flatMap readAssignment ++ str "\t\x7d\n"
      <:+: generateConversionFunctions unicodeLower structName fields)
    ∧ generateCreateDTOFields unicodeLower title fields
      = (fields.filter (inWriteDTO unicodeLower)).flatMap (dtoFieldLine unicodeLower title)
    ∧ (str "func " ++ strings_ToLower unicodeLower structName
        ++ str "CreateDTOToModel(dto dtos." ++ structName ++ str "CreateDTO) models."
        ++ structName ++ str " \x7b\n" ++ str "\treturn models." ++ structName ++ str "\x7b\n"
        ++ (fields.filter (inWriteDTO unicodeLower)).flatMap writeAssignment ++ str "\t\x7d\n"
      <:+: generateConversionFunctions unicodeLower structName fields)
    ∧ generateUpdateDTOFields unicodeLower title fields
      = (fields.filter (inWriteDTO unicodeLower)).flatMap (dtoFieldLine unicodeLower title)
    ∧ (str "func " ++ strings_ToLower unicodeLower structName
        ++ str "UpdateDTOToModel(dto dtos." ++ structName ++ str "UpdateDTO) models."
        ++ structName ++ str " \x7b\n" ++ str "\treturn models." ++ structName ++ str "\x7b\n"
        ++ (fields.filter (inWriteDTO unicodeLower)).flatMap writeAssignment ++ str "\t\x7d\n"
      <:+: generateConversionFunctions unicodeLower structName fields)
    ∧ (∀ f : StructField,
        str "\t" ++ f.Name ++ str " " <+: dtoFieldLine unicodeLower title f
        ∧ str "\t\t" ++ f.Name ++ str ": m." <+: readAssignment f
        ∧ str "\t\t" ++ f.Name ++ str ": dto." <+: writeAssignment f) := by
  obtain ⟨h1, h2, h3⟩ := generateConversionFunctions_blocks unicodeLower structName fields
  refine ⟨generateDTOFields_eq _ _ _, h1, generateCreateDTOFields_eq _ _ _, h2,
    generateUpdateDTOFields_eq _ _ _, h3, ?_⟩
  intro f
  refine ⟨?_, ?_, ?_⟩
  · simp only [dtoFieldLine, List.append_assoc]
    exact prefix_chain3 _ _ _ _
  · simp only [readAssignment, List.append_assoc]
    exact prefix_chain3 _ _ _ _
  · simp only [writeAssignment, List.append_assoc]
    exact prefix_chain3 _ _ _ _

/-! ## The allow-list and the read DTO -/

theorem allowedFieldsList_eq (fields : List StructField) :
    allowedFieldsList fields = (fields.filter inAllowList).map quotedDBTag := by
  unfold allowedFieldsList
  rw [allowedFieldsList_loop, List.nil_append]

/-- C35, as stated, fails at the field `DeletedAt` with db tag `deleted_at` and dto tag
`-`: the read DTO has no line for it, and the allow-list emitted holds its key. -/
theorem dash_field_in_allow_list :
    hiddenDeletedAt.DTOTag = str "-"
    ∧ inReadDTO hiddenDeletedAt = false
    ∧ generateDTOFields (fun s => s) titleASCII [hiddenDeletedAt] = []
    ∧ allowedFieldsList [hiddenDeletedAt] = [str "\"deleted_at\""]
    ∧ (resourceLocals (surroundingsOfExample false) (str "Todo") [hiddenDeletedAt]
        none).allowedFieldsStr = str "\"deleted_at\"" := by
  refine ⟨by decide, by decide, by decide, by decide, ?_⟩
  show allowedFieldsStr [hiddenDeletedAt] = _
  decide

/-- C35 (amended): every key of the allow-list of the `List` handler is the quoted db tag
of a field that the read DTO includes or whose dto tag is `-`: no field with the dto tag
`write` is exposed for filtering or ordering, while every field with a db tag other than
`password` and the dto tag `-` is. The allow-list is what the `List` handler of the text
declares as `allowedFields`. -/
theorem allow_list_keys_not_write_only (w : Surroundings) (structName : GoString)
    (fields : List StructField) (authCfg : Option AuthConfig) :
    let l := resourceLocals w structName fields authCfg
    (∀ k ∈ allowedFieldsList fields, ∃ f ∈ fields,
        k = str "\"" ++ f.DBTag ++ str "\"" ∧ f.DBTag ≠ str "" ∧ f.DBTag ≠ str "password"
          ∧ f.DTOTag ≠ str "write" ∧ (inReadDTO f = true ∨ f.DTOTag = str "-"))
    ∧ (∀ f ∈ fields, f.DBTag ≠ str "" → f.DBTag ≠ str "password" → f.DTOTag ≠ str "write" →
        str "\"" ++ f.DBTag ++ str "\"" ∈ allowedFieldsList fields)
    ∧ (∀ f ∈ fields, f.DBTag ≠ str "" → f.DBTag ≠ str "password" → f.DTOTag = str "-" →
        str "\"" ++ f.DBTag ++ str "\"" ∈ allowedFieldsList fields ∧ inReadDTO f = false)
    ∧ l.allowedFieldsStr = strings_Join (allowedFieldsList fields) (str ", ")
    ∧ (str "\tallowedFields := []string\x7b" ++ l.allowedFieldsStr ++ str "\x7d\n"
        <:+: listHandler structName l.pluralResourceName l.allowedFieldsStr l.contextFunc)
    ∧ (listHandler structName l.pluralResourceName l.allowedFieldsStr l.contextFunc
        <:+: generateResourceFromModel w structName fields authCfg) := by
  intro l
  have hw : str "-" ≠ str "write" := by decide
  have hin : ∀ f ∈ fields, f.DBTag ≠ str "" → f.DBTag ≠ str "password" →
      f.DTOTag ≠ str "write" → str "\"" ++ f.DBTag ++ str "\"" ∈ allowedFieldsList fields := by
    intro f hf h1 h2 h3
    rw [allowedFieldsList_eq]
    refine List.mem_map.2 ⟨f, List.mem_filter.2 ⟨hf, ?_⟩, rfl⟩
    simp [inAllowList, h1, h2, h3]
  refine ⟨?_, hin, ?_, rfl, listHandler_allow_line _ _ _ _, ?_⟩
  · intro k hk
    rw [allowedFieldsList_eq] at hk
    obtain ⟨f, hf, e⟩ := List.mem_map.1 hk
    obtain ⟨hmem, hp⟩ := List.mem_filter.1 hf
    simp only [inAllowList, decide_eq_true_eq] at hp
    refine ⟨f, hmem, e.symm, hp.1, hp.2.1, hp.2.2, ?_⟩
    by_cases hd : f.DTOTag = str "-"
    · exact Or.inr hd
    · left
      simp [inReadDTO, hd, hp.2.2]
  · intro f hf h1 h2 h3
    refine ⟨hin f hf h1 h2 (by rw [h3]; exact hw), ?_⟩
    simp [inReadDTO, h3]
  · simp only [generateResourceFromModel, resourceFormat, List.append_assoc]
    repeat (first | with_reducible exact infix_head _ _ | apply infix_skip)


/-! ## Declaration and use of the middleware variable -/

theorem infix_chain6 (a1 a2 a3 a4 a5 a6 rest : GoString) :
    a1 ++ (a2 ++ (a3 ++ (a4 ++ (a5 ++ a6))))
      <:+: a1 ++ (a2 ++ (a3 ++ (a4 ++ (a5 ++ (a6 ++ rest))))) :=
  ⟨[], rest, by simp⟩

theorem setup_declares_iff (needs : Bool) :
    str "var authMiddleware" <:+: authMiddlewareSetup needs ↔ needs = true := by
  cases needs
  · have h : ¬ str "var authMiddleware" <:+: authMiddlewareSetup false := by
      set_option maxRecDepth 100000 in decide
    simp [h]
  · have h : str "var authMiddleware" <:+: authMiddlewareSetup true := by
      set_option maxRecDepth 100000 in decide
    simp [h]

theorem route_references_iff (method path handler resource httpMethod : GoString)
    (authCfg : Option AuthConfig) (hm : 77 ∉ method) (hp : 77 ∉ path) (hh : 77 ∉ handler) :
    str "authMiddleware"
        <:+: generateRouteWithAuth method path handler resource httpMethod authCfg
      ↔ requiresAuthOf authCfg resource httpMethod = true := by
  cases h : requiresAuthOf authCfg resource httpMethod
  · rw [generateRouteWithAuth_direct _ _ _ _ _ _ h]
    have hall : (str "\t" ++ directRegistration method path handler ++ str "\n").all
        (fun c => decide (c ≠ 77)) = true := by
      have h1 := all_ne_of_not_mem 77 method hm
      have h2 := all_ne_of_not_mem 77 path hp
      have h3 := all_ne_of_not_mem 77 handler hh
      simp only [directRegistration, List.all_append, h1, h2, h3, Bool.and_true,
        Bool.true_and]
      decide
    have := not_infix_of_byte 77 (str "authMiddleware") _ (by decide) hall
    constructor
    · intro hc; exact absurd hc this
    · intro hc; exact absurd hc (by simp)
  · rw [generateRouteWithAuth_guarded _ _ _ _ _ _ h]
    have h0 : str "authMiddleware" <:+: str "\n\tif authMiddleware != nil \x7b\n\t\t" := by
      decide
    have : str "authMiddleware" <:+: guardedBlock method path handler := by
      refine h0.trans ?_
      simp only [guardedBlock, List.append_assoc]
      exact infix_head _ _
    simp [this]

theorem routes_reference_iff (P : GoString) (authCfg : Option AuthConfig) (hP : 77 ∉ P) :
    str "var authMiddleware" <:+: authMiddlewareSetup (needsAuthContext authCfg P)
      ↔ (str "authMiddleware"
          <:+: generateRouteWithAuth (str "Get") P (str "res.List") P (str "GET") authCfg
        ∨ str "authMiddleware"
          <:+: generateRouteWithAuth (str "Get") (P ++ str "/:id") (str "res.Get") P
            (str "GET") authCfg
        ∨ str "authMiddleware"
          <:+: generateRouteWithAuth (str "Post") P (str "res.Create") P (str "POST") authCfg
        ∨ str "authMiddleware"
          <:+: generateRouteWithAuth (str "Put") (P ++ str "/:id") (str "res.Update") P
            (str "PUT") authCfg
        ∨ str "authMiddleware"
          <:+: generateRouteWithAuth (str "Delete") (P ++ str "/:id") (str "res.Delete") P
            (str "DELETE") authCfg) := by
  have hid : 77 ∉ P ++ str "/:id" := by
    intro h
    rcases List.mem_append.1 h with h | h
    · exact hP h
    · revert h; decide
  have m1 : 77 ∉ str "Get" ∧ 77 ∉ str "Post" ∧ 77 ∉ str "Put" ∧ 77 ∉ str "Delete"
      ∧ 77 ∉ str "res.List" ∧ 77 ∉ str "res.Get" ∧ 77 ∉ str "res.Create"
      ∧ 77 ∉ str "res.Update" ∧ 77 ∉ str "res.Delete" := by decide
  obtain ⟨g, po, pu, de, hl, hg, hc, hu, hd⟩ := m1
  rw [setup_declares_iff, needsAuthContext_eq,
    route_references_iff _ _ _ P (str "GET") authCfg g hP hl,
    route_references_iff _ _ _ P (str "GET") authCfg g hid hg,
    route_references_iff _ _ _ P (str "POST") authCfg po hP hc,
    route_references_iff _ _ _ P (str "PUT") authCfg pu hid hu,
    route_references_iff _ _ _ P (str "DELETE") authCfg de hid hd]
  cases requiresAuthOf authCfg P (str "GET") <;> cases requiresAuthOf authCfg P (str "POST")
    <;> cases requiresAuthOf authCfg P (str "PUT")
    <;> cases requiresAuthOf authCfg P (str "DELETE") <;> simp

theorem registration_body_infix_text (w : Surroundings) (structName : GoString)
    (fields : List StructField) (authCfg : Option AuthConfig) :
    (resourceLocals w structName fields authCfg).authMiddlewareSetup
        ++ (resourceLocals w structName fields authCfg).listRoute
        ++ (resourceLocals w structName fields authCfg).getRoute
        ++ (resourceLocals w structName fields authCfg).postRoute
        ++ (resourceLocals w structName fields authCfg).putRoute
        ++ (resourceLocals w structName fields authCfg).deleteRoute
      <:+: generateResourceFromModel w structName fields authCfg := by
  unfold generateResourceFromModel resourceFormat
  simp only [List.append_assoc]
  refine infix_skip _ ?_
  with_reducible exact infix_chain6 _ _ _ _ _ _ _

theorem generateRouteWithAuth_eq_ite (method path handler resource httpMethod : GoString)
    (authCfg : Option AuthConfig) :
    generateRouteWithAuth method path handler resource httpMethod authCfg
      = if requiresAuthOf authCfg resource httpMethod = true then
          guardedBlock method path handler
        else str "\t" ++ directRegistration method path handler ++ str "\n" := by
  cases h : requiresAuthOf authCfg resource httpMethod
  · rw [generateRouteWithAuth_direct _ _ _ _ _ _ h]; simp
  · rw [generateRouteWithAuth_guarded _ _ _ _ _ _ h]; simp

/-- C36: the resource text declares the variable `authMiddleware` exactly when at least
one of its five route registrations references it. The declaration is emitted exactly
when some of the verbs GET, POST, PUT, DELETE requires authentication on the plural
resource name `P`; each of the five registrations is the block that passes
`authMiddleware` when its verb requires authentication and the direct registration
otherwise; and, for `P` free of the letter `M`, the text of the declaration slot
contains `var authMiddleware` exactly when the text of some route contains
`authMiddleware`. The declaration and the five registrations are the body of the
registration function. -/
theorem middleware_declared_iff_referenced (w : Surroundings) (structName : GoString)
    (fields : List StructField) (authCfg : Option AuthConfig) :
    let l := resourceLocals w structName fields authCfg
    let P := w.Pluralize (strings_ToLower w.unicodeLower structName)
    l.authMiddlewareSetup
        = authMiddlewareSetup (requiresAuthOf authCfg P (str "GET")
            || requiresAuthOf authCfg P (str "POST") || requiresAuthOf authCfg P (str "PUT")
            || requiresAuthOf authCfg P (str "DELETE"))
    ∧ (∀ needs : Bool, str "var authMiddleware" <:+: authMiddlewareSetup needs ↔ needs = true)
    ∧ l.listRoute
        = (if requiresAuthOf authCfg P (str "GET") = true then
            guardedBlock (str "Get") P (str "res.List")
          else str "\t" ++ directRegistration (str "Get") P (str "res.List") ++ str "\n")
    ∧ l.getRoute
        = (if requiresAuthOf authCfg P (str "GET") = true then
            guardedBlock (str "Get") (P ++ str "/:id") (str "res.Get")
          else str "\t" ++ directRegistration (str "Get") (P ++ str "/:id") (str "res.Get")
            ++ str "\n")
    ∧ l.postRoute
        = (if requiresAuthOf authCfg P (str "POST") = true then
            guardedBlock (str "Post") P (str "res.Create")
          else str "\t" ++ directRegistration (str "Post") P (str "res.Create") ++ str "\n")
    ∧ l.putRoute
        = (if requiresAuthOf authCfg P (str "PUT") = true then
            guardedBlock (str "Put") (P ++ str "/:id") (str "res.Update")
          else str "\t" ++ directRegistration (str "Put") (P ++ str "/:id") (str "res.Update")
            ++ str "\n")
    ∧ l.deleteRoute
        = (if requiresAuthOf authCfg P (str "DELETE") = true then
            guardedBlock (str "Delete") (P ++ str "/:id") (str "res.Delete")
          else str "\t"
            ++ directRegistration (str "Delete") (P ++ str "/:id") (str "res.Delete")
            ++ str "\n")
    ∧ (77 ∉ P →
        (str "var authMiddleware" <:+: l.authMiddlewareSetup
          ↔ (str "authMiddleware" <:+: l.listRoute ∨ str "authMiddleware" <:+: l.getRoute
            ∨ str "authMiddleware" <:+: l.postRoute ∨ str "authMiddleware" <:+: l.putRoute
            ∨ str "authMiddleware" <:+: l.deleteRoute)))
    ∧ l.authMiddlewareSetup ++ l.listRoute ++ l.getRoute ++ l.postRoute ++ l.putRoute
        ++ l.deleteRoute
      <:+: generateResourceFromModel w structName fields authCfg := by
  intro l P
  refine ⟨?_, setup_declares_iff, generateRouteWithAuth_eq_ite _ _ _ _ _ _,
    generateRouteWithAuth_eq_ite _ _ _ _ _ _, generateRouteWithAuth_eq_ite _ _ _ _ _ _,
    generateRouteWithAuth_eq_ite _ _ _ _ _ _, generateRouteWithAuth_eq_ite _ _ _ _ _ _,
    fun hP => routes_reference_iff P authCfg hP,
    registration_body_infix_text w structName fields authCfg⟩
  show authMiddlewareSetup (needsAuthContext authCfg P) = _
  rw [needsAuthContext_eq]

/-- C36 at the model `User` under `DefaultAuthConfig`, which requires authentication on
`users`: the variable is declared and the list route references it. -/
theorem middleware_declared_iff_referenced_witness :
    (str "var authMiddleware"
        <:+: (resourceLocals (surroundingsOfExample false) (str "User") fieldsOfUserTest
          (some DefaultAuthConfig)).authMiddlewareSetup
      ↔ (str "authMiddleware"
          <:+: (resourceLocals (surroundingsOfExample false) (str "User") fieldsOfUserTest
            (some DefaultAuthConfig)).listRoute
        ∨ str "authMiddleware"
          <:+: (resourceLocals (surroundingsOfExample false) (str "User") fieldsOfUserTest
            (some DefaultAuthConfig)).getRoute
        ∨ str "authMiddleware"
          <:+: (resourceLocals (surroundingsOfExample false) (str "User") fieldsOfUserTest
            (some DefaultAuthConfig)).postRoute
        ∨ str "authMiddleware"
          <:+: (resourceLocals (surroundingsOfExample false) (str "User") fieldsOfUserTest
            (some DefaultAuthConfig)).putRoute
        ∨ str "authMiddleware"
          <:+: (resourceLocals (surroundingsOfExample false) (str "User") fieldsOfUserTest
            (some DefaultAuthConfig)).deleteRoute))
    ∧ requiresAuthOf (some DefaultAuthConfig) (str "users") (str "GET") = true :=
  ⟨(middleware_declared_iff_referenced (surroundingsOfExample false) (str "User")
      fieldsOfUserTest (some DefaultAuthConfig)).2.2.2.2.2.2.2.1 (by decide), by decide⟩


end Codegen
